import Mathlib

/-! Beam: the shielded pull transaction, the treasury block generator, the inbound
messages of a service session, and asset metadata.

Shallow embeddings of `src/wallet/transactions/lelantus/pull_transaction.cpp`
(`PullTransaction::UpdateImpl`, `PullTransaction::RollbackTx`) and, further down,
of the treasury generator of `src/beam/beam.cpp`, of `session::process_data` of
`src/wallet/service/service.cpp`, and of `WalletAssetMeta` of
`src/wallet/core/assets_utils.cpp`.

`UpdateImpl` is one non-blocking step of a resumable state machine.  Everything it
reads from its collaborators (the parameter store, the wallet database, the
`BaseTxBuilder`, the base transaction) is code outside this file; each such call is
called at most once per invocation, so its return value is a field of `Env`, and
each call with an effect is recorded, in program order, in the event trace of the
result.  Collaborator calls are taken to return normally; in particular the two
mandatory parameters `Fee` and `ShieldedOutputId` are present.  Logging and the
constant getters used only for logging (`IsAssetTx`, `GetAmount`, `GetFee`) have no
effect on the state and are left out.  Machine integers are `Nat`; the one addition
that can wrap (`Amount` is a 64-bit unsigned integer) is reduced modulo `2 ^ 64`.

Layout: the data model, `UpdateImpl` split along its source lines
(`ensureBuilder` 62-76, `initialParamsBlock` 78-108, `builderSteps` 110-123,
`registerAndConfirm` 125-164, `confirmAndComplete` 166-185), concrete environments,
the wallet database of `RollbackTx`, the treasury generator, the session, the asset
metadata, then the theorems.
-/

namespace beam.wallet.lelantus

/-- Unsigned 64-bit amount (`Amount`). -/
abbrev Amount := Nat
/-- Block height (`Height`, unsigned 64-bit). -/
abbrev Height := Nat
/-- Index of an output in the shielded pool (`TxoID`). -/
abbrev TxoID := Nat
/-- Transaction identifier (`TxID`), kept as an uninterpreted handle. -/
abbrev TxID := Nat
/-- Sub-transaction identifier (`SubTxID`). -/
abbrev SubTxID := Nat
/-- Asset identifier (`Asset::ID`); zero is the default asset. -/
abbrev AssetID := Nat
/-- Kernel identifier (`Merkle::Hash`), kept as an uninterpreted handle. -/
abbrev KernelID := Nat
/-- Handle of an assembled transaction (`Transaction::Ptr`). -/
abbrev Transaction := Nat

/-- Modulus of the unsigned 64-bit arithmetic of `Amount`. -/
def amountModulus : Nat := 2 ^ 64

/-- The two members of `Transaction::FeeSettings` that `UpdateImpl` reads.  The
structure is default-constructed in the source; its constants are declared
elsewhere, so they are parameters here. -/
structure FeeSettings where
  m_Kernel : Amount
  m_ShieldedInput : Amount
  deriving DecidableEq, Repr

/-- The members of `ShieldedTxo::ID` the transaction looks at, with the key material
kept as one uninterpreted field. -/
structure ShieldedTxoID where
  m_Value : Amount
  m_AssetID : AssetID
  m_Key : Nat
  deriving DecidableEq, Repr

/-- A shielded coin of the wallet database.  `IsAvailable` is the value of the
method `IsAvailable()`, whose body is outside this file. -/
structure ShieldedCoin where
  m_CoinID : ShieldedTxoID
  m_spentHeight : Height
  IsAvailable : Bool
  deriving DecidableEq, Repr

/-- Element of the builder's shielded input list: a `ShieldedTxo::ID` together with
the fee attached to it. -/
structure ShieldedInput extends ShieldedTxoID where
  m_Fee : Amount
  deriving DecidableEq, Repr

/-- The part of `BaseTxBuilder` that `UpdateImpl` itself writes: the constructor
arguments and the shielded input list returned by `get_InputCoinsShielded`. -/
structure BaseTxBuilder where
  subTxID : SubTxID
  amountList : List Amount
  m_Fee : Amount
  m_InputCoinsShielded : List ShieldedInput
  deriving DecidableEq, Repr

/-- The failure reasons (`TxFailureReason`) used by this transaction. -/
inductive TxFailureReason where
  | NoInputs
  | AssetsDisabled
  | InvalidTransaction
  | FailedToRegister
  deriving DecidableEq, Repr

/-- The members of the object: the asset switch given at creation and the lazily
constructed builder. -/
structure PullTransaction where
  m_withAssets : Bool
  m_TxBuilder : Option BaseTxBuilder
  deriving DecidableEq, Repr

/-- What one invocation of `UpdateImpl` observes of its collaborators. -/
structure Env where
  /-- the default-constructed `Transaction::FeeSettings` -/
  fs : FeeSettings
  /-- `GetMandatoryParameter<Amount>(TxParameterID::Fee)` -/
  Fee : Amount
  /-- `GetMandatoryParameter<TxoID>(TxParameterID::ShieldedOutputId)` -/
  ShieldedOutputId : TxoID
  GetSubTxID : SubTxID
  GetTxID : TxID
  /-- `GetWalletDB()->getShieldedCoin(TxoID)` -/
  getShieldedCoin : TxoID → Option ShieldedCoin
  /-- `GetWalletDB()->getShieldedCoin(const TxID&)` -/
  getShieldedCoinByTx : TxID → Option ShieldedCoin
  /-- result of `m_TxBuilder->GetInitialTxParams()` -/
  GetInitialTxParams : Bool
  /-- result of `m_TxBuilder->CreateInputs()`: true means still pending -/
  CreateInputs : Bool
  /-- result of `m_TxBuilder->CreateOutputs()`: true means still pending -/
  CreateOutputs : Bool
  /-- result of `m_TxBuilder->SignSplit()`: true means still pending -/
  SignSplit : Bool
  /-- the persisted `TxParameterID::TransactionRegistered`, if any -/
  TransactionRegistered : Option Nat
  /-- result of `CheckExpired()` -/
  CheckExpired : Bool
  /-- result of `m_TxBuilder->CreateTransaction()` -/
  CreateTransaction : Transaction
  /-- result of `m_TxBuilder->GetMinHeight()` -/
  GetMinHeight : Height
  /-- `transaction->IsValid(ctx)` as a function of the transaction and `ctx.m_Height.m_Min` -/
  IsValid : Transaction → Height → Bool
  /-- the persisted `TxParameterID::KernelUnconfirmedHeight`, if any -/
  KernelUnconfirmedHeight : Option Height
  /-- the persisted `TxParameterID::KernelProofHeight`, if any -/
  KernelProofHeight : Option Height
  /-- result of `m_TxBuilder->GetKernelID()` -/
  GetKernelID : KernelID
  /-- the constant `proto::TxStatus::Ok` -/
  TxStatus_Ok : Nat
  /-- the constant `proto::TxStatus::InvalidContext` -/
  TxStatus_InvalidContext : Nat

/-- The effectful calls `UpdateImpl` makes, in the order it makes them. -/
inductive Event where
  /-- `std::make_shared<BaseTxBuilder>(*this, GetSubTxID(), amoutList, fee)` -/
  | newBaseTxBuilder (subTxID : SubTxID) (amountList : List Amount) (fee : Amount)
  | GetInitialTxParams (loaded : Bool)
  /-- `UpdateTxDescription(TxStatus::InProgress)` -/
  | UpdateTxDescription_InProgress
  /-- `vInp.emplace_back()` followed by the two assignments to the new element -/
  | emplaceShieldedInput (inp : ShieldedInput)
  | SelectInputs
  | AddChange
  | CreateInputs (pending : Bool)
  | CreateOutputs (pending : Bool)
  | SignSplit (pending : Bool)
  | CheckExpired (expired : Bool)
  | CreateTransaction (tx : Transaction)
  | OnFailed (reason : TxFailureReason) (notify : Bool)
  | register_tx (txID : TxID) (tx : Transaction) (subTxID : SubTxID)
  | ConfirmKernel (kernelID : KernelID)
  | saveShieldedCoin (coin : ShieldedCoin)
  | SetCompletedTxCoinStatuses (hProof : Height)
  | CompleteTx
  deriving DecidableEq, Repr

/-- How an invocation ends. -/
inductive Outcome where
  /-- a `return` statement or the end of the body -/
  | returned
  /-- `throw TransactionFailedException(notify, reason)` -/
  | thrown (notify : Bool) (reason : TxFailureReason)
  /-- member access through an empty `boost::optional` (undefined behaviour) -/
  | emptyOptionalDeref
  deriving DecidableEq, Repr

/-- Final object state, event trace and outcome of one invocation. -/
structure Result where
  tx : PullTransaction
  events : List Event
  outcome : Outcome
  deriving DecidableEq, Repr

/-- The helper `std::setmax(a, b)`: raise `a` to `b` when it is smaller. -/
def setmax (a b : Amount) : Amount := if a < b then b else a

/-- Line 60: `Amount feeShielded = fs.m_ShieldedInput + fs.m_Kernel`. -/
def feeShielded (fs : FeeSettings) : Amount :=
  (fs.m_ShieldedInput + fs.m_Kernel) % amountModulus

/-- Lines 67-72: the fee argument of the builder constructor, from the declared
`Fee` parameter. -/
def builderFee (fs : FeeSettings) (declared : Amount) : Amount :=
  let fee := declared
  let fee := if fee ≥ feeShielded fs then fee - feeShielded fs else fee
  setmax fee fs.m_Kernel

/-- Lines 62-76: construct the builder when the object has none yet. -/
def ensureBuilder (env : Env) (self : PullTransaction) : BaseTxBuilder × List Event :=
  match self.m_TxBuilder with
  | some b => (b, [])
  | none =>
    let amoutList : List Amount := [0]
    let fee := builderFee env.fs env.Fee
    (⟨env.GetSubTxID, amoutList, fee, []⟩,
      [Event.newBaseTxBuilder env.GetSubTxID amoutList fee])

/-- Lines 78-108: the block run while the initial parameters are not loaded.
Returns the builder, the events and, when the block does not fall through, the
outcome that ends the invocation. -/
def initialParamsBlock (env : Env) (withAssets : Bool) (b : BaseTxBuilder) :
    BaseTxBuilder × List Event × Option Outcome :=
  if env.GetInitialTxParams then
    (b, [Event.GetInitialTxParams true], none)
  else
    let ev := [Event.GetInitialTxParams false, Event.UpdateTxDescription_InProgress]
    match env.getShieldedCoin env.ShieldedOutputId with
    | none =>
      -- line 85 reads `shieldedCoin->m_CoinID` before any presence check
      (b, ev, some Outcome.emptyOptionalDeref)
    | some shieldedCoin =>
      if shieldedCoin.m_CoinID.m_AssetID ≠ 0 ∧ withAssets = false then
        (b, ev, some (Outcome.thrown false TxFailureReason.AssetsDisabled))
      else if b.m_InputCoinsShielded.isEmpty then
        if shieldedCoin.IsAvailable = false then
          (b, ev, some (Outcome.thrown false TxFailureReason.NoInputs))
        else
          let inp : ShieldedInput := ⟨shieldedCoin.m_CoinID, feeShielded env.fs⟩
          ({ b with m_InputCoinsShielded := b.m_InputCoinsShielded ++ [inp] },
            ev ++ [Event.emplaceShieldedInput inp, Event.SelectInputs, Event.AddChange],
            none)
      else
        (b, ev, none)

/-- Lines 166-185: confirmation polling and completion. -/
def confirmAndComplete (env : Env) : List Event :=
  let hProof : Height := env.KernelProofHeight.getD 0
  if hProof = 0 then
    [Event.ConfirmKernel env.GetKernelID]
  else
    let save : List Event :=
      match env.getShieldedCoinByTx env.GetTxID with
      | some shieldedCoinModified =>
        [Event.saveShieldedCoin
          { shieldedCoinModified with
            m_spentHeight := min shieldedCoinModified.m_spentHeight hProof }]
      | none => []
    save ++ [Event.SetCompletedTxCoinStatuses hProof, Event.CompleteTx]

/-- Lines 125-185: registration, registration result, confirmation. -/
def registerAndConfirm (env : Env) : List Event :=
  match env.TransactionRegistered with
  | none =>
    if env.CheckExpired then
      [Event.CheckExpired true]
    else
      let transaction := env.CreateTransaction
      let pre := [Event.CheckExpired false, Event.CreateTransaction transaction]
      if env.IsValid transaction env.GetMinHeight = false then
        pre ++ [Event.OnFailed TxFailureReason.InvalidTransaction true]
      else
        pre ++ [Event.register_tx env.GetTxID transaction env.GetSubTxID]
  | some nRegistered =>
    if env.TxStatus_InvalidContext = nRegistered then
      let lastUnconfirmedHeight : Height := env.KernelUnconfirmedHeight.getD 0
      if env.KernelUnconfirmedHeight.isSome ∧ lastUnconfirmedHeight > 0 then
        [Event.OnFailed TxFailureReason.FailedToRegister true]
      else
        confirmAndComplete env
    else if env.TxStatus_Ok ≠ nRegistered then
      [Event.OnFailed TxFailureReason.FailedToRegister true]
    else
      confirmAndComplete env

/-- Lines 110-185: the three builder steps, then registration and confirmation. -/
def builderSteps (env : Env) : List Event :=
  if env.CreateInputs then
    [Event.CreateInputs true]
  else if env.CreateOutputs then
    [Event.CreateInputs false, Event.CreateOutputs true]
  else if env.SignSplit then
    [Event.CreateInputs false, Event.CreateOutputs false, Event.SignSplit true]
  else
    [Event.CreateInputs false, Event.CreateOutputs false, Event.SignSplit false]
      ++ registerAndConfirm env

/-- The method `PullTransaction::UpdateImpl` (lines 57-185). -/
def UpdateImpl (env : Env) (self : PullTransaction) : Result :=
  let (b0, ev0) := ensureBuilder env self
  match initialParamsBlock env self.m_withAssets b0 with
  | (b1, ev1, some out) =>
    ⟨{ self with m_TxBuilder := some b1 }, ev0 ++ ev1, out⟩
  | (b1, ev1, none) =>
    ⟨{ self with m_TxBuilder := some b1 }, ev0 ++ ev1 ++ builderSteps env, Outcome.returned⟩

/-- The fee argument with which the invocation constructed a builder, if it
constructed one. -/
def constructedFee (r : Result) : Option Amount :=
  r.events.findSome? fun e =>
    match e with
    | Event.newBaseTxBuilder _ _ fee => some fee
    | _ => none

/-- The transparent-side fee as the specification words it: the declared fee less
the shielded-input fee and the minimum kernel fee, never below zero, floored at the
minimum kernel fee. -/
def specTransparentFee (fs : FeeSettings) (declared : Amount) : Amount :=
  max (declared - (fs.m_ShieldedInput + fs.m_Kernel)) fs.m_Kernel

/-- An object on which `UpdateImpl` has not run yet: no builder. -/
def freshTx (withAssets : Bool) : PullTransaction := ⟨withAssets, none⟩

/-- A shielded coin of value 20 with the given asset id and availability. -/
def coin20 (asset : AssetID) (available : Bool) : ShieldedCoin :=
  ⟨⟨20, asset, 0⟩, 1000, available⟩

/-- An environment with the given fee settings, declared fee and shielded coin at
pool index 7; nothing is persisted yet, every builder step reports done and the
assembled transaction is valid. -/
def envWith (kernel shieldedInput declared : Amount) (coin : Option ShieldedCoin) : Env where
  fs := ⟨kernel, shieldedInput⟩
  Fee := declared
  ShieldedOutputId := 7
  GetSubTxID := 1
  GetTxID := 42
  getShieldedCoin := fun id => if id = 7 then coin else none
  getShieldedCoinByTx := fun _ => none
  GetInitialTxParams := false
  CreateInputs := false
  CreateOutputs := false
  SignSplit := false
  TransactionRegistered := none
  CheckExpired := false
  CreateTransaction := 99
  GetMinHeight := 10
  IsValid := fun _ _ => true
  KernelUnconfirmedHeight := none
  KernelProofHeight := none
  GetKernelID := 5
  TxStatus_Ok := 1
  TxStatus_InvalidContext := 2

/-- Scenario A: minimum kernel fee 2, shielded-input fee 10, declared fee 15, an
available coin of the default asset. -/
def envScenarioA : Env := envWith 2 10 15 (some (coin20 0 true))

/-- Declared fee 5, below the fixed shielded fee 10 + 2. -/
def envLowFee : Env := envWith 2 10 5 (some (coin20 0 true))

/-- Minimum kernel fee 10 and shielded-input fee 2 (sum 12), declared fee 15. -/
def envHighKernel : Env := envWith 10 2 15 (some (coin20 0 true))

/-- Declared fee 13, between the fixed shielded fee 12 and 12 plus the kernel fee 2. -/
def envFee13 : Env := envWith 2 10 13 (some (coin20 0 true))

/-- Events of lines 62-108: builder construction, loading of the initial
parameters and selection of the shielded input. -/
def Event.isSetup : Event → Bool
  | .newBaseTxBuilder _ _ _ => true
  | .GetInitialTxParams _ => true
  | .UpdateTxDescription_InProgress => true
  | .emplaceShieldedInput _ => true
  | .SelectInputs => true
  | .AddChange => true
  | _ => false

/-- The three builder steps of lines 110-123. -/
def Event.isBuilderStep : Event → Bool
  | .CreateInputs _ => true
  | .CreateOutputs _ => true
  | .SignSplit _ => true
  | _ => false

/-- Calls of `GetGateway().register_tx`. -/
def Event.isRegisterTx : Event → Bool
  | .register_tx _ _ _ => true
  | _ => false

/-- Calls of `OnFailed`. -/
def Event.isOnFailed : Event → Bool
  | .OnFailed _ _ => true
  | _ => false

/-- Calls that go to the gateway: `register_tx`, and `ConfirmKernel`, which asks the
gateway for the kernel proof. -/
def Event.isGatewayCall : Event → Bool
  | .register_tx _ _ _ => true
  | .ConfirmKernel _ => true
  | _ => false

/-- Calls that write coins or complete the transaction: `saveShieldedCoin`,
`SetCompletedTxCoinStatuses`, `CompleteTx`. -/
def Event.isCompletion : Event → Bool
  | .saveShieldedCoin _ => true
  | .SetCompletedTxCoinStatuses _ => true
  | .CompleteTx => true
  | _ => false

/-- All three builder steps were called in the invocation and reported done. -/
def stepsDone (r : Result) : Prop :=
  Event.CreateInputs false ∈ r.events ∧ Event.CreateOutputs false ∈ r.events ∧
    Event.SignSplit false ∈ r.events

instance (r : Result) : Decidable (stepsDone r) := by
  unfold stepsDone; infer_instance

/-- The shielded input list of the object's builder; empty while there is no
builder. -/
def shieldedInputs (self : PullTransaction) : List ShieldedInput :=
  match self.m_TxBuilder with
  | some b => b.m_InputCoinsShielded
  | none => []

/-- Scenario B: the coin at pool index 7 exists, has the default asset and is not
available. -/
def envScenarioB : Env := envWith 2 10 15 (some (coin20 0 false))

/-- The coin at pool index 7 has asset id 1 and is not available. -/
def envAssetCoin : Env := envWith 2 10 15 (some (coin20 1 false))

/-- Scenario A with `CreateOutputs` still pending. -/
def envOutputsPending : Env := { envScenarioA with CreateOutputs := true }

/-- The coin at pool index 7 has asset id 1 and is available. -/
def envAssetCoinAvailable : Env := envWith 2 10 15 (some (coin20 1 true))

/-- The invocation fails the transaction with `OnFailed(FailedToRegister, true)` as
its only failure report, and neither polls for confirmation nor completes. -/
def failsToRegister (r : Result) : Prop :=
  r.events.filter Event.isOnFailed = [Event.OnFailed TxFailureReason.FailedToRegister true] ∧
  r.events.getLast? = some (Event.OnFailed TxFailureReason.FailedToRegister true) ∧
  (∀ k, Event.ConfirmKernel k ∉ r.events) ∧
  (∀ e ∈ r.events, e.isCompletion = false)

/-- The invocation goes on to lines 166-185: no failure is reported, and it either
polls for the kernel proof or completes the transaction. -/
def proceedsToConfirmation (env : Env) (r : Result) : Prop :=
  (∀ e ∈ r.events, e.isOnFailed = false) ∧
  (Event.ConfirmKernel env.GetKernelID ∈ r.events ∨ Event.CompleteTx ∈ r.events)

/-- Scenario A with an assembled transaction that fails validation. -/
def envInvalidTx : Env := { envScenarioA with IsValid := fun _ _ => false }

/-- Scenario C: registration result `InvalidContext` (code 2) and a recorded
`KernelUnconfirmedHeight` of 5. -/
def envScenarioC : Env :=
  { envScenarioA with TransactionRegistered := some 2, KernelUnconfirmedHeight := some 5 }

/-- Registration result `InvalidContext` (code 2) with no `KernelUnconfirmedHeight`
and no proof height persisted. -/
def envInvalidContextOnly : Env := { envScenarioA with TransactionRegistered := some 2 }

/-- Registration result 7, neither `Ok` (code 1) nor `InvalidContext` (code 2). -/
def envOtherStatus : Env := { envScenarioA with TransactionRegistered := some 7 }

/-- Calls of lines 88-106 that select the shielded input: the `emplace_back` on the
builder's list, `SelectInputs` and `AddChange`. -/
def Event.isSelection : Event → Bool
  | .emplaceShieldedInput _ => true
  | .SelectInputs => true
  | .AddChange => true
  | _ => false

/-- Lines 179-180: the coin handed to `saveShieldedCoin`, with its spent height
lowered to the proof height when that is smaller. -/
def updateSpentHeight (coin : ShieldedCoin) (hProof : Height) : ShieldedCoin :=
  { coin with m_spentHeight := min coin.m_spentHeight hProof }

/-- The invocation ends with the one call `ConfirmKernel(GetKernelID())` and
returns; it makes no other gateway call, saves no shielded coin, sets no coin
status, does not complete the transaction and reports no failure. -/
def confirmsOnly (env : Env) (r : Result) : Prop :=
  r.outcome = Outcome.returned ∧
  r.events.getLast? = some (Event.ConfirmKernel env.GetKernelID) ∧
  r.events.filter Event.isGatewayCall = [Event.ConfirmKernel env.GetKernelID] ∧
  (∀ e ∈ r.events, e.isCompletion = false) ∧
  (∀ e ∈ r.events, e.isOnFailed = false)

/-- Consecutive invocations of `UpdateImpl` on one object while the collaborators
keep answering the same (no new parameter is persisted in between): the final
object and the concatenated traces. -/
def UpdateImplRepeated (env : Env) : Nat → PullTransaction → PullTransaction × List Event
  | 0, self => (self, [])
  | n + 1, self =>
    let r := UpdateImpl env self
    let rest := UpdateImplRepeated env n r.tx
    (rest.1, r.events ++ rest.2)

/-- Scenario A after registration was answered with `Ok` (code 1); no proof height
is persisted yet. -/
def envRegisteredOk : Env := { envScenarioA with TransactionRegistered := some 1 }

/-- The shielded coin of transaction 42 as stored before completion: spent height
1000. -/
def coinOfTx : ShieldedCoin := ⟨⟨20, 0, 0⟩, 1000, false⟩

/-- Registration answered with `Ok`, kernel proof height 700 persisted, and the
wallet database holding `coinOfTx` for transaction 42. -/
def envProven : Env :=
  { envScenarioA with
    TransactionRegistered := some 1
    KernelProofHeight := some 700
    getShieldedCoinByTx := fun id => if id = 42 then some coinOfTx else none }


end beam.wallet.lelantus

namespace beam

/-- The enumeration `Coin::Status`, as listed by the stream operator of
`src/beam/beam.cpp` (lines 59-64). -/
inductive CoinStatus where
  | Locked
  | Spent
  | Unconfirmed
  | Unspent
  deriving DecidableEq, Repr

/-- The enumeration `KeyType`, as listed by the stream operator of
`src/beam/beam.cpp` (lines 75-80). -/
inductive KeyType where
  | Coinbase
  | Comission
  | Kernel
  | Regular
  deriving DecidableEq, Repr

end beam

namespace beam.wallet.lelantus

/-- Modelled from the spec: a coin of the wallet database, which is not part of the
sources.  Section 3 gives a coin an identity, an amount, a status and an optional
owning transaction (the transaction that created it). -/
structure StoredCoin where
  id : Nat
  amount : Amount
  status : beam.CoinStatus
  createTxId : Option TxID
  deriving DecidableEq, Repr

/-- Modelled from the spec: a shielded entry of the wallet database, which is not
part of the sources.  Section 3 keys it by pool index and gives it an asset id, a
value, an availability flag and a spent height; `spentTxId` is the transaction that
reserved it, if any. -/
structure StoredShieldedCoin where
  txoID : TxoID
  assetID : AssetID
  value : Amount
  available : Bool
  spentHeight : Height
  spentTxId : Option TxID
  deriving DecidableEq, Repr

/-- Modelled from the spec: the coin tables of the wallet database. -/
structure WalletDB where
  coins : List StoredCoin
  shieldedCoins : List StoredShieldedCoin
  deriving DecidableEq, Repr

/-- Modelled from the spec: `WalletDB::restoreShieldedCoinsSpentByTx`, whose body is
not part of the sources.  Section 4.2: rollback restores reserved shielded-coin
availability; every entry reserved by the transaction becomes available and loses
its reservation, every other entry is kept as it is. -/
def restoreShieldedCoinsSpentByTx (txID : TxID) (db : WalletDB) : WalletDB :=
  { db with
    shieldedCoins := db.shieldedCoins.map fun c =>
      if c.spentTxId = some txID then { c with available := true, spentTxId := none } else c }

/-- Modelled from the spec: `WalletDB::deleteCoinsCreatedByTx`, whose body is not
part of the sources.  Section 4.2: rollback deletes the coins newly created by the
transaction and never chain-confirmed (status `Unconfirmed`), and touches no coin
already confirmed on-chain. -/
def deleteCoinsCreatedByTx (txID : TxID) (db : WalletDB) : WalletDB :=
  { db with
    coins := db.coins.filter fun c =>
      !(decide (c.createTxId = some txID) && decide (c.status = CoinStatus.Unconfirmed)) }

/-- The method `PullTransaction::RollbackTx` (lines 187-192), on the wallet database;
`txID` is `GetTxID()`. -/
def RollbackTx (txID : TxID) (db : WalletDB) : WalletDB :=
  deleteCoinsCreatedByTx txID (restoreShieldedCoinsSpentByTx txID db)

/-- A wallet database with coins and shielded entries of transactions 42 and 43. -/
def dbExample : WalletDB where
  coins :=
    [⟨1, 5, CoinStatus.Unconfirmed, some 42⟩, ⟨2, 6, CoinStatus.Unconfirmed, some 43⟩,
      ⟨3, 7, CoinStatus.Unspent, some 42⟩, ⟨4, 8, CoinStatus.Unspent, none⟩]
  shieldedCoins :=
    [⟨7, 0, 20, false, 1000, some 42⟩, ⟨8, 0, 30, false, 1000, some 43⟩,
      ⟨9, 0, 40, true, 1000, none⟩]

end beam.wallet.lelantus

/-! ## The treasury block generator

Shallow embedding of `TreasuryBlockGenerator::Generate` and
`TreasuryBlockGenerator::Proceed` of `src/beam/beam.cpp` (lines 120-266).

Scalars (`ECC::Scalar::Native`) are used only through `+=`, unary minus and zero, so
the model is written over any commutative additive group `S`; `Scalar` below is the
group the program runs on.  An output is kept as the opening of its commitment: the
blinding factor and value given to `Output::Create`.  A kernel is kept as the scalar
`k` with `m_Excess = G * k`.  The worker threads share no mutable state before they
take `m_Mutex`, so a run is determined by the order in which they enter the critical
section, `mergeOrder`; running `Proceed` for the workers one after the other in that
order gives the same final state.  The loop counter of `Proceed` is a `uint32_t`:
its increment is reduced modulo `2 ^ 32`, and a loop that does not end is a result
`outOfFuel` for every amount of fuel.
-/

namespace beam

open wallet.lelantus (Amount Height)

/-- Modulus of the `uint32_t` loop counter of `Proceed`. -/
def uint32Modulus : Nat := 2 ^ 32

/-- Modulus of `Height` and `Amount` arithmetic (unsigned 64-bit). -/
def uint64Modulus : Nat := 2 ^ 64

/-- Modulus of `m_Subsidy`, an `AmountBig` (two 64-bit words). -/
def subsidyModulus : Nat := 2 ^ 128

/-- Order of the group of `secp256k1`, the modulus of `ECC::Scalar::Native`. -/
def scalarOrder : Nat :=
  0xFFFFFFFFFFFFFFFFFFFFFFFFFFFFFFFEBAAEDCE6AF48A03BBFD25E8CD0364141

/-- The scalars the program computes with. -/
abbrev Scalar := ZMod scalarOrder

/-- The members of `Coin` that `Generate` writes, and its id. -/
structure Coin where
  m_id : Nat
  m_amount : Amount
  m_status : CoinStatus
  m_height : Height
  m_key_type : KeyType
  deriving DecidableEq, Repr

/-- A transaction output, as the arguments of `Output::Create(k, amount)` and its
incubation period. -/
structure Output (S : Type) where
  m_Incubation : Height
  k : S
  v : Amount
  deriving DecidableEq, Repr

/-- A transaction input, as the opening of the commitment it spends. -/
structure Input (S : Type) where
  k : S
  v : Amount
  deriving DecidableEq, Repr

/-- A kernel, as the scalar `k` of its excess `G * k`. -/
structure TxKernel (S : Type) where
  k : S
  deriving DecidableEq, Repr

/-- The members of `Block::Body` that the generator touches. -/
structure Body (S : Type) where
  m_Offset : S
  m_Subsidy : Nat
  m_vInputs : List (Input S)
  m_vOutputs : List (Output S)
  m_vKernelsOutput : List (TxKernel S)
  deriving DecidableEq, Repr

/-- The data members of `TreasuryBlockGenerator`; `m_vThreads` is kept as the number
of thread slots. -/
structure TreasuryBlockGenerator (S : Type) where
  m_sPath : String
  m_Block : Body S
  m_Offset : S
  m_Coins : List Coin
  m_vIncubationAndKeys : List (Height × S)
  m_vThreads : Nat

/-- What `Generate` observes of the code outside `beam.cpp` and of the machine. -/
structure TreasuryEnv (S : Type) where
  /-- the block deserialized from the file at `m_sPath`; `none` when the file cannot
  be opened or is empty -/
  fileBlock : Option (Body S)
  /-- `m_pKeyChain->calcKey(coin)` -/
  calcKey : Coin → S
  /-- a default-constructed `Coin` -/
  defaultCoin : Coin
  /-- the constant `Block::Rules::Coin` -/
  RulesCoin : Amount
  /-- the constant `Block::Rules::HeightGenesis` -/
  HeightGenesis : Height
  /-- `std::thread::hardware_concurrency()` -/
  hardware_concurrency : Nat
  /-- the worker indices in the order in which the workers lock `m_Mutex` -/
  mergeOrder : List Nat
  /-- `Block::Body::Sort` (`Sort` is a reserved word here) -/
  SortBody : Body S → Body S
  /-- `Block::Body::DeleteIntermediateOutputs` -/
  DeleteIntermediateOutputs : Body S → Body S
  /-- `m_Block.IsValid(1, 1)` -/
  IsValid : Body S → Bool

/-- What a call of `Generate` that returns leaves behind. -/
structure GenerateResult (S : Type) where
  /-- the returned `int` -/
  ret : Int
  /-- the object after the call -/
  self : TreasuryBlockGenerator S
  /-- the block serialized to the file, if the call got that far -/
  written : Option (Body S)
  /-- the local `bbb`, if the call got that far -/
  bbb : Option Bool

/-- How a call of `Generate` ends. -/
inductive GenerateOutcome (S : Type) where
  | done (r : GenerateResult S)
  /-- `assert(!m_vThreads.empty())` fails -/
  | assertFailed
  /-- a worker thread is still in its loop when the fuel is used up -/
  | outOfFuel

/-- The locals of `Proceed`: `offset` and the members of `subBlock` it uses. -/
structure SubBlock (S : Type) where
  offset : S
  m_Subsidy : Nat
  m_vOutputs : List (Output S)
  deriving DecidableEq, Repr

section
variable {S : Type} [AddCommGroup S]

/-- The statement `std::vector::resize(n)` on a list, new slots filled with `d`. -/
def resize {α : Type} (l : List α) (n : Nat) (d : α) : List α :=
  (l ++ List.replicate n d).take n

/-- Lines 173-185: the loop that fills `m_Coins` and `m_vIncubationAndKeys`, over
the resized coin vector, with the running height `h`. -/
def generateCoins (env : TreasuryEnv S) (dh : Height) :
    List Coin → Height → List (Coin × Height × S)
  | [], _ => []
  | c :: cs, h =>
    let coin : Coin :=
      { c with
        m_key_type := KeyType.Regular
        m_amount := (env.RulesCoin * 10) % uint64Modulus
        m_status := CoinStatus.Unconfirmed
        m_height := (h + env.HeightGenesis) % uint64Modulus }
    (coin, h, env.calcKey coin) :: generateCoins env dh cs ((h + dh) % uint64Modulus)

/-- Lines 244-255: the body of the loop of `Proceed` at index `i`.  The loop
condition keeps `i` inside both vectors; outside them nothing is done. -/
def ProceedBody (coins : List Coin) (keys : List (Height × S)) (i : Nat)
    (loc : SubBlock S) : SubBlock S :=
  match coins[i]?, keys[i]? with
  | some coin, some (incubation, k) =>
    { offset := loc.offset + k
      m_Subsidy := (loc.m_Subsidy + coin.m_amount) % subsidyModulus
      m_vOutputs := loc.m_vOutputs ++ [⟨incubation, k, coin.m_amount⟩] }
  | _, _ => loc

/-- Line 242: the loop of `Proceed`, with stride `T = m_vThreads.size()` and the
32-bit counter `i`. -/
def ProceedLoop (coins : List Coin) (keys : List (Height × S)) (T : Nat) :
    Nat → Nat → SubBlock S → Option (SubBlock S)
  | 0, _, _ => none
  | fuel + 1, i, loc =>
    if i < coins.length then
      ProceedLoop coins keys T fuel ((i + T) % uint32Modulus) (ProceedBody coins keys i loc)
    else
      some loc

/-- Lines 258-265: the critical section of `Proceed`. -/
def ProceedMerge (self : TreasuryBlockGenerator S) (loc : SubBlock S) :
    TreasuryBlockGenerator S :=
  { self with
    m_Offset := self.m_Offset + loc.offset
    m_Block :=
      { self.m_Block with
        m_Subsidy := (self.m_Block.m_Subsidy + loc.m_Subsidy) % subsidyModulus
        m_vOutputs := self.m_Block.m_vOutputs ++ loc.m_vOutputs } }

/-- The method `TreasuryBlockGenerator::Proceed(i)` (lines 235-266). -/
def Proceed (self : TreasuryBlockGenerator S) (i : Nat) (fuel : Nat) :
    Option (TreasuryBlockGenerator S) :=
  (ProceedLoop self.m_Coins self.m_vIncubationAndKeys self.m_vThreads fuel i ⟨0, 0, []⟩).map
    (ProceedMerge self)

/-- Lines 192-196: the worker threads, run to their end in the order in which they
enter the critical section. -/
def runWorkers (fuel : Nat) : List Nat → TreasuryBlockGenerator S →
    Option (TreasuryBlockGenerator S)
  | [], self => some self
  | i :: rest, self =>
    match Proceed self i fuel with
    | none => none
    | some self1 => runWorkers fuel rest self1

/-- Lines 147-187: the block is zero-initialised or read from the file, the offset
is negated, and the coins and their keys are generated.  `ZeroInit` is taken to zero
the offset and the subsidy; `m_pKeyChain->store` (line 187) persists the coins and
changes nothing that `Generate` reads afterwards. -/
def GenerateCoinsPhase (env : TreasuryEnv S) (self : TreasuryBlockGenerator S)
    (nCount : Nat) (dh : Height) : TreasuryBlockGenerator S :=
  let zeroed : Body S := { self.m_Block with m_Offset := 0, m_Subsidy := 0 }
  let m_Block : Body S :=
    match env.fileBlock with
    | some b => b
    | none => zeroed
  let gen := generateCoins env dh (resize self.m_Coins nCount env.defaultCoin) 0
  { self with
    m_Block := m_Block
    m_Offset := -m_Block.m_Offset
    m_Coins := gen.map fun g => g.1
    m_vIncubationAndKeys := gen.map fun g => g.2 }

/-- Lines 198-218: the dummy kernel is appended and the negated offset is stored in
the block. -/
def GenerateKernelPhase (env : TreasuryEnv S) (self : TreasuryBlockGenerator S) :
    TreasuryBlockGenerator S :=
  let dummy : Coin :=
    { env.defaultCoin with m_key_type := KeyType.Kernel, m_status := CoinStatus.Unconfirmed }
  let k := env.calcKey dummy
  let m_Offset := -(self.m_Offset + k)
  { self with
    m_Offset := m_Offset
    m_Block :=
      { self.m_Block with
        m_vKernelsOutput := self.m_Block.m_vKernelsOutput ++ [⟨k⟩]
        m_Offset := m_Offset } }

/-- Lines 139-218 of `Generate`: everything up to, and not including, `Sort`.  The
result is the object before sorting, `none` standing for a worker that has not left
its loop. -/
def GenerateUnsorted (env : TreasuryEnv S) (self : TreasuryBlockGenerator S)
    (nCount : Nat) (dh : Height) (fuel : Nat) : Option (TreasuryBlockGenerator S) :=
  let self1 := GenerateCoinsPhase env self nCount dh
  let self2 := { self1 with m_vThreads := env.hardware_concurrency }
  (runWorkers fuel env.mergeOrder self2).map (GenerateKernelPhase env)

/-- The method `TreasuryBlockGenerator::Generate(nCount, dh)` (lines 139-233). -/
def Generate (env : TreasuryEnv S) (self : TreasuryBlockGenerator S)
    (nCount : Nat) (dh : Height) (fuel : Nat) : GenerateOutcome S :=
  if self.m_sPath.isEmpty then
    GenerateOutcome.done ⟨-1, self, none, none⟩
  else if env.hardware_concurrency = 0 then
    GenerateOutcome.assertFailed
  else
    match GenerateUnsorted env self nCount dh fuel with
    | none => GenerateOutcome.outOfFuel
    | some self3 =>
      let m_Block := env.DeleteIntermediateOutputs (env.SortBody self3.m_Block)
      let bbb := env.IsValid m_Block
      GenerateOutcome.done ⟨0, { self3 with m_Block := m_Block }, some m_Block, some bbb⟩

/-- The object as `main` sets it up (lines 497-499): a path, empty vectors. -/
def TreasuryBlockGenerator.fresh (path : String) : TreasuryBlockGenerator S :=
  ⟨path, ⟨0, 0, [], [], []⟩, 0, [], [], 0⟩

end

end beam

namespace beam

open wallet.lelantus (Amount Height)

section
variable {S : Type} [AddCommGroup S]

/-- The indices a loop visits that starts at `i` and advances by `T` while below
`N`, when its counter does not wrap; `fuel` bounds the number of iterations. -/
def strideIndices (T N : Nat) : Nat → Nat → List Nat
  | 0, _ => []
  | fuel + 1, i => if i < N then i :: strideIndices T N fuel (i + T) else []

/-- The key stored for coin `i` in `m_vIncubationAndKeys`. -/
def keyAt (keys : List (Height × S)) (i : Nat) : S :=
  match keys[i]? with
  | some (_, k) => k
  | none => 0

/-- The amount of coin `i` in `m_Coins`. -/
def amountAt (coins : List Coin) (i : Nat) : Amount :=
  match coins[i]? with
  | some coin => coin.m_amount
  | none => 0

/-- The incubation period stored for coin `i`. -/
def incubationAt (keys : List (Height × S)) (i : Nat) : Height :=
  match keys[i]? with
  | some (incubation, _) => incubation
  | none => 0

/-- The output that the loop of `Proceed` creates at index `i`. -/
def outputAt (coins : List Coin) (keys : List (Height × S)) (i : Nat) : Output S :=
  ⟨incubationAt keys i, keyAt keys i, amountAt coins i⟩

/-- The object after the workers have merged the contributions of the indices
`idx`, in that order. -/
def mergedInto (self : TreasuryBlockGenerator S) (idx : List Nat) : TreasuryBlockGenerator S :=
  { self with
    m_Offset := self.m_Offset + (idx.map (keyAt self.m_vIncubationAndKeys)).sum
    m_Block :=
      { self.m_Block with
        m_Subsidy :=
          (self.m_Block.m_Subsidy + (idx.map (amountAt self.m_Coins)).sum) % subsidyModulus
        m_vOutputs :=
          self.m_Block.m_vOutputs ++ idx.map (outputAt self.m_Coins self.m_vIncubationAndKeys) } }

/-- The balance of a block as the specification words it: output blinding factors
minus input blinding factors minus kernel excess scalars minus the offset. -/
def specBalance (b : Body S) : S :=
  (b.m_vOutputs.map fun o => o.k).sum - (b.m_vInputs.map fun i => i.k).sum -
    (b.m_vKernelsOutput.map fun kr => kr.k).sum - b.m_Offset

/-- The balance that the generator maintains: output blinding factors minus input
blinding factors plus kernel excess scalars plus the offset. -/
def generatorBalance (b : Body S) : S :=
  (b.m_vOutputs.map fun o => o.k).sum - (b.m_vInputs.map fun i => i.k).sum +
    (b.m_vKernelsOutput.map fun kr => kr.k).sum + b.m_Offset

/-- The contract assumed of `Block::Body::Sort`, whose body is outside the sources:
it reorders the three vectors and leaves the offset and the subsidy alone. -/
def SortPermutes (env : TreasuryEnv S) : Prop :=
  ∀ b, (env.SortBody b).m_Offset = b.m_Offset ∧
    (env.SortBody b).m_Subsidy = b.m_Subsidy ∧
    (env.SortBody b).m_vInputs.Perm b.m_vInputs ∧
    (env.SortBody b).m_vOutputs.Perm b.m_vOutputs ∧
    (env.SortBody b).m_vKernelsOutput.Perm b.m_vKernelsOutput

/-- The contract assumed of `Block::Body::DeleteIntermediateOutputs`, whose body is
outside the sources: it removes outputs together with inputs that spend them, so a
block without inputs is left as it is. -/
def DeleteNeedsInputs (env : TreasuryEnv S) : Prop :=
  ∀ b, b.m_vInputs = [] → env.DeleteIntermediateOutputs b = b

end

/-- An environment over the program's scalars: no treasury file, every coin key 1,
`T` hardware threads entering the critical section in the given order, a `Sort` and
a `DeleteIntermediateOutputs` that find nothing to do, and the given validation
verdict. -/
def treasuryEnv (T : Nat) (order : List Nat) (valid : Bool) : TreasuryEnv Scalar where
  fileBlock := none
  calcKey := fun _ => 1
  defaultCoin := ⟨0, 0, CoinStatus.Unspent, 0, KeyType.Regular⟩
  RulesCoin := 1000000
  HeightGenesis := 1
  hardware_concurrency := T
  mergeOrder := order
  SortBody := fun b => b
  DeleteIntermediateOutputs := fun b => b
  IsValid := fun _ => valid

/-- The generator object of `main` for the path `treasury.bin`. -/
def tbgMain : TreasuryBlockGenerator Scalar := TreasuryBlockGenerator.fresh "treasury.bin"

end beam

namespace beam

open wallet.lelantus (Amount Height)

section
variable {S : Type} [AddCommGroup S]

/-- The object as the worker threads find it: coins and keys generated, one thread
slot per hardware thread. -/
def workerState (env : TreasuryEnv S) (self : TreasuryBlockGenerator S) (nCount : Nat)
    (dh : Height) : TreasuryBlockGenerator S :=
  { GenerateCoinsPhase env self nCount dh with m_vThreads := env.hardware_concurrency }

/-- The coin indices in the order in which their outputs reach `m_Block`: worker
after worker in merge order, each worker's indices in loop order. -/
def visitOrder (env : TreasuryEnv S) (nCount fuel : Nat) : List Nat :=
  env.mergeOrder.flatMap (strideIndices env.hardware_concurrency nCount fuel)

/-- There is at least one worker, and the 32-bit loop counter of `Proceed` cannot
wrap: `nCount` plus the stride stays within 32 bits. -/
def NoWrap (env : TreasuryEnv S) (nCount : Nat) : Prop :=
  0 < env.hardware_concurrency ∧ nCount + env.hardware_concurrency ≤ uint32Modulus

/-- Every worker 0..T-1 enters the critical section exactly once. -/
def ValidSchedule (env : TreasuryEnv S) : Prop :=
  env.mergeOrder.Perm (List.range env.hardware_concurrency)

end

end beam

namespace beam

open wallet.lelantus (Amount Height)

section
variable {S : Type} [AddCommGroup S]

/-- The block of the object just before `Sort` (line 218), when no worker loop
wraps. -/
def unsortedBlock (env : TreasuryEnv S) (self : TreasuryBlockGenerator S) (nCount : Nat)
    (dh : Height) (fuel : Nat) : Body S :=
  (GenerateKernelPhase env
    (mergedInto (workerState env self nCount dh) (visitOrder env nCount fuel))).m_Block

/-- The key of the dummy kernel coin (lines 200-204). -/
def dummyKernelKey (env : TreasuryEnv S) : S :=
  env.calcKey
    { env.defaultCoin with m_key_type := KeyType.Kernel, m_status := CoinStatus.Unconfirmed }

end

end beam

namespace beam

/-- As `treasuryEnv`, but the treasury file holds a block without outputs or kernels
whose offset is 5, and validation rejects every block. -/
def treasuryEnvBadFile : TreasuryEnv Scalar :=
  { treasuryEnv 1 [0] false with fileBlock := some ⟨5, 0, [], [], []⟩ }

/-- The largest `uint32_t`, as a coin count. -/
def maxCoinCount : Nat := 4294967295

end beam

namespace beam.wallet.lelantus

/-- The shielded inputs that the `emplace_back` calls of a trace appended, in
order. -/
def emplacedInputs (events : List Event) : List ShieldedInput :=
  events.filterMap fun e =>
    match e with
    | Event.emplaceShieldedInput inp => some inp
    | _ => none

/-- Consecutive invocations of `UpdateImpl` on one object, each with its own answers
of the collaborators: the final object and the concatenated traces. -/
def UpdateImplSeq : List Env → PullTransaction → PullTransaction × List Event
  | [], self => (self, [])
  | env :: envs, self =>
    let r := UpdateImpl env self
    let rest := UpdateImplSeq envs r.tx
    (rest.1, r.events ++ rest.2)

/-- The same answers of the collaborators, with the persisted `TransactionRegistered`
value replaced by `Ok`. -/
def registeredOk (env : Env) : Env :=
  { env with TransactionRegistered := some env.TxStatus_Ok }

/-- Scenario A with no shielded coin at pool index 7 in the wallet database. -/
def envMissingCoin : Env := envWith 2 10 15 none

/-- Registration answered with `InvalidContext` (code 2), no
`KernelUnconfirmedHeight`, kernel proof height 700 persisted, and the wallet
database holding `coinOfTx` for transaction 42. -/
def envInvalidContextProven : Env :=
  { envProven with TransactionRegistered := some 2 }

end beam.wallet.lelantus

namespace beam

open wallet.lelantus (Amount Height)

/-- The block offset that a single-threaded pass over the indices 0..N-1 leaves:
the keys are accumulated one by one onto the negated initial offset, the kernel key
is added, and the total is negated. -/
def sequentialOffset {S : Type} [AddCommGroup S] (initial : S) (keys : List (Height × S))
    (nCount : Nat) (kernelKey : S) : S :=
  -((List.range nCount).foldl (fun acc i => acc + keyAt keys i) (-initial) + kernelKey)

/-- As `treasuryEnv` with two workers, but the treasury file holds a block with one
output, one kernel, subsidy 7 and offset 5. -/
def treasuryEnvAppend : TreasuryEnv Scalar :=
  { treasuryEnv 2 [0, 1] true with fileBlock := some ⟨5, 7, [], [⟨0, 3, 7⟩], [⟨4⟩]⟩ }

end beam

/-! ## The session of the wallet service

`session::process_data` (`service.cpp`, lines 927-951) handles one inbound text
message.  The JSON library, `WalletApi::existsJsonParam`, the key-keeper callbacks
and `_api.parse` are outside the file: each is an oracle of `SessionEnv`.  A callback
or an API method may call back into the session through `sendAsync` and
`serializeMsg`, which push to the two queues, and may throw; `Effect` records both.
-/

namespace beam.service

/-- How a call made from `process_data` ends. -/
inductive Raised where
  /-- the call returns -/
  | nothing
  /-- the call throws an exception derived from `nlohmann::detail::exception` -/
  | jsonException
  /-- the call throws any other exception -/
  | otherException
  deriving DecidableEq, Repr

/-- What a key-keeper callback or `_api.parse` does to the session through
`sendAsync` and `serializeMsg` while it runs (`do_write_json`, lines 877-900), and
how it ends. -/
structure Effect (F : Type) where
  pushedCallbacks : List F
  pushedWrites : List String
  raised : Raised

/-- The members of `session` that `process_data` and `do_write_json` touch; a queue
is a list with its front at the head. -/
structure session (F : Type) where
  _keeperCallbacks : List F
  _writeQueue : List String
  deriving DecidableEq, Repr

/-- What `process_data` observes of the code outside `service.cpp`. -/
structure SessionEnv (J F : Type) where
  /-- the function `json::parse` on the bytes of `data`; `none` when the text is not
  well-formed JSON and `parse_error` is thrown -/
  parse : String → Option J
  /-- the function `WalletApi::existsJsonParam` -/
  existsJsonParam : J → String → Bool
  /-- the element `msg[key]` -/
  member : J → String → J
  /-- the call of a key-keeper callback with its argument -/
  invoke : F → J → Effect F
  /-- the call `_api.parse(data.c_str(), data.size())` -/
  apiParse : String → Effect F

/-- What `process_data` does that can be seen from outside. -/
inductive SessionEvent (J F : Type) where
  /-- the front callback is called with `msg["result"]` -/
  | callbackInvoked (f : F) (arg : J)
  /-- the request is handed to `_api.parse` -/
  | apiDispatched (data : String)
  /-- the handler logs `json parse: ...` -/
  | logError
  deriving DecidableEq, Repr

/-- How `process_data` ends. -/
inductive SessionOutcome where
  | returned
  /-- an exception leaves `process_data` -/
  | escaped
  deriving DecidableEq, Repr

/-- The session after a call that had the given effect on its queues. -/
def session.absorb {F : Type} (self : session F) (eff : Effect F) : session F :=
  ⟨self._keeperCallbacks ++ eff.pushedCallbacks, self._writeQueue ++ eff.pushedWrites⟩

/-- The method `session::process_data` (lines 927-951). -/
def process_data {J F : Type} (env : SessionEnv J F) (self : session F) (data : String) :
    session F × List (SessionEvent J F) × SessionOutcome :=
  match env.parse data with
  | none => (self, [SessionEvent.logError], SessionOutcome.returned)
  | some msg =>
    if env.existsJsonParam msg "result" then
      match self._keeperCallbacks with
      | [] => (self, [], SessionOutcome.returned)
      | f :: _ =>
        let arg := env.member msg "result"
        let eff := env.invoke f arg
        let self1 := self.absorb eff
        match eff.raised with
        | Raised.nothing =>
          ({ self1 with _keeperCallbacks := self1._keeperCallbacks.tail },
            [SessionEvent.callbackInvoked f arg], SessionOutcome.returned)
        | Raised.jsonException =>
          (self1, [SessionEvent.callbackInvoked f arg, SessionEvent.logError],
            SessionOutcome.returned)
        | Raised.otherException =>
          (self1, [SessionEvent.callbackInvoked f arg], SessionOutcome.escaped)
    else
      let eff := env.apiParse data
      let self1 := self.absorb eff
      match eff.raised with
      | Raised.nothing => (self1, [SessionEvent.apiDispatched data], SessionOutcome.returned)
      | Raised.jsonException =>
        (self1, [SessionEvent.apiDispatched data, SessionEvent.logError],
          SessionOutcome.returned)
      | Raised.otherException =>
        (self1, [SessionEvent.apiDispatched data], SessionOutcome.escaped)

/-- Whether the event is the call of a key-keeper callback. -/
def SessionEvent.isCallback {J F : Type} : SessionEvent J F → Bool
  | SessionEvent.callbackInvoked _ _ => true
  | _ => false

/-- Whether the event is the dispatch of an API method. -/
def SessionEvent.isDispatch {J F : Type} : SessionEvent J F → Bool
  | SessionEvent.apiDispatched _ => true
  | _ => false

/-- A session environment over toy documents: the text `1` parses to a document
with a `result` member, the text `2` to one without, nothing else parses; callback
`n` pushes the write `ack` and returns, and the API pushes the write `reply` and
returns. -/
def sessionEnvExample : SessionEnv Nat Nat where
  parse := fun s => if s = "1" then some 1 else if s = "2" then some 2 else none
  existsJsonParam := fun j _ => j == 1
  member := fun j _ => j
  invoke := fun _ _ => ⟨[], ["ack"], Raised.nothing⟩
  apiParse := fun _ => ⟨[], ["reply"], Raised.nothing⟩

/-- A session with two pending callbacks and one queued write. -/
def sessionExample : session Nat := ⟨[10, 11], ["pending"]⟩

end beam.service

/-! ## Asset metadata

`WalletAssetMeta` (`assets_utils.cpp`).  A `std::string` is a `List Char` with one
`Char` per `char`, compared like `std::string` compares, character by character and a
proper beginning before its extensions.  `std::to_unsigned` and `fromByteBuffer` are
outside the file and are fields of `MetaEnv`.  An accessor that starts with
`assert(_parsed)` returns an `Option`, `none` standing for the failed assertion.
-/

namespace beam.wallet

/-- The marker `STD_META_MARK`; a `std::string` is a list with one `Char` per `char`. -/
def STD_META_MARK : List Char := "STD:".toList

/-- The key `VERSION_KEY`. -/
def VERSION_KEY : List Char := "SCH_VER".toList

/-- The key `NAME_KEY`. -/
def NAME_KEY : List Char := "N".toList

/-- The key `SHORT_NAME_KEY`. -/
def SHORT_NAME_KEY : List Char := "SN".toList

/-- The key `UNIT_NAME_KEY`. -/
def UNIT_NAME_KEY : List Char := "UN".toList

/-- The key `NTH_UNIT_NAME_KEY`. -/
def NTH_UNIT_NAME_KEY : List Char := "NTHUN".toList

/-- The key `OPT_SDESC_KEY`. -/
def OPT_SDESC_KEY : List Char := "OPT_SHORT_DESC".toList

/-- The key `OPT_LDESC_KEY`. -/
def OPT_LDESC_KEY : List Char := "OPT_LONG_DESC".toList

/-- The characters `ALLOWED_SYMBOLS`. -/
def ALLOWED_SYMBOLS : List Char := " .,-_".toList

/-- The constant `CURRENT_META_VERSION`. -/
def CURRENT_META_VERSION : Nat := 1

/-- What the asset metadata code uses of the code outside `assets_utils.cpp`. -/
structure MetaEnv where
  /-- the function `std::to_unsigned(str, false)` -/
  to_unsigned : List Char → Nat
  /-- the function `fromByteBuffer`; `none` when it returns false -/
  fromByteBuffer : List Nat → Option (List Char)
  /-- the test `std::isprint` on every character in the user's locale -/
  isPrintable : List Char → Bool

/-- The data members of `WalletAssetMeta`; `_values` is the map as the list of its
entries in iteration order. -/
structure WalletAssetMeta where
  _std : Bool
  _std_v5_0 : Bool
  _parsed : Bool
  _meta : List Char
  _values : List (List Char × List Char)
  deriving DecidableEq, Repr

/-- The lookup `_values.find(key)`; `none` for `_values.end()`. -/
def mapFind : List (List Char × List Char) → List Char → Option (List Char)
  | [], _ => none
  | (k, v) :: rest, key => if k = key then some v else mapFind rest key

/-- The assignment `_values[key] = val` on a map kept in key order. -/
def mapAssign : List (List Char × List Char) → List Char → List Char →
    List (List Char × List Char)
  | [], key, val => [(key, val)]
  | (k, v) :: rest, key, val =>
    if k = key then (key, val) :: rest
    else if key < k then (key, val) :: (k, v) :: rest
    else (k, v) :: mapAssign rest key val

/-- The matches of the regular expression `[^;]+` in a text, from left to right
(line 74): the maximal runs of characters other than `;`. -/
def regexTokens (s : List Char) : List (List Char) :=
  (s.splitOn ';').filter fun t => !t.isEmpty

/-- The `std::set<std::string>` built from a sequence of tokens (lines 75-78), as the
list of its elements in iteration order: no duplicates, ascending. -/
def tokenSet (l : List (List Char)) : List (List Char) :=
  l.dedup.insertionSort (· ≤ ·)

/-- The key of a token: the text before the first `=` (line 84). -/
def tokenKey (it : List Char) : List Char :=
  it.takeWhile (· != '=')

/-- The value of a token: the text after the first `=` (line 85). -/
def tokenVal (it : List Char) : List Char :=
  (it.dropWhile (· != '=')).drop 1

/-- Lines 81-86: the body of the loop over the tokens. -/
def parseToken (values : List (List Char × List Char)) (it : List Char) :
    List (List Char × List Char) :=
  if '=' ∈ it then mapAssign values (tokenKey it) (tokenVal it) else values

/-- The character test of `fieldValid` (lines 95-97). -/
def allowedChar (ch : Char) : Bool :=
  ch.isAlphanum || ALLOWED_SYMBOLS.contains ch

/-- The lambda `fieldValid` (lines 89-98). -/
def fieldValid (values : List (List Char × List Char)) (name : List Char) : Bool :=
  match mapFind values name with
  | none => false
  | some v => v.all allowedChar

/-- The lambda `versionValid` (lines 103-109). -/
def versionValid (env : MetaEnv) (values : List (List Char × List Char)) : Bool :=
  match mapFind values VERSION_KEY with
  | none => false
  | some v => env.to_unsigned v == CURRENT_META_VERSION

/-- The lambda `optSDescValid` (lines 111-115). -/
def optSDescValid (values : List (List Char × List Char)) : Bool :=
  match mapFind values OPT_SDESC_KEY with
  | none => true
  | some v => v.length ≤ 128

/-- The lambda `optLDescValid` (lines 117-121). -/
def optLDescValid (values : List (List Char × List Char)) : Bool :=
  match mapFind values OPT_LDESC_KEY with
  | none => true
  | some v => v.length ≤ 1024

/-- The method `WalletAssetMeta::Parse` (lines 65-125). -/
def WalletAssetMeta.Parse (env : MetaEnv) (self : WalletAssetMeta) : WalletAssetMeta :=
  if self._meta.take STD_META_MARK.length ≠ STD_META_MARK then
    { self with _std := false, _parsed := false }
  else
    let tokens := tokenSet (regexTokens (self._meta.drop STD_META_MARK.length))
    let values := tokens.foldl parseToken self._values
    let std_v5_0 := fieldValid values NAME_KEY && fieldValid values SHORT_NAME_KEY &&
      fieldValid values UNIT_NAME_KEY && fieldValid values NTH_UNIT_NAME_KEY
    let std := std_v5_0 && versionValid env values && optSDescValid values &&
      optLDescValid values
    ⟨std, std_v5_0, true, self._meta, values⟩

/-- The constructor `WalletAssetMeta(std::string meta)` (lines 37-44). -/
def WalletAssetMeta.ofString (env : MetaEnv) (metadata : List Char) : WalletAssetMeta :=
  WalletAssetMeta.Parse env ⟨false, false, false, metadata, []⟩

/-- The constructor `WalletAssetMeta(const Asset::Full& info)` (lines 46-63), on the
bytes `info.m_Metadata.m_Value`. -/
def WalletAssetMeta.ofAsset (env : MetaEnv) (mval : List Nat) : WalletAssetMeta :=
  if mval.isEmpty then
    ⟨false, false, false, [], []⟩
  else
    match env.fromByteBuffer mval with
    | none => ⟨false, false, false, [], []⟩
    | some metadata => WalletAssetMeta.Parse env ⟨false, false, false, metadata, []⟩

/-- The method `WalletAssetMeta::isStd`; `none` when `assert(_parsed)` fails. -/
def WalletAssetMeta.isStd (self : WalletAssetMeta) : Option Bool :=
  if self._parsed then some self._std else none

/-- The method `WalletAssetMeta::isStd_v5_0`; `none` when `assert(_parsed)` fails. -/
def WalletAssetMeta.isStd_v5_0 (self : WalletAssetMeta) : Option Bool :=
  if self._parsed then some self._std_v5_0 else none

/-- The method `WalletAssetMeta::GetSchemaVersion` (lines 192-197); `none` when
`assert(_parsed)` fails. -/
def WalletAssetMeta.GetSchemaVersion (env : MetaEnv) (self : WalletAssetMeta) : Option Nat :=
  if self._parsed then
    match mapFind self._values SHORT_NAME_KEY with
    | some v => some (env.to_unsigned v)
    | none => some 0
  else none

/-- The method `WalletAssetMeta::LogInfo` (lines 127-148): the lines it logs; `none`
when `assert(_parsed)` fails. -/
def WalletAssetMeta.LogInfo (env : MetaEnv) (self : WalletAssetMeta) (pref : List Char) :
    Option (List (List Char)) :=
  if self._parsed then
    let pfx := if pref.isEmpty then pref else pref ++ " ".toList
    some (self._values.map fun it =>
      let value :=
        if env.isPrintable it.2 then it.2
        else "[CANNOT BE PRINTED, size is ".toList ++ (toString it.2.length).toList ++
          " bytes]".toList
      pfx ++ it.1 ++ "=".toList ++ value)
  else none

/-- The members of `WalletAsset` that decide what `LogInfo` does with the metadata. -/
structure WalletAsset where
  /-- the bytes `m_Metadata.m_Value` -/
  m_Metadata : List Nat
  m_IsOwned : Bool
  deriving DecidableEq, Repr

/-- What `WalletAsset::LogInfo` logs. -/
inductive AssetLog where
  /-- the six lines of lines 215-220 -/
  | assetLines
  /-- a line logged by `WalletAssetMeta::LogInfo` -/
  | metaLine (line : List Char)
  /-- the line `You own this asset` -/
  | ownedLine
  deriving DecidableEq, Repr

/-- How `WalletAsset::LogInfo` ends. -/
inductive LogOutcome where
  | returned
  /-- the `assert(_parsed)` of `WalletAssetMeta::LogInfo` fails -/
  | assertFailed
  deriving DecidableEq, Repr

/-- The method `WalletAsset::LogInfo(const std::string&)` (lines 211-229). -/
def WalletAsset.LogInfo (env : MetaEnv) (self : WalletAsset) (pref : List Char) :
    List AssetLog × LogOutcome :=
  let m := WalletAssetMeta.ofAsset env self.m_Metadata
  match m.LogInfo env (pref ++ [Char.ofNat 9]) with
  | none => ([AssetLog.assetLines], LogOutcome.assertFailed)
  | some lines =>
    ([AssetLog.assetLines] ++ lines.map AssetLog.metaLine ++
      (if self.m_IsOwned then [AssetLog.ownedLine] else []), LogOutcome.returned)

/-- The fields of a metadata string: the non-empty pieces between the `;` that follow
the four characters of the marker. -/
def metaFields (metadata : List Char) : List (List Char) :=
  regexTokens (metadata.drop 4)

/-- Whether a field has the form `key=...` with the `=` shown being its first. -/
def hasKey (key : List Char) (t : List Char) : Bool :=
  decide ('=' ∈ t) && decide (tokenKey t = key)

/-- The greatest element of a list of texts in lexicographic order. -/
def greatest : List (List Char) → Option (List Char)
  | [] => none
  | t :: ts =>
    match greatest ts with
    | none => some t
    | some g => some (if g ≤ t then t else g)

/-- The value of a key in a list of fields: the text after the first `=` of the
lexicographically greatest field with that key. -/
def fieldValue (fields : List (List Char)) (key : List Char) : Option (List Char) :=
  (greatest (fields.filter (hasKey key))).map tokenVal

/-- An ASCII letter or digit. -/
def isAsciiAlnum (ch : Char) : Prop :=
  (48 ≤ ch.toNat ∧ ch.toNat ≤ 57) ∨ (65 ≤ ch.toNat ∧ ch.toNat ≤ 90) ∨
    (97 ≤ ch.toNat ∧ ch.toNat ≤ 122)

/-- The field is present and its value is made of ASCII letters, digits, spaces and
the characters `.`, `,`, `-`, `_`. -/
def fieldWellFormed (fields : List (List Char)) (key : List Char) : Prop :=
  ∃ v, fieldValue fields key = some v ∧
    ∀ ch ∈ v, isAsciiAlnum ch ∨ ch = ' ' ∨ ch = '.' ∨ ch = ',' ∨ ch = '-' ∨ ch = '_'

/-- The conditions under which metadata with the given fields is standard, `rd`
reading the schema version. -/
def standardFields (rd : List Char → Nat) (fields : List (List Char)) : Prop :=
  fieldWellFormed fields "N".toList ∧ fieldWellFormed fields "SN".toList ∧
  fieldWellFormed fields "UN".toList ∧ fieldWellFormed fields "NTHUN".toList ∧
  (∃ v, fieldValue fields "SCH_VER".toList = some v ∧ rd v = 1) ∧
  (∀ v, fieldValue fields "OPT_SHORT_DESC".toList = some v → v.length ≤ 128) ∧
  (∀ v, fieldValue fields "OPT_LONG_DESC".toList = some v → v.length ≤ 1024)

/-- The metadata string made of the marker and the fields joined with `;`. -/
def metaOf (fields : List (List Char)) : List Char :=
  STD_META_MARK ++ List.intercalate [';'] fields

/-- A reader of decimal numerals that answers 0 for any other text, standing for
`std::to_unsigned(str, false)` in the examples. -/
def decimalValue (s : List Char) : Nat :=
  if s ≠ [] ∧ s.all Char.isDigit then s.foldl (fun n c => 10 * n + (c.toNat - 48)) 0 else 0

/-- An environment for the examples: decimal numerals, metadata bytes that are the
character codes of the text and fail to deserialize when the first byte is 255, every
value printable. -/
def metaEnvExample : MetaEnv where
  to_unsigned := decimalValue
  fromByteBuffer := fun bytes =>
    if bytes.head? = some 255 then none else some (bytes.map Char.ofNat)
  isPrintable := fun _ => true

end beam.wallet

/-! ## Shape of an invocation -/

namespace beam.wallet.lelantus

theorem ensureBuilder_fresh (env : Env) (self : PullTransaction)
    (h : self.m_TxBuilder = none) :
    ensureBuilder env self =
      (⟨env.GetSubTxID, [0], builderFee env.fs env.Fee, []⟩,
        [Event.newBaseTxBuilder env.GetSubTxID [0] (builderFee env.fs env.Fee)]) := by
  simp [ensureBuilder, h]

theorem UpdateImpl_events_fresh (env : Env) (self : PullTransaction)
    (h : self.m_TxBuilder = none) :
    ∃ rest, (UpdateImpl env self).events =
      Event.newBaseTxBuilder env.GetSubTxID [0] (builderFee env.fs env.Fee) :: rest := by
  unfold UpdateImpl
  rw [ensureBuilder_fresh env self h]
  dsimp only
  split <;> simp

theorem constructedFee_fresh (env : Env) (self : PullTransaction)
    (h : self.m_TxBuilder = none) :
    constructedFee (UpdateImpl env self) = some (builderFee env.fs env.Fee) := by
  obtain ⟨rest, hr⟩ := UpdateImpl_events_fresh env self h
  simp [constructedFee, hr, List.findSome?]

theorem builderFee_eq (fs : FeeSettings) (declared : Amount) :
    builderFee fs declared =
      if feeShielded fs ≤ declared then max (declared - feeShielded fs) fs.m_Kernel
      else max declared fs.m_Kernel := by
  simp only [builderFee, setmax, ge_iff_le, max_def]
  unfold Amount at *
  split_ifs <;> omega

theorem UpdateImpl_first_run (env : Env) (self : PullTransaction) (coin : ShieldedCoin)
    (hb : self.m_TxBuilder = none) (hi : env.GetInitialTxParams = false)
    (hc : env.getShieldedCoin env.ShieldedOutputId = some coin)
    (ha : coin.m_CoinID.m_AssetID = 0 ∨ self.m_withAssets = true)
    (hav : coin.IsAvailable = true) :
    UpdateImpl env self =
      ⟨{ self with m_TxBuilder := some ⟨env.GetSubTxID, [0], builderFee env.fs env.Fee,
            [⟨coin.m_CoinID, feeShielded env.fs⟩]⟩ },
        [Event.newBaseTxBuilder env.GetSubTxID [0] (builderFee env.fs env.Fee),
          Event.GetInitialTxParams false, Event.UpdateTxDescription_InProgress,
          Event.emplaceShieldedInput ⟨coin.m_CoinID, feeShielded env.fs⟩,
          Event.SelectInputs, Event.AddChange] ++ builderSteps env,
        Outcome.returned⟩ := by
  unfold UpdateImpl
  rw [ensureBuilder_fresh env self hb]
  have hg : ¬ (coin.m_CoinID.m_AssetID ≠ 0 ∧ self.m_withAssets = false) := by
    rcases ha with h | h <;> simp [h]
  simp [initialParamsBlock, hi, hc, hg, hav]

theorem ensureBuilder_events_setup (env : Env) (self : PullTransaction) :
    ∀ e ∈ (ensureBuilder env self).2, e.isSetup = true := by
  unfold ensureBuilder
  split <;> simp [Event.isSetup]

theorem ensureBuilder_inputs (env : Env) (self : PullTransaction) :
    (ensureBuilder env self).1.m_InputCoinsShielded = shieldedInputs self := by
  unfold ensureBuilder shieldedInputs
  split <;> simp_all

theorem initialParamsBlock_events_setup (env : Env) (w : Bool) (b : BaseTxBuilder) :
    ∀ e ∈ (initialParamsBlock env w b).2.1, e.isSetup = true := by
  unfold initialParamsBlock
  split
  · simp [Event.isSetup]
  · split
    · simp [Event.isSetup]
    · split_ifs <;> simp [Event.isSetup]

theorem initialParamsBlock_outcome (env : Env) (w : Bool) (b : BaseTxBuilder) :
    (initialParamsBlock env w b).2.2 ≠ some Outcome.returned := by
  unfold initialParamsBlock
  split
  · simp
  · split
    · simp
    · split_ifs <;> simp

theorem UpdateImpl_split (env : Env) (self : PullTransaction) :
    UpdateImpl env self =
      match (initialParamsBlock env self.m_withAssets (ensureBuilder env self).1).2.2 with
      | some out =>
        Result.mk
          (PullTransaction.mk self.m_withAssets
            (some (initialParamsBlock env self.m_withAssets (ensureBuilder env self).1).1))
          ((ensureBuilder env self).2 ++
            (initialParamsBlock env self.m_withAssets (ensureBuilder env self).1).2.1)
          out
      | none =>
        Result.mk
          (PullTransaction.mk self.m_withAssets
            (some (initialParamsBlock env self.m_withAssets (ensureBuilder env self).1).1))
          ((ensureBuilder env self).2 ++
            (initialParamsBlock env self.m_withAssets (ensureBuilder env self).1).2.1 ++
            builderSteps env)
          Outcome.returned := by
  unfold UpdateImpl
  rcases h : initialParamsBlock env self.m_withAssets (ensureBuilder env self).1 with ⟨b1, ev1, o⟩
  cases o <;> simp [h]

/-- Every invocation is a run of setup events, after which either the invocation
ends abnormally or the builder steps follow and the invocation returns. -/
theorem UpdateImpl_shape (env : Env) (self : PullTransaction) :
    ∃ pre, (∀ e ∈ pre, e.isSetup = true) ∧
      (((UpdateImpl env self).events = pre ∧ (UpdateImpl env self).outcome ≠ Outcome.returned) ∨
       ((UpdateImpl env self).events = pre ++ builderSteps env ∧
          (UpdateImpl env self).outcome = Outcome.returned)) := by
  refine ⟨(ensureBuilder env self).2 ++
      (initialParamsBlock env self.m_withAssets (ensureBuilder env self).1).2.1, ?_, ?_⟩
  · intro e he
    rcases List.mem_append.1 he with h | h
    · exact ensureBuilder_events_setup env self e h
    · exact initialParamsBlock_events_setup env _ _ e h
  · rw [UpdateImpl_split]
    have hne := initialParamsBlock_outcome env self.m_withAssets (ensureBuilder env self).1
    rcases h : (initialParamsBlock env self.m_withAssets (ensureBuilder env self).1).2.2 with _ | out
    · right; simp
    · left
      rw [h] at hne
      simpa using hne

theorem not_mem_of_setup {pre : List Event} (hpre : ∀ e ∈ pre, e.isSetup = true)
    (e : Event) (he : e.isSetup = false) : e ∉ pre := by
  intro hmem
  rw [hpre e hmem] at he
  exact Bool.noConfusion he

theorem filter_setup_nil {pre : List Event} (hpre : ∀ e ∈ pre, e.isSetup = true)
    (p : Event → Bool) (hp : ∀ e, e.isSetup = true → p e = false) :
    pre.filter p = [] := by
  rw [List.filter_eq_nil_iff]
  intro e he
  simp [hp e (hpre e he)]

/-- When the three builder steps report done, the trace is a setup run, the three
steps, and the registration part; the invocation returns. -/
theorem UpdateImpl_steps_done (env : Env) (self : PullTransaction)
    (hd : stepsDone (UpdateImpl env self)) :
    ∃ pre, (∀ e ∈ pre, e.isSetup = true) ∧
      (UpdateImpl env self).events =
        pre ++ ([Event.CreateInputs false, Event.CreateOutputs false, Event.SignSplit false] ++
          registerAndConfirm env) ∧
      (UpdateImpl env self).outcome = Outcome.returned := by
  obtain ⟨pre, hpre, h | ⟨hev, hout⟩⟩ := UpdateImpl_shape env self
  · exact absurd (h.1 ▸ hd.2.2) (not_mem_of_setup hpre (Event.SignSplit false) rfl)
  · refine ⟨pre, hpre, ?_, hout⟩
    have hS := hd.2.2
    rw [hev, List.mem_append] at hS
    rcases hS with hS | hS
    · exact absurd hS (not_mem_of_setup hpre (Event.SignSplit false) rfl)
    · rw [hev]
      unfold builderSteps at hS ⊢
      split_ifs at hS ⊢ <;> simp_all

/-! ## The transparent-side fee (lines 59-76) -/

/-- C1 (counterexample): with minimum kernel fee 2, shielded-input fee 10 and declared
fee 5 the builder is constructed with fee 5, while the stated formula
max(5 - (10 + 2), 2) gives 2. -/
theorem C1_counterexample :
    constructedFee (UpdateImpl envLowFee (freshTx false)) = some 5 ∧
    specTransparentFee envLowFee.fs envLowFee.Fee = 2 := by
  decide

/-- C1 (amended): when `UpdateImpl` constructs the builder, the fee it hands over is
max(declared - F, K) if the declared fee is at least F, and max(declared, K) if it is
below F, where K is the minimum kernel fee and F the 64-bit sum of the shielded-input
fee and K; a declared fee below F is not reduced. -/
theorem C1_transparent_fee (env : Env) (self : PullTransaction)
    (h : self.m_TxBuilder = none) :
    constructedFee (UpdateImpl env self) =
      some (if feeShielded env.fs ≤ env.Fee
        then max (env.Fee - feeShielded env.fs) env.fs.m_Kernel
        else max env.Fee env.fs.m_Kernel) := by
  rw [constructedFee_fresh env self h, builderFee_eq]

/-- Witness of C1: kernel fee 2, shielded-input fee 10, declared fee 15 gives 3. -/
theorem C1_transparent_fee_witness :
    (freshTx false).m_TxBuilder = none ∧
    constructedFee (UpdateImpl envScenarioA (freshTx false)) = some 3 :=
  ⟨rfl, (C1_transparent_fee envScenarioA (freshTx false) rfl).trans (by decide)⟩

/-- C2 (counterexample): minimum kernel fee 10 and shielded-input fee 2 add up to 12,
the declared fee is 15, and the builder is constructed with fee 10, not 3. -/
theorem C2_counterexample :
    envHighKernel.fs.m_ShieldedInput + envHighKernel.fs.m_Kernel = 12 ∧
    envHighKernel.Fee = 15 ∧
    constructedFee (UpdateImpl envHighKernel (freshTx false)) = some 10 := by
  decide

/-- C2 (amended): when the shielded-input fee and the minimum kernel fee add up to 12
and the declared fee is 15, the builder is constructed with fee max(3, minimum
kernel fee); this is 3 when the minimum kernel fee is at most 3. -/
theorem C2_scenario_fee (env : Env) (self : PullTransaction)
    (h : self.m_TxBuilder = none)
    (h12 : env.fs.m_ShieldedInput + env.fs.m_Kernel = 12) (h15 : env.Fee = 15) :
    constructedFee (UpdateImpl env self) = some (max 3 env.fs.m_Kernel) ∧
    (env.fs.m_Kernel ≤ 3 → constructedFee (UpdateImpl env self) = some 3) := by
  have hF : feeShielded env.fs = 12 := by
    simp [feeShielded, h12, amountModulus]
  have hfee : constructedFee (UpdateImpl env self) = some (max 3 env.fs.m_Kernel) := by
    rw [constructedFee_fresh env self h, builderFee_eq, hF, h15]
    simp
  refine ⟨hfee, fun hk => ?_⟩
  rw [hfee, max_eq_left hk]

/-- Witness of C2: minimum kernel fee 2 and shielded-input fee 10. -/
theorem C2_scenario_fee_witness :
    (freshTx false).m_TxBuilder = none ∧
    envScenarioA.fs.m_ShieldedInput + envScenarioA.fs.m_Kernel = 12 ∧
    envScenarioA.Fee = 15 ∧
    constructedFee (UpdateImpl envScenarioA (freshTx false)) = some 3 :=
  ⟨rfl, rfl, rfl, (C2_scenario_fee envScenarioA (freshTx false) rfl rfl rfl).2 (by decide)⟩

/-- C3 (counterexample): with minimum kernel fee 2, shielded-input fee 10, declared fee
13 and an available coin, the builder is constructed with fee 2 and the shielded
input carries fee 12: the two add up to 14, not to the declared 13. -/
theorem C3_counterexample :
    constructedFee (UpdateImpl envFee13 (freshTx false)) = some 2 ∧
    ((UpdateImpl envFee13 (freshTx false)).tx.m_TxBuilder.map
      fun b => b.m_InputCoinsShielded.map ShieldedInput.m_Fee) = some [12] ∧
    envFee13.Fee = 13 := by
  decide

/-- C3 (amended): on a first run that selects the shielded coin, the builder is
constructed with a transparent fee and the one shielded input carries the coin id and
the fixed shielded fee F (64-bit sum of shielded-input fee and minimum kernel fee);
the two fees add up to the declared fee exactly when the declared fee is at least
F plus the minimum kernel fee. -/
theorem C3_fee_split (env : Env) (self : PullTransaction) (coin : ShieldedCoin)
    (hb : self.m_TxBuilder = none) (hi : env.GetInitialTxParams = false)
    (hc : env.getShieldedCoin env.ShieldedOutputId = some coin)
    (ha : coin.m_CoinID.m_AssetID = 0 ∨ self.m_withAssets = true)
    (hav : coin.IsAvailable = true) :
    ∃ feeTransparent inp,
      constructedFee (UpdateImpl env self) = some feeTransparent ∧
      (UpdateImpl env self).tx.m_TxBuilder.map BaseTxBuilder.m_Fee = some feeTransparent ∧
      (UpdateImpl env self).tx.m_TxBuilder.map BaseTxBuilder.m_InputCoinsShielded = some [inp] ∧
      inp.toShieldedTxoID = coin.m_CoinID ∧
      inp.m_Fee = feeShielded env.fs ∧
      (feeTransparent + inp.m_Fee = env.Fee ↔
        feeShielded env.fs + env.fs.m_Kernel ≤ env.Fee) := by
  refine ⟨builderFee env.fs env.Fee, ⟨coin.m_CoinID, feeShielded env.fs⟩,
    constructedFee_fresh env self hb, ?_, ?_, rfl, rfl, ?_⟩
  · rw [UpdateImpl_first_run env self coin hb hi hc ha hav]; rfl
  · rw [UpdateImpl_first_run env self coin hb hi hc ha hav]; rfl
  · rw [builderFee_eq]
    simp only [max_def]
    unfold Amount at *
    split_ifs <;> omega

/-- Witness of C3: scenario A, where 3 + 12 = 15. -/
theorem C3_fee_split_witness :
    ∃ feeTransparent inp,
      constructedFee (UpdateImpl envScenarioA (freshTx false)) = some feeTransparent ∧
      (UpdateImpl envScenarioA (freshTx false)).tx.m_TxBuilder.map BaseTxBuilder.m_Fee =
        some feeTransparent ∧
      (UpdateImpl envScenarioA (freshTx false)).tx.m_TxBuilder.map
        BaseTxBuilder.m_InputCoinsShielded = some [inp] ∧
      inp.toShieldedTxoID = (coin20 0 true).m_CoinID ∧
      inp.m_Fee = feeShielded envScenarioA.fs ∧
      (feeTransparent + inp.m_Fee = envScenarioA.Fee ↔
        feeShielded envScenarioA.fs + envScenarioA.fs.m_Kernel ≤ envScenarioA.Fee) :=
  C3_fee_split envScenarioA (freshTx false) (coin20 0 true) rfl rfl rfl (Or.inl rfl) rfl

/-! ## Selection of the shielded input (lines 78-108) -/

theorem UpdateImpl_no_selection (env : Env) (self : PullTransaction) (out : Outcome)
    (hb : initialParamsBlock env self.m_withAssets (ensureBuilder env self).1 =
      ((ensureBuilder env self).1,
        [Event.GetInitialTxParams false, Event.UpdateTxDescription_InProgress], some out)) :
    (UpdateImpl env self).outcome = out ∧
    shieldedInputs (UpdateImpl env self).tx = shieldedInputs self ∧
    (∀ inp, Event.emplaceShieldedInput inp ∉ (UpdateImpl env self).events) ∧
    Event.SelectInputs ∉ (UpdateImpl env self).events ∧
    Event.AddChange ∉ (UpdateImpl env self).events ∧
    (∀ e ∈ (UpdateImpl env self).events, e.isGatewayCall = false ∧ e.isCompletion = false) := by
  rw [UpdateImpl_split, hb]
  refine ⟨rfl, ?_, ?_, ?_, ?_, ?_⟩
  · simpa [shieldedInputs] using ensureBuilder_inputs env self
  all_goals
    unfold ensureBuilder
    cases self.m_TxBuilder <;> simp [Event.isGatewayCall, Event.isCompletion]

/-- C4: while the initial parameters are not loaded, a shielded coin with a non-zero
asset id and asset support disabled make `UpdateImpl` throw
`TransactionFailedException(false, AssetsDisabled)`; no shielded input is added and
neither `SelectInputs` nor `AddChange` is called, whatever the coin's availability. -/
theorem C4_assets_disabled (env : Env) (self : PullTransaction) (coin : ShieldedCoin)
    (hi : env.GetInitialTxParams = false)
    (hc : env.getShieldedCoin env.ShieldedOutputId = some coin)
    (ha : coin.m_CoinID.m_AssetID ≠ 0) (hw : self.m_withAssets = false) :
    (UpdateImpl env self).outcome = Outcome.thrown false TxFailureReason.AssetsDisabled ∧
    shieldedInputs (UpdateImpl env self).tx = shieldedInputs self ∧
    (∀ inp, Event.emplaceShieldedInput inp ∉ (UpdateImpl env self).events) ∧
    Event.SelectInputs ∉ (UpdateImpl env self).events ∧
    Event.AddChange ∉ (UpdateImpl env self).events := by
  have h := UpdateImpl_no_selection env self
    (Outcome.thrown false TxFailureReason.AssetsDisabled)
    (by simp [initialParamsBlock, hi, hc, ha, hw])
  exact ⟨h.1, h.2.1, h.2.2.1, h.2.2.2.1, h.2.2.2.2.1⟩

/-- Witness of C4: an available coin with asset id 1, asset support disabled. -/
theorem C4_assets_disabled_witness :
    (UpdateImpl envAssetCoinAvailable (freshTx false)).outcome =
      Outcome.thrown false TxFailureReason.AssetsDisabled ∧
    shieldedInputs (UpdateImpl envAssetCoinAvailable (freshTx false)).tx =
      shieldedInputs (freshTx false) ∧
    (∀ inp, Event.emplaceShieldedInput inp ∉
      (UpdateImpl envAssetCoinAvailable (freshTx false)).events) ∧
    Event.SelectInputs ∉ (UpdateImpl envAssetCoinAvailable (freshTx false)).events ∧
    Event.AddChange ∉ (UpdateImpl envAssetCoinAvailable (freshTx false)).events :=
  C4_assets_disabled envAssetCoinAvailable (freshTx false) (coin20 1 true) rfl rfl
    (by decide) rfl

/-- C5 (counterexample): on a first run with an existing, unavailable coin whose asset
id is 1 and asset support disabled, `UpdateImpl` throws `AssetsDisabled`, not
`NoInputs`. -/
theorem C5_counterexample :
    envAssetCoin.GetInitialTxParams = false ∧
    shieldedInputs (freshTx false) = [] ∧
    envAssetCoin.getShieldedCoin envAssetCoin.ShieldedOutputId = some (coin20 1 false) ∧
    (coin20 1 false).IsAvailable = false ∧
    (UpdateImpl envAssetCoin (freshTx false)).outcome =
      Outcome.thrown false TxFailureReason.AssetsDisabled := by
  decide

/-- C5 (amended): on a first run (initial parameters not loaded, no shielded input
selected yet), if the coin exists, is not available, and has the default asset id or
asset support is enabled, `UpdateImpl` throws `NoInputs` (notify flag false): no
shielded input is appended, `SelectInputs` and `AddChange` are not called, no
shielded coin is saved and no gateway call is made. -/
theorem C5_unavailable_coin (env : Env) (self : PullTransaction) (coin : ShieldedCoin)
    (hi : env.GetInitialTxParams = false) (hs : shieldedInputs self = [])
    (hc : env.getShieldedCoin env.ShieldedOutputId = some coin)
    (hav : coin.IsAvailable = false)
    (ha : coin.m_CoinID.m_AssetID = 0 ∨ self.m_withAssets = true) :
    (UpdateImpl env self).outcome = Outcome.thrown false TxFailureReason.NoInputs ∧
    shieldedInputs (UpdateImpl env self).tx = [] ∧
    (∀ inp, Event.emplaceShieldedInput inp ∉ (UpdateImpl env self).events) ∧
    Event.SelectInputs ∉ (UpdateImpl env self).events ∧
    Event.AddChange ∉ (UpdateImpl env self).events ∧
    (∀ e ∈ (UpdateImpl env self).events, e.isGatewayCall = false ∧ e.isCompletion = false) := by
  have hg : ¬ (coin.m_CoinID.m_AssetID ≠ 0 ∧ self.m_withAssets = false) := by
    rcases ha with h | h <;> simp [h]
  have hl : (ensureBuilder env self).1.m_InputCoinsShielded = [] := by
    rw [ensureBuilder_inputs, hs]
  have h := UpdateImpl_no_selection env self
    (Outcome.thrown false TxFailureReason.NoInputs)
    (by simp [initialParamsBlock, hi, hc, hg, hav, hl])
  exact ⟨h.1, h.2.1.trans hs, h.2.2⟩

/-- Witness of C5: scenario B, an unavailable coin of the default asset. -/
theorem C5_unavailable_coin_witness :
    (UpdateImpl envScenarioB (freshTx false)).outcome =
      Outcome.thrown false TxFailureReason.NoInputs ∧
    shieldedInputs (UpdateImpl envScenarioB (freshTx false)).tx = [] ∧
    (∀ inp, Event.emplaceShieldedInput inp ∉ (UpdateImpl envScenarioB (freshTx false)).events) ∧
    Event.SelectInputs ∉ (UpdateImpl envScenarioB (freshTx false)).events ∧
    Event.AddChange ∉ (UpdateImpl envScenarioB (freshTx false)).events ∧
    (∀ e ∈ (UpdateImpl envScenarioB (freshTx false)).events,
      e.isGatewayCall = false ∧ e.isCompletion = false) :=
  C5_unavailable_coin envScenarioB (freshTx false) (coin20 0 false) rfl rfl rfl rfl
    (Or.inl rfl)

/-! ## The builder steps (lines 110-123) -/

theorem confirmAndComplete_events (env : Env) :
    ∀ e ∈ confirmAndComplete env, e.isBuilderStep = false ∧ e.isSetup = false := by
  intro e he
  simp only [confirmAndComplete] at he
  split at he
  · simp at he; subst he; exact ⟨rfl, rfl⟩
  · split at he
    · simp at he
      rcases he with he | he | he <;> subst he <;> exact ⟨rfl, rfl⟩
    · simp at he
      rcases he with he | he <;> subst he <;> exact ⟨rfl, rfl⟩

theorem registerAndConfirm_events (env : Env) :
    ∀ e ∈ registerAndConfirm env, e.isBuilderStep = false ∧ e.isSetup = false := by
  intro e he
  simp only [registerAndConfirm] at he
  split at he
  · split at he
    · simp at he; subst he; exact ⟨rfl, rfl⟩
    · split at he
      · simp at he
        rcases he with he | he | he <;> subst he <;> exact ⟨rfl, rfl⟩
      · simp at he
        rcases he with he | he | he <;> subst he <;> exact ⟨rfl, rfl⟩
  · split at he
    · split at he
      · simp at he; subst he; exact ⟨rfl, rfl⟩
      · exact confirmAndComplete_events env e he
    · split at he
      · simp at he; subst he; exact ⟨rfl, rfl⟩
      · exact confirmAndComplete_events env e he

/-- C6: the builder steps are called in the order `CreateInputs`, `CreateOutputs`,
`SignSplit`, and the invocation returns at the first one that reports pending: the
pending step is the last call of the invocation, the later steps are not called, no
transaction is assembled, no gateway call is made and `OnFailed` is not invoked. -/
theorem C6_builder_steps (env : Env) (self : PullTransaction) :
    ((UpdateImpl env self).events.filter Event.isBuilderStep <+:
      [Event.CreateInputs env.CreateInputs, Event.CreateOutputs env.CreateOutputs,
        Event.SignSplit env.SignSplit]) ∧
    (Event.CreateInputs true ∈ (UpdateImpl env self).events →
      (UpdateImpl env self).events.getLast? = some (Event.CreateInputs true) ∧
      (∀ p, Event.CreateOutputs p ∉ (UpdateImpl env self).events) ∧
      (∀ p, Event.SignSplit p ∉ (UpdateImpl env self).events)) ∧
    (Event.CreateOutputs true ∈ (UpdateImpl env self).events →
      (UpdateImpl env self).events.getLast? = some (Event.CreateOutputs true) ∧
      (∀ p, Event.SignSplit p ∉ (UpdateImpl env self).events)) ∧
    (Event.SignSplit true ∈ (UpdateImpl env self).events →
      (UpdateImpl env self).events.getLast? = some (Event.SignSplit true)) ∧
    ((Event.CreateInputs true ∈ (UpdateImpl env self).events ∨
        Event.CreateOutputs true ∈ (UpdateImpl env self).events ∨
        Event.SignSplit true ∈ (UpdateImpl env self).events) →
      (UpdateImpl env self).outcome = Outcome.returned ∧
      (∀ t, Event.CreateTransaction t ∉ (UpdateImpl env self).events) ∧
      (∀ e ∈ (UpdateImpl env self).events, e.isGatewayCall = false ∧ e.isOnFailed = false)) := by
  obtain ⟨pre, hpre, h⟩ := UpdateImpl_shape env self
  have hI : ∀ p, Event.CreateInputs p ∉ pre := fun p => not_mem_of_setup hpre _ rfl
  have hO : ∀ p, Event.CreateOutputs p ∉ pre := fun p => not_mem_of_setup hpre _ rfl
  have hS : ∀ p, Event.SignSplit p ∉ pre := fun p => not_mem_of_setup hpre _ rfl
  have hT : ∀ t, Event.CreateTransaction t ∉ pre := fun p => not_mem_of_setup hpre _ rfl
  have hf : pre.filter Event.isBuilderStep = [] :=
    filter_setup_nil hpre _ (by intro e; cases e <;> simp [Event.isSetup, Event.isBuilderStep])
  have hG : ∀ e ∈ pre, e.isGatewayCall = false ∧ e.isOnFailed = false := by
    intro e he
    have := hpre e he
    cases e <;> simp_all [Event.isSetup, Event.isGatewayCall, Event.isOnFailed]
  rcases h with h | ⟨hev, hout⟩
  · rw [h.1]
    simp [hI, hO, hS, hf]
  · have hr := registerAndConfirm_events env
    have hrI : ∀ p, Event.CreateInputs p ∉ registerAndConfirm env := fun p hm => by
      simpa [Event.isBuilderStep] using (hr _ hm).1
    have hrO : ∀ p, Event.CreateOutputs p ∉ registerAndConfirm env := fun p hm => by
      simpa [Event.isBuilderStep] using (hr _ hm).1
    have hrS : ∀ p, Event.SignSplit p ∉ registerAndConfirm env := fun p hm => by
      simpa [Event.isBuilderStep] using (hr _ hm).1
    have hrf : (registerAndConfirm env).filter Event.isBuilderStep = [] := by
      rw [List.filter_eq_nil_iff]
      intro e he
      simp [(hr e he).1]
    rw [hev, hout]
    unfold builderSteps
    split_ifs with h1 h2 h3
    · simp [hI, hO, hS, hT, hf, h1, Event.isBuilderStep]
      rintro e (he | rfl)
      · exact hG e he
      · exact ⟨rfl, rfl⟩
    · simp [hI, hO, hS, hT, hf, h1, h2, Event.isBuilderStep]
      rintro e (he | rfl | rfl)
      · exact hG e he
      · exact ⟨rfl, rfl⟩
      · exact ⟨rfl, rfl⟩
    · simp [hI, hO, hS, hT, hf, h1, h2, h3, Event.isBuilderStep]
      rintro e (he | rfl | rfl | rfl)
      · exact hG e he
      · exact ⟨rfl, rfl⟩
      · exact ⟨rfl, rfl⟩
      · exact ⟨rfl, rfl⟩
    · simp [hI, hO, hS, hf, hrI, hrO, hrS, hrf, h1, h2, h3, Event.isBuilderStep,
        List.filter_append]

/-- Witness of C6: `CreateInputs` reports done and `CreateOutputs` reports pending;
the trace ends with that call. -/
theorem C6_builder_steps_witness :
    Event.CreateOutputs true ∈ (UpdateImpl envOutputsPending (freshTx false)).events ∧
    (UpdateImpl envOutputsPending (freshTx false)).events.getLast? =
      some (Event.CreateOutputs true) ∧
    (∀ p, Event.SignSplit p ∉ (UpdateImpl envOutputsPending (freshTx false)).events) :=
  ⟨by decide,
    (C6_builder_steps envOutputsPending (freshTx false)).2.2.1 (by decide)⟩

/-! ## Registration (lines 125-164) -/

theorem setup_event_flags (e : Event) (h : e.isSetup = true) :
    e.isGatewayCall = false ∧ e.isOnFailed = false ∧ e.isCompletion = false ∧
      e.isRegisterTx = false := by
  cases e <;> simp_all [Event.isSetup, Event.isGatewayCall, Event.isOnFailed,
    Event.isCompletion, Event.isRegisterTx]

theorem forall_mem_trace {pre l : List Event} {p : Event → Bool}
    (hpre : ∀ e ∈ pre, e.isSetup = true) (hp : ∀ e, e.isSetup = true → p e = false)
    (hl : ∀ e ∈ l, p e = false) : ∀ e ∈ pre ++ l, p e = false := by
  intro e he
  rcases List.mem_append.1 he with h | h
  · exact hp e (hpre e h)
  · exact hl e h

theorem filter_trace {pre l : List Event} {p : Event → Bool}
    (hpre : ∀ e ∈ pre, e.isSetup = true) (hp : ∀ e, e.isSetup = true → p e = false) :
    (pre ++ l).filter p = l.filter p := by
  rw [List.filter_append, filter_setup_nil hpre p hp, List.nil_append]

theorem not_mem_trace {pre l : List Event} (hpre : ∀ e ∈ pre, e.isSetup = true)
    (e : Event) (he : e.isSetup = false) (hl : e ∉ l) : e ∉ pre ++ l := by
  intro hmem
  rcases List.mem_append.1 hmem with h | h
  · exact not_mem_of_setup hpre e he h
  · exact hl h

/-- C7: when the builder steps are done, no `TransactionRegistered` parameter is
persisted, the transaction is not expired and the assembled transaction is valid for
the builder's minimum height, `UpdateImpl` calls `register_tx` exactly once, with the
transaction id, the assembled transaction and the sub-transaction id, and returns
right after it, without `ConfirmKernel`, `OnFailed`, `SetCompletedTxCoinStatuses` or
`CompleteTx`. -/
theorem C7_register_tx (env : Env) (self : PullTransaction)
    (hd : stepsDone (UpdateImpl env self))
    (hr : env.TransactionRegistered = none) (he : env.CheckExpired = false)
    (hv : env.IsValid env.CreateTransaction env.GetMinHeight = true) :
    (UpdateImpl env self).outcome = Outcome.returned ∧
    (UpdateImpl env self).events.filter Event.isRegisterTx =
      [Event.register_tx env.GetTxID env.CreateTransaction env.GetSubTxID] ∧
    (UpdateImpl env self).events.getLast? =
      some (Event.register_tx env.GetTxID env.CreateTransaction env.GetSubTxID) ∧
    (∀ k, Event.ConfirmKernel k ∉ (UpdateImpl env self).events) ∧
    (∀ e ∈ (UpdateImpl env self).events, e.isOnFailed = false) ∧
    (∀ e ∈ (UpdateImpl env self).events, e.isCompletion = false) := by
  obtain ⟨pre, hpre, hev, hout⟩ := UpdateImpl_steps_done env self hd
  have hrc : registerAndConfirm env =
      [Event.CheckExpired false, Event.CreateTransaction env.CreateTransaction,
        Event.register_tx env.GetTxID env.CreateTransaction env.GetSubTxID] := by
    simp [registerAndConfirm, hr, he, hv]
  rw [hev, hrc]
  refine ⟨hout, ?_, ?_, ?_, ?_, ?_⟩
  · rw [filter_trace hpre fun e h => (setup_event_flags e h).2.2.2]
    simp [List.filter, Event.isRegisterTx]
  · simp
  · exact fun k => not_mem_trace hpre _ rfl (by simp)
  · exact forall_mem_trace hpre (fun e h => (setup_event_flags e h).2.1)
      (by simp [Event.isOnFailed])
  · exact forall_mem_trace hpre (fun e h => (setup_event_flags e h).2.2.1)
      (by simp [Event.isCompletion])

/-- Witness of C7: scenario A on a fresh object registers transaction 99 under
transaction id 42 and sub-transaction id 1. -/
theorem C7_register_tx_witness :
    (UpdateImpl envScenarioA (freshTx false)).outcome = Outcome.returned ∧
    (UpdateImpl envScenarioA (freshTx false)).events.filter Event.isRegisterTx =
      [Event.register_tx 42 99 1] ∧
    (UpdateImpl envScenarioA (freshTx false)).events.getLast? =
      some (Event.register_tx 42 99 1) ∧
    (∀ k, Event.ConfirmKernel k ∉ (UpdateImpl envScenarioA (freshTx false)).events) ∧
    (∀ e ∈ (UpdateImpl envScenarioA (freshTx false)).events, e.isOnFailed = false) ∧
    (∀ e ∈ (UpdateImpl envScenarioA (freshTx false)).events, e.isCompletion = false) :=
  C7_register_tx envScenarioA (freshTx false) (by decide) rfl rfl rfl

/-- C8: when the builder steps are done, no `TransactionRegistered` parameter is
persisted, the transaction is not expired and the assembled transaction fails
validation, `UpdateImpl` calls `OnFailed(InvalidTransaction, true)` and returns
without calling `register_tx`. -/
theorem C8_invalid_transaction (env : Env) (self : PullTransaction)
    (hd : stepsDone (UpdateImpl env self))
    (hr : env.TransactionRegistered = none) (he : env.CheckExpired = false)
    (hv : env.IsValid env.CreateTransaction env.GetMinHeight = false) :
    (UpdateImpl env self).outcome = Outcome.returned ∧
    (UpdateImpl env self).events.filter Event.isOnFailed =
      [Event.OnFailed TxFailureReason.InvalidTransaction true] ∧
    (UpdateImpl env self).events.getLast? =
      some (Event.OnFailed TxFailureReason.InvalidTransaction true) ∧
    (∀ e ∈ (UpdateImpl env self).events, e.isRegisterTx = false) := by
  obtain ⟨pre, hpre, hev, hout⟩ := UpdateImpl_steps_done env self hd
  have hrc : registerAndConfirm env =
      [Event.CheckExpired false, Event.CreateTransaction env.CreateTransaction,
        Event.OnFailed TxFailureReason.InvalidTransaction true] := by
    simp [registerAndConfirm, hr, he, hv]
  rw [hev, hrc]
  refine ⟨hout, ?_, ?_, ?_⟩
  · rw [filter_trace hpre fun e h => (setup_event_flags e h).2.1]
    simp [List.filter, Event.isOnFailed]
  · simp
  · exact forall_mem_trace hpre (fun e h => (setup_event_flags e h).2.2.2)
      (by simp [Event.isRegisterTx])

/-- Witness of C8: scenario A with a transaction that fails validation. -/
theorem C8_invalid_transaction_witness :
    (UpdateImpl envInvalidTx (freshTx false)).outcome = Outcome.returned ∧
    (UpdateImpl envInvalidTx (freshTx false)).events.filter Event.isOnFailed =
      [Event.OnFailed TxFailureReason.InvalidTransaction true] ∧
    (UpdateImpl envInvalidTx (freshTx false)).events.getLast? =
      some (Event.OnFailed TxFailureReason.InvalidTransaction true) ∧
    (∀ e ∈ (UpdateImpl envInvalidTx (freshTx false)).events, e.isRegisterTx = false) :=
  C8_invalid_transaction envInvalidTx (freshTx false) (by decide) rfl rfl rfl

/-! ## The registration result (lines 151-164) -/

theorem failsToRegister_of_trace (r : Result) (pre : List Event)
    (hpre : ∀ e ∈ pre, e.isSetup = true)
    (hev : r.events =
      pre ++ ([Event.CreateInputs false, Event.CreateOutputs false, Event.SignSplit false] ++
        [Event.OnFailed TxFailureReason.FailedToRegister true])) :
    failsToRegister r := by
  unfold failsToRegister
  rw [hev]
  refine ⟨?_, ?_, ?_, ?_⟩
  · rw [filter_trace hpre fun e h => (setup_event_flags e h).2.1]
    simp [List.filter, Event.isOnFailed]
  · simp
  · exact fun k => not_mem_trace hpre _ rfl (by simp)
  · exact forall_mem_trace hpre (fun e h => (setup_event_flags e h).2.2.1)
      (by simp [Event.isCompletion])

theorem confirmAndComplete_proceeds (env : Env) :
    (∀ e ∈ confirmAndComplete env, e.isOnFailed = false) ∧
    (Event.ConfirmKernel env.GetKernelID ∈ confirmAndComplete env ∨
      Event.CompleteTx ∈ confirmAndComplete env) := by
  simp only [confirmAndComplete]
  split
  · simp [Event.isOnFailed]
  · split <;> simp [Event.isOnFailed]

theorem proceeds_of_trace (env : Env) (r : Result) (pre : List Event)
    (hpre : ∀ e ∈ pre, e.isSetup = true)
    (hev : r.events =
      pre ++ ([Event.CreateInputs false, Event.CreateOutputs false, Event.SignSplit false] ++
        confirmAndComplete env)) :
    proceedsToConfirmation env r := by
  unfold proceedsToConfirmation
  rw [hev]
  obtain ⟨h1, h2⟩ := confirmAndComplete_proceeds env
  refine ⟨forall_mem_trace hpre (fun e h => (setup_event_flags e h).2.1) ?_, ?_⟩
  · intro e he
    rcases List.mem_append.1 he with h | h
    · simp only [List.mem_cons, List.mem_singleton, List.not_mem_nil, or_false] at h
      rcases h with rfl | rfl | rfl <;> rfl
    · exact h1 e h
  · rcases h2 with h | h
    · exact Or.inl (by simp [h])
    · exact Or.inr (by simp [h])

/-- C9: when the builder steps are done, the persisted `TransactionRegistered` value is
`InvalidContext` and a `KernelUnconfirmedHeight` greater than zero is persisted,
`UpdateImpl` calls `OnFailed(FailedToRegister, true)` and returns without calling
`ConfirmKernel`, without saving the shielded coin and without completing the
transaction. -/
theorem C9_invalid_context_rejected (env : Env) (self : PullTransaction) (h : Height)
    (hd : stepsDone (UpdateImpl env self))
    (hr : env.TransactionRegistered = some env.TxStatus_InvalidContext)
    (hk : env.KernelUnconfirmedHeight = some h) (hpos : 0 < h) :
    (UpdateImpl env self).outcome = Outcome.returned ∧
    (UpdateImpl env self).events.filter Event.isOnFailed =
      [Event.OnFailed TxFailureReason.FailedToRegister true] ∧
    (UpdateImpl env self).events.getLast? =
      some (Event.OnFailed TxFailureReason.FailedToRegister true) ∧
    (∀ k, Event.ConfirmKernel k ∉ (UpdateImpl env self).events) ∧
    (∀ c, Event.saveShieldedCoin c ∉ (UpdateImpl env self).events) ∧
    (∀ hProof, Event.SetCompletedTxCoinStatuses hProof ∉ (UpdateImpl env self).events) ∧
    Event.CompleteTx ∉ (UpdateImpl env self).events := by
  obtain ⟨pre, hpre, hev, hout⟩ := UpdateImpl_steps_done env self hd
  have hrc : registerAndConfirm env =
      [Event.OnFailed TxFailureReason.FailedToRegister true] := by
    simp [registerAndConfirm, hr, hk, hpos]
  rw [hrc] at hev
  obtain ⟨h1, h2, h3, h4⟩ := failsToRegister_of_trace _ pre hpre hev
  refine ⟨hout, h1, h2, h3, ?_, ?_, ?_⟩
  · intro c hc
    simpa [Event.isCompletion] using h4 _ hc
  · intro hProof hc
    simpa [Event.isCompletion] using h4 _ hc
  · intro hc
    simpa [Event.isCompletion] using h4 _ hc

/-- Witness of C9: scenario C, `InvalidContext` with unconfirmed height 5. -/
theorem C9_invalid_context_rejected_witness :
    (UpdateImpl envScenarioC (freshTx false)).outcome = Outcome.returned ∧
    (UpdateImpl envScenarioC (freshTx false)).events.filter Event.isOnFailed =
      [Event.OnFailed TxFailureReason.FailedToRegister true] ∧
    (UpdateImpl envScenarioC (freshTx false)).events.getLast? =
      some (Event.OnFailed TxFailureReason.FailedToRegister true) ∧
    (∀ k, Event.ConfirmKernel k ∉ (UpdateImpl envScenarioC (freshTx false)).events) ∧
    (∀ c, Event.saveShieldedCoin c ∉ (UpdateImpl envScenarioC (freshTx false)).events) ∧
    (∀ hProof, Event.SetCompletedTxCoinStatuses hProof ∉
      (UpdateImpl envScenarioC (freshTx false)).events) ∧
    Event.CompleteTx ∉ (UpdateImpl envScenarioC (freshTx false)).events :=
  C9_invalid_context_rejected envScenarioC (freshTx false) 5 (by decide) rfl rfl (by decide)

/-- C10 (counterexample): the builder steps are done and the persisted
`TransactionRegistered` value is `InvalidContext` (code 2, different from `Ok`, code
1) with no `KernelUnconfirmedHeight`: `UpdateImpl` reports no failure and calls
`ConfirmKernel`. -/
theorem C10_counterexample :
    stepsDone (UpdateImpl envInvalidContextOnly (freshTx false)) ∧
    envInvalidContextOnly.TransactionRegistered = some 2 ∧
    envInvalidContextOnly.TxStatus_Ok = 1 ∧
    (UpdateImpl envInvalidContextOnly (freshTx false)).events.filter Event.isOnFailed = [] ∧
    (UpdateImpl envInvalidContextOnly (freshTx false)).events.getLast? =
      some (Event.ConfirmKernel 5) := by
  decide

/-- C10 (amended): once the builder steps are done, every persisted
`TransactionRegistered` value other than `Ok` and `InvalidContext` makes `UpdateImpl`
fail with `FailedToRegister` without confirmation polling or completion;
`InvalidContext` does the same when a `KernelUnconfirmedHeight` greater than zero is
persisted and otherwise proceeds to confirmation polling, as `Ok` does. -/
theorem C10_registration_result (env : Env) (self : PullTransaction) (v : Nat)
    (hd : stepsDone (UpdateImpl env self))
    (hr : env.TransactionRegistered = some v) :
    (v ≠ env.TxStatus_Ok → v ≠ env.TxStatus_InvalidContext →
      failsToRegister (UpdateImpl env self)) ∧
    (v = env.TxStatus_InvalidContext →
      (∃ h, env.KernelUnconfirmedHeight = some h ∧ 0 < h) →
      failsToRegister (UpdateImpl env self)) ∧
    (v = env.TxStatus_InvalidContext →
      (env.KernelUnconfirmedHeight = none ∨ env.KernelUnconfirmedHeight = some 0) →
      proceedsToConfirmation env (UpdateImpl env self)) ∧
    (v = env.TxStatus_Ok → env.TxStatus_Ok ≠ env.TxStatus_InvalidContext →
      proceedsToConfirmation env (UpdateImpl env self)) := by
  obtain ⟨pre, hpre, hev, _⟩ := UpdateImpl_steps_done env self hd
  refine ⟨?_, ?_, ?_, ?_⟩
  · intro h1 h2
    have hrc : registerAndConfirm env =
        [Event.OnFailed TxFailureReason.FailedToRegister true] := by
      simp [registerAndConfirm, hr, Ne.symm h1, Ne.symm h2]
    rw [hrc] at hev
    exact failsToRegister_of_trace _ pre hpre hev
  · rintro h1 ⟨h, hk, hpos⟩
    have hrc : registerAndConfirm env =
        [Event.OnFailed TxFailureReason.FailedToRegister true] := by
      simp [registerAndConfirm, hr, h1, hk, hpos]
    rw [hrc] at hev
    exact failsToRegister_of_trace _ pre hpre hev
  · intro h1 hk
    have hrc : registerAndConfirm env = confirmAndComplete env := by
      rcases hk with hk | hk <;> simp [registerAndConfirm, hr, h1, hk]
    rw [hrc] at hev
    exact proceeds_of_trace env _ pre hpre hev
  · intro h1 h2
    have hrc : registerAndConfirm env = confirmAndComplete env := by
      simp [registerAndConfirm, hr, h1, Ne.symm h2]
    rw [hrc] at hev
    exact proceeds_of_trace env _ pre hpre hev

/-- Witness of C10: the persisted value 7 is neither `Ok` (1) nor `InvalidContext`
(2), and the transaction fails with `FailedToRegister`. -/
theorem C10_registration_result_witness :
    stepsDone (UpdateImpl envOtherStatus (freshTx false)) ∧
    envOtherStatus.TransactionRegistered = some 7 ∧
    failsToRegister (UpdateImpl envOtherStatus (freshTx false)) :=
  ⟨by decide, rfl,
    (C10_registration_result envOtherStatus (freshTx false) 7 (by decide) rfl).1
      (by decide) (by decide)⟩

end beam.wallet.lelantus

/-! ## Repeated invocations -/

namespace beam.wallet.lelantus

theorem selection_is_setup (e : Event) (h : e.isSetup = false) : e.isSelection = false := by
  cases e <;> simp_all [Event.isSetup, Event.isSelection]

theorem builderSteps_not_setup (env : Env) : ∀ e ∈ builderSteps env, e.isSetup = false := by
  intro e he
  unfold builderSteps at he
  split_ifs at he
  · simp at he; subst he; rfl
  · simp at he; rcases he with rfl | rfl <;> rfl
  · simp at he; rcases he with rfl | rfl | rfl <;> rfl
  · rcases List.mem_append.1 he with h | h
    · simp at h; rcases h with rfl | rfl | rfl <;> rfl
    · exact (registerAndConfirm_events env e h).2

theorem initialParamsBlock_selected (env : Env) (w : Bool) (b : BaseTxBuilder)
    (h : env.GetInitialTxParams = true ∨ b.m_InputCoinsShielded ≠ []) :
    (initialParamsBlock env w b).1 = b ∧
    ∀ e ∈ (initialParamsBlock env w b).2.1, e.isSelection = false := by
  unfold initialParamsBlock
  by_cases hi : env.GetInitialTxParams = true
  · simp [hi, Event.isSelection]
  · have hb : b.m_InputCoinsShielded ≠ [] := by
      rcases h with h | h
      · exact absurd h hi
      · exact h
    simp only [hi, if_false, Bool.false_eq_true]
    cases env.getShieldedCoin env.ShieldedOutputId with
    | none => simp [Event.isSelection]
    | some coin =>
      simp only [List.isEmpty_iff, hb, if_false]
      split_ifs <;> simp [Event.isSelection]

theorem initialParamsBlock_again (env : Env) (w : Bool) (b b1 : BaseTxBuilder)
    (ev : List Event) (h : initialParamsBlock env w b = (b1, ev, none)) :
    (env.GetInitialTxParams = true ∨ b1.m_InputCoinsShielded ≠ []) ∧
    (initialParamsBlock env w b1).2.2 = none := by
  unfold initialParamsBlock at h ⊢
  by_cases hi : env.GetInitialTxParams = true
  · simp [hi]
  · simp only [hi, if_false, Bool.false_eq_true] at h ⊢
    cases hc : env.getShieldedCoin env.ShieldedOutputId with
    | none => simp [hc] at h
    | some coin =>
      simp only [hc] at h ⊢
      split_ifs at h with h1 h2 h3
      · simp at h
      · simp at h
      · simp only [Prod.mk.injEq] at h
        rw [← h.1]
        simp [h1]
      · simp only [Prod.mk.injEq] at h
        rw [← h.1]
        have hb : b.m_InputCoinsShielded ≠ [] := by simpa [List.isEmpty_iff] using h2
        simp [h1, hb]

/-- After an invocation that returned, a further invocation with the same answers
leaves the object as it is, selects no input, and runs the builder steps again. -/
theorem UpdateImpl_again (env : Env) (self : PullTransaction)
    (hout : (UpdateImpl env self).outcome = Outcome.returned) :
    ∃ pre, (∀ e ∈ pre, e.isSetup = true) ∧ (∀ e ∈ pre, e.isSelection = false) ∧
      UpdateImpl env (UpdateImpl env self).tx =
        Result.mk (UpdateImpl env self).tx (pre ++ builderSteps env) Outcome.returned := by
  rcases h : initialParamsBlock env self.m_withAssets (ensureBuilder env self).1 with ⟨b1, ev, o⟩
  have hne := initialParamsBlock_outcome env self.m_withAssets (ensureBuilder env self).1
  have htx : (UpdateImpl env self).tx = PullTransaction.mk self.m_withAssets (some b1) ∧
      o = none := by
    rw [UpdateImpl_split] at hout ⊢
    rw [h] at hne
    cases o with
    | none => simp [h]
    | some out =>
      simp only [h] at hout
      exact absurd (hout ▸ rfl) hne
  obtain ⟨htx, rfl⟩ := htx
  obtain ⟨hsel, hnone⟩ := initialParamsBlock_again env self.m_withAssets _ b1 ev h
  obtain ⟨hb, hns⟩ := initialParamsBlock_selected env self.m_withAssets b1 hsel
  refine ⟨(initialParamsBlock env self.m_withAssets b1).2.1,
    initialParamsBlock_events_setup env _ b1, hns, ?_⟩
  rw [htx, UpdateImpl_split]
  have he : ensureBuilder env (PullTransaction.mk self.m_withAssets (some b1)) = (b1, []) := rfl
  simp only [he, hnone, hb, List.nil_append]

theorem stepsDone_flags (env : Env) (self : PullTransaction)
    (hd : stepsDone (UpdateImpl env self)) :
    env.CreateInputs = false ∧ env.CreateOutputs = false ∧ env.SignSplit = false := by
  obtain ⟨pre, hpre, h | ⟨hev, _⟩⟩ := UpdateImpl_shape env self
  · exact absurd (h.1 ▸ hd.2.2) (not_mem_of_setup hpre (Event.SignSplit false) rfl)
  · have hS := hd.2.2
    rw [hev, List.mem_append] at hS
    rcases hS with hS | hS
    · exact absurd hS (not_mem_of_setup hpre (Event.SignSplit false) rfl)
    · unfold builderSteps at hS
      have hr := registerAndConfirm_events env
      split_ifs at hS with h1 h2 h3
      · simp at hS
      · simp at hS
      · simp at hS
      · simp_all

theorem builderSteps_done (env : Env)
    (h : env.CreateInputs = false ∧ env.CreateOutputs = false ∧ env.SignSplit = false) :
    builderSteps env =
      [Event.CreateInputs false, Event.CreateOutputs false, Event.SignSplit false] ++
        registerAndConfirm env := by
  simp [builderSteps, h.1, h.2.1, h.2.2]

/-- The stage reached by an invocation is reached again by the next one. -/
theorem stepsDone_again (env : Env) (self : PullTransaction)
    (hd : stepsDone (UpdateImpl env self)) :
    stepsDone (UpdateImpl env (UpdateImpl env self).tx) := by
  obtain ⟨_, _, _, hout⟩ := UpdateImpl_steps_done env self hd
  obtain ⟨pre, _, _, h2⟩ := UpdateImpl_again env self hout
  rw [h2, builderSteps_done env (stepsDone_flags env self hd)]
  simp [stepsDone]

end beam.wallet.lelantus

/-! ## Confirmation and completion (lines 166-185) -/

namespace beam.wallet.lelantus

theorem confirmsOnly_of_trace (env : Env) (r : Result) (pre : List Event)
    (hpre : ∀ e ∈ pre, e.isSetup = true)
    (hev : r.events =
      pre ++ ([Event.CreateInputs false, Event.CreateOutputs false, Event.SignSplit false] ++
        [Event.ConfirmKernel env.GetKernelID]))
    (hout : r.outcome = Outcome.returned) :
    confirmsOnly env r := by
  unfold confirmsOnly
  rw [hev]
  refine ⟨hout, ?_, ?_, ?_, ?_⟩
  · simp
  · rw [filter_trace hpre fun e h => (setup_event_flags e h).1]
    simp [List.filter, Event.isGatewayCall]
  · exact forall_mem_trace hpre (fun e h => (setup_event_flags e h).2.2.1)
      (by simp [Event.isCompletion])
  · exact forall_mem_trace hpre (fun e h => (setup_event_flags e h).2.1)
      (by simp [Event.isOnFailed])

theorem registerAndConfirm_ok (env : Env)
    (hr : env.TransactionRegistered = some env.TxStatus_Ok)
    (hne : env.TxStatus_Ok ≠ env.TxStatus_InvalidContext) :
    registerAndConfirm env = confirmAndComplete env := by
  simp [registerAndConfirm, hr, Ne.symm hne]

theorem confirmAndComplete_pending (env : Env)
    (hp : env.KernelProofHeight = none ∨ env.KernelProofHeight = some 0) :
    confirmAndComplete env = [Event.ConfirmKernel env.GetKernelID] := by
  rcases hp with hp | hp <;> simp [confirmAndComplete, hp]

theorem UpdateImpl_selected (env : Env) (self : PullTransaction)
    (h : env.GetInitialTxParams = true ∨ shieldedInputs self ≠ []) :
    ∀ e ∈ (UpdateImpl env self).events, e.isSelection = false := by
  have h1 : ∀ e ∈ (ensureBuilder env self).2, e.isSelection = false := by
    unfold ensureBuilder
    cases self.m_TxBuilder <;> simp [Event.isSelection]
  have h2 := (initialParamsBlock_selected env self.m_withAssets (ensureBuilder env self).1
    (by rw [ensureBuilder_inputs]; exact h)).2
  have h3 : ∀ e ∈ builderSteps env, e.isSelection = false := fun e he =>
    selection_is_setup e (builderSteps_not_setup env e he)
  intro e he
  rw [UpdateImpl_split] at he
  split at he
  · rcases List.mem_append.1 he with h | h
    · exact h1 e h
    · exact h2 e h
  · rcases List.mem_append.1 he with h | h
    · rcases List.mem_append.1 h with h | h
      · exact h1 e h
      · exact h2 e h
    · exact h3 e h

/-- C11: when the builder steps are done, the registration result is `Ok` and the
persisted `KernelProofHeight` is absent or zero, `UpdateImpl` calls `ConfirmKernel`
with the builder's kernel id as its last call and returns, without saving the
shielded coin, setting coin statuses, completing or failing the transaction; when
the input was selected before, it selects nothing either.  The next invocation with
the same parameters does the same, leaves the object unchanged and selects no
input. -/
theorem C11_confirm_kernel (env : Env) (self : PullTransaction)
    (hd : stepsDone (UpdateImpl env self))
    (hr : env.TransactionRegistered = some env.TxStatus_Ok)
    (hne : env.TxStatus_Ok ≠ env.TxStatus_InvalidContext)
    (hp : env.KernelProofHeight = none ∨ env.KernelProofHeight = some 0) :
    confirmsOnly env (UpdateImpl env self) ∧
    ((env.GetInitialTxParams = true ∨ shieldedInputs self ≠ []) →
      ∀ e ∈ (UpdateImpl env self).events, e.isSelection = false) ∧
    confirmsOnly env (UpdateImpl env (UpdateImpl env self).tx) ∧
    (UpdateImpl env (UpdateImpl env self).tx).tx = (UpdateImpl env self).tx ∧
    (∀ e ∈ (UpdateImpl env (UpdateImpl env self).tx).events, e.isSelection = false) := by
  have hrc : registerAndConfirm env = [Event.ConfirmKernel env.GetKernelID] := by
    rw [registerAndConfirm_ok env hr hne, confirmAndComplete_pending env hp]
  obtain ⟨pre, hpre, hev, hout⟩ := UpdateImpl_steps_done env self hd
  obtain ⟨pre2, hpre2, hsel2, h2⟩ := UpdateImpl_again env self hout
  rw [hrc] at hev
  refine ⟨confirmsOnly_of_trace env _ pre hpre hev hout, UpdateImpl_selected env self, ?_, ?_, ?_⟩
  · refine confirmsOnly_of_trace env _ pre2 hpre2 ?_ ?_
    · rw [h2, builderSteps_done env (stepsDone_flags env self hd), hrc]
    · rw [h2]
  · rw [h2]
  · rw [h2]
    intro e he
    rcases List.mem_append.1 he with h | h
    · exact hsel2 e h
    · exact selection_is_setup e (builderSteps_not_setup env e h)

/-- Witness of C11: registration answered `Ok`, no proof height persisted. -/
theorem C11_confirm_kernel_witness :
    confirmsOnly envRegisteredOk (UpdateImpl envRegisteredOk (freshTx false)) ∧
    confirmsOnly envRegisteredOk
      (UpdateImpl envRegisteredOk (UpdateImpl envRegisteredOk (freshTx false)).tx) ∧
    (UpdateImpl envRegisteredOk (UpdateImpl envRegisteredOk (freshTx false)).tx).tx =
      (UpdateImpl envRegisteredOk (freshTx false)).tx :=
  have h := C11_confirm_kernel envRegisteredOk (freshTx false) (by decide) rfl (by decide)
    (Or.inl rfl)
  ⟨h.1, h.2.2.1, h.2.2.2.1⟩

theorem confirmAndComplete_proven (env : Env) (h : Height)
    (hk : env.KernelProofHeight = some h) (hh : h ≠ 0) :
    confirmAndComplete env =
      (match env.getShieldedCoinByTx env.GetTxID with
        | some c => [Event.saveShieldedCoin (updateSpentHeight c h)]
        | none => []) ++
      [Event.SetCompletedTxCoinStatuses h, Event.CompleteTx] := by
  simp only [confirmAndComplete, hk, Option.getD_some, hh, if_false]
  cases env.getShieldedCoinByTx env.GetTxID <;> rfl

/-- C12: when the builder steps are done, the registration result is `Ok` and a
non-zero `KernelProofHeight` h is persisted, `UpdateImpl` saves the transaction's
shielded coin, when the database has one, with spent height min(previous, h) and the
other fields unchanged, then calls `SetCompletedTxCoinStatuses(h)` and `CompleteTx`,
and returns; the saved spent height exceeds neither the previous one nor h. -/
theorem C12_completion (env : Env) (self : PullTransaction) (h : Height)
    (hd : stepsDone (UpdateImpl env self))
    (hr : env.TransactionRegistered = some env.TxStatus_Ok)
    (hne : env.TxStatus_Ok ≠ env.TxStatus_InvalidContext)
    (hk : env.KernelProofHeight = some h) (hh : h ≠ 0) :
    (UpdateImpl env self).outcome = Outcome.returned ∧
    (∀ c, env.getShieldedCoinByTx env.GetTxID = some c →
      (UpdateImpl env self).events.filter Event.isCompletion =
        [Event.saveShieldedCoin (updateSpentHeight c h),
          Event.SetCompletedTxCoinStatuses h, Event.CompleteTx] ∧
      (updateSpentHeight c h).m_spentHeight = min c.m_spentHeight h ∧
      (updateSpentHeight c h).m_CoinID = c.m_CoinID ∧
      (updateSpentHeight c h).IsAvailable = c.IsAvailable ∧
      (updateSpentHeight c h).m_spentHeight ≤ c.m_spentHeight ∧
      (updateSpentHeight c h).m_spentHeight ≤ h) ∧
    (env.getShieldedCoinByTx env.GetTxID = none →
      (UpdateImpl env self).events.filter Event.isCompletion =
        [Event.SetCompletedTxCoinStatuses h, Event.CompleteTx]) ∧
    (UpdateImpl env self).events.getLast? = some Event.CompleteTx ∧
    (∀ e ∈ (UpdateImpl env self).events, e.isOnFailed = false) := by
  obtain ⟨pre, hpre, hev, hout⟩ := UpdateImpl_steps_done env self hd
  rw [registerAndConfirm_ok env hr hne, confirmAndComplete_proven env h hk hh] at hev
  rw [hev]
  refine ⟨hout, ?_, ?_, ?_, ?_⟩
  · intro c hc
    refine ⟨?_, rfl, rfl, rfl, Nat.min_le_left _ _, Nat.min_le_right _ _⟩
    rw [filter_trace hpre fun e h => (setup_event_flags e h).2.2.1, hc]
    simp [List.filter, Event.isCompletion]
  · intro hc
    rw [filter_trace hpre fun e h => (setup_event_flags e h).2.2.1, hc]
    simp [List.filter, Event.isCompletion]
  · cases env.getShieldedCoinByTx env.GetTxID <;> simp
  · refine forall_mem_trace hpre (fun e h => (setup_event_flags e h).2.1) ?_
    cases env.getShieldedCoinByTx env.GetTxID <;> simp [Event.isOnFailed]

/-- Witness of C12: proof height 700 against a stored spent height of 1000. -/
theorem C12_completion_witness :
    (UpdateImpl envProven (freshTx false)).events.filter Event.isCompletion =
      [Event.saveShieldedCoin ⟨⟨20, 0, 0⟩, 700, false⟩,
        Event.SetCompletedTxCoinStatuses 700, Event.CompleteTx] :=
  ((C12_completion envProven (freshTx false) 700 (by decide) rfl (by decide) rfl
    (by decide)).2.1 coinOfTx rfl).1

/-- C13: the spent-height update of the completion step commutes and is idempotent:
updating for h1 then h2 gives the same coin as h2 then h1, with spent height
min(s, h1, h2), and updating twice for the same height is the same as once. -/
theorem C13_spent_height_update (coin : ShieldedCoin) (h1 h2 : Height) :
    updateSpentHeight (updateSpentHeight coin h1) h2 =
      updateSpentHeight (updateSpentHeight coin h2) h1 ∧
    (updateSpentHeight (updateSpentHeight coin h1) h2).m_spentHeight =
      min coin.m_spentHeight (min h1 h2) ∧
    updateSpentHeight (updateSpentHeight coin h1) h1 = updateSpentHeight coin h1 := by
  simp only [updateSpentHeight, ShieldedCoin.mk.injEq, true_and, and_true]
  unfold Height at *
  refine ⟨?_, ?_, ?_⟩ <;> omega

/-! ## Broadcast across invocations (lines 125-149) -/

theorem UpdateImpl_registers (env : Env) (self : PullTransaction)
    (hd : stepsDone (UpdateImpl env self))
    (hr : env.TransactionRegistered = none) (he : env.CheckExpired = false)
    (hv : env.IsValid env.CreateTransaction env.GetMinHeight = true) :
    (UpdateImpl env self).events.filter Event.isRegisterTx =
      [Event.register_tx env.GetTxID env.CreateTransaction env.GetSubTxID] := by
  obtain ⟨pre, hpre, hev, _⟩ := UpdateImpl_steps_done env self hd
  have hrc : registerAndConfirm env =
      [Event.CheckExpired false, Event.CreateTransaction env.CreateTransaction,
        Event.register_tx env.GetTxID env.CreateTransaction env.GetSubTxID] := by
    simp [registerAndConfirm, hr, he, hv]
  rw [hev, hrc, filter_trace hpre fun e h => (setup_event_flags e h).2.2.2]
  simp [List.filter, Event.isRegisterTx]

/-- C16 (counterexample): two consecutive invocations in scenario A (builder steps
done, no `TransactionRegistered` parameter, not expired, valid transaction, nothing
persisted in between) call `register_tx` twice. -/
theorem C16_counterexample :
    stepsDone (UpdateImpl envScenarioA (freshTx false)) ∧
    stepsDone (UpdateImpl envScenarioA (UpdateImpl envScenarioA (freshTx false)).tx) ∧
    envScenarioA.TransactionRegistered = none ∧ envScenarioA.CheckExpired = false ∧
    envScenarioA.IsValid envScenarioA.CreateTransaction envScenarioA.GetMinHeight = true ∧
    (UpdateImplRepeated envScenarioA 2 (freshTx false)).2.filter Event.isRegisterTx =
      [Event.register_tx 42 99 1, Event.register_tx 42 99 1] := by
  decide

/-- C16 (amended): while no new parameter is persisted (builder steps done, no
`TransactionRegistered` parameter, not expired, transaction valid), every invocation
of `UpdateImpl` calls `register_tx` exactly once with the same arguments, so n
consecutive invocations call it n times. -/
theorem C16_register_per_call (env : Env) (self : PullTransaction) (n : Nat)
    (hd : stepsDone (UpdateImpl env self))
    (hr : env.TransactionRegistered = none) (he : env.CheckExpired = false)
    (hv : env.IsValid env.CreateTransaction env.GetMinHeight = true) :
    (UpdateImplRepeated env n self).2.filter Event.isRegisterTx =
      List.replicate n (Event.register_tx env.GetTxID env.CreateTransaction env.GetSubTxID) := by
  induction n generalizing self with
  | zero => rfl
  | succ n ih =>
    simp only [UpdateImplRepeated, List.filter_append, List.replicate_succ]
    rw [UpdateImpl_registers env self hd hr he hv, ih _ (stepsDone_again env self hd)]
    rfl

/-- Witness of C16: three invocations in scenario A call `register_tx` three times. -/
theorem C16_register_per_call_witness :
    (UpdateImplRepeated envScenarioA 3 (freshTx false)).2.filter Event.isRegisterTx =
      List.replicate 3 (Event.register_tx 42 99 1) :=
  C16_register_per_call envScenarioA (freshTx false) 3 (by decide) rfl rfl rfl

end beam.wallet.lelantus

/-! ## Rollback (lines 187-192) -/

namespace beam.wallet.lelantus

theorem restoreShieldedCoinsSpentByTx_idem (txID : TxID) (db : WalletDB) :
    restoreShieldedCoinsSpentByTx txID (restoreShieldedCoinsSpentByTx txID db) =
      restoreShieldedCoinsSpentByTx txID db := by
  simp only [restoreShieldedCoinsSpentByTx, List.map_map, WalletDB.mk.injEq, true_and]
  apply List.map_congr_left
  intro c _
  by_cases h : c.spentTxId = some txID <;> simp [h]

theorem deleteCoinsCreatedByTx_idem (txID : TxID) (db : WalletDB) :
    deleteCoinsCreatedByTx txID (deleteCoinsCreatedByTx txID db) =
      deleteCoinsCreatedByTx txID db := by
  simp [deleteCoinsCreatedByTx, List.filter_filter]

theorem restore_delete_comm (txID : TxID) (db : WalletDB) :
    restoreShieldedCoinsSpentByTx txID (deleteCoinsCreatedByTx txID db) =
      deleteCoinsCreatedByTx txID (restoreShieldedCoinsSpentByTx txID db) := rfl

/-- C14: `RollbackTx` is idempotent: on every wallet database, running it twice
gives the same database as running it once. -/
theorem C14_rollback_idempotent (txID : TxID) (db : WalletDB) :
    RollbackTx txID (RollbackTx txID db) = RollbackTx txID db := by
  unfold RollbackTx
  rw [restore_delete_comm, restoreShieldedCoinsSpentByTx_idem, deleteCoinsCreatedByTx_idem]

/-- C15: `RollbackTx` changes the database only by the two calls
`restoreShieldedCoinsSpentByTx` and `deleteCoinsCreatedByTx` with the transaction's
own id: the coins left are a sublist of the coins before, every coin created by
another transaction (or by none) is still there, no shielded entry is added or
removed, and every shielded entry reserved by another transaction (or by none) is
unchanged in place. -/
theorem C15_rollback_locality (txID : TxID) (db : WalletDB) :
    RollbackTx txID db =
      deleteCoinsCreatedByTx txID (restoreShieldedCoinsSpentByTx txID db) ∧
    (RollbackTx txID db).coins.Sublist db.coins ∧
    (RollbackTx txID db).coins.filter (fun c => decide (c.createTxId ≠ some txID)) =
      db.coins.filter (fun c => decide (c.createTxId ≠ some txID)) ∧
    (RollbackTx txID db).shieldedCoins.length = db.shieldedCoins.length ∧
    (∀ (i : Nat) (c : StoredShieldedCoin), db.shieldedCoins[i]? = some c → c.spentTxId ≠ some txID →
      (RollbackTx txID db).shieldedCoins[i]? = some c) := by
  refine ⟨rfl, ?_, ?_, ?_, ?_⟩
  · exact List.filter_sublist _
  · simp only [RollbackTx, deleteCoinsCreatedByTx, restoreShieldedCoinsSpentByTx,
      List.filter_filter]
    apply List.filter_congr
    intro c _
    by_cases h : c.createTxId = some txID <;> simp [h]
  · simp [RollbackTx, deleteCoinsCreatedByTx, restoreShieldedCoinsSpentByTx]
  · intro i c hc hne
    simp [RollbackTx, deleteCoinsCreatedByTx, restoreShieldedCoinsSpentByTx, List.getElem?_map,
      hc, hne]

end beam.wallet.lelantus

/-! ## The strided partition of the treasury workers -/

namespace beam

open wallet.lelantus (Amount Height)

theorem strideIndices_mem (T N : Nat) (hT : 0 < T) :
    ∀ (fuel i x : Nat), N ≤ i + fuel →
      (x ∈ strideIndices T N fuel i ↔ x < N ∧ ∃ k, x = i + k * T) := by
  intro fuel
  induction fuel with
  | zero =>
    intro i x h
    simp only [strideIndices, List.not_mem_nil, false_iff, not_and, not_exists]
    intro hx k hk
    have : i ≤ i + k * T := Nat.le_add_right _ _
    omega
  | succ fuel ih =>
    intro i x h
    unfold strideIndices
    split_ifs with hi
    · rw [List.mem_cons, ih (i + T) x (by omega)]
      constructor
      · rintro (rfl | ⟨hx, k, rfl⟩)
        · exact ⟨hi, 0, by simp⟩
        · exact ⟨hx, k + 1, by rw [Nat.add_mul]; omega⟩
      · rintro ⟨hx, k, rfl⟩
        cases k with
        | zero => left; simp
        | succ k => right; exact ⟨hx, k, by rw [Nat.add_mul]; omega⟩
    · simp only [List.not_mem_nil, false_iff, not_and, not_exists]
      intro hx k hk
      have : i ≤ i + k * T := Nat.le_add_right _ _
      omega

theorem strideIndices_lt (T N : Nat) :
    ∀ (fuel i x : Nat), x ∈ strideIndices T N fuel i → x < N ∧ i ≤ x := by
  intro fuel
  induction fuel with
  | zero => intro i x h; simp [strideIndices] at h
  | succ fuel ih =>
    intro i x h
    unfold strideIndices at h
    split_ifs at h with hi
    · rcases List.mem_cons.1 h with rfl | h
      · exact ⟨hi, le_refl _⟩
      · have := ih (i + T) x h
        omega
    · simp at h

theorem strideIndices_nodup (T N : Nat) (hT : 0 < T) :
    ∀ (fuel i : Nat), (strideIndices T N fuel i).Nodup := by
  intro fuel
  induction fuel with
  | zero => intro i; simp [strideIndices]
  | succ fuel ih =>
    intro i
    unfold strideIndices
    split_ifs with hi
    · rw [List.nodup_cons]
      refine ⟨fun h => ?_, ih (i + T)⟩
      have := strideIndices_lt T N fuel (i + T) i h
      omega
    · exact List.nodup_nil

/-- The strided partition: the index lists of the workers 0..T-1, taken in any
order, together hold every index below `N` exactly once. -/
theorem strideIndices_perm (T N fuel : Nat) (hT : 0 < T) (hf : N ≤ fuel)
    (order : List Nat) (ho : order.Perm (List.range T)) :
    (order.flatMap (strideIndices T N fuel)).Perm (List.range N) := by
  refine (List.Perm.flatMap_right _ ho).trans ?_
  rw [List.perm_ext_iff_of_nodup _ (List.nodup_range N)]
  · intro x
    rw [List.mem_flatMap, List.mem_range]
    constructor
    · rintro ⟨j, _, hx⟩
      exact (strideIndices_lt T N fuel j x hx).1
    · intro hx
      refine ⟨x % T, List.mem_range.2 (Nat.mod_lt _ hT), ?_⟩
      rw [strideIndices_mem T N hT fuel (x % T) x (by omega)]
      exact ⟨hx, x / T, by rw [Nat.mul_comm]; exact (Nat.mod_add_div x T).symm⟩
  · rw [List.nodup_flatMap]
    refine ⟨fun j _ => strideIndices_nodup T N hT fuel j, ?_⟩
    have hp : List.Pairwise (fun a b : Nat => a ≠ b) (List.range T) := List.nodup_range T
    refine List.Pairwise.imp_of_mem ?_ hp
    intro a b ha hb hab x hxa hxb
    rw [strideIndices_mem T N hT fuel a x (by omega)] at hxa
    rw [strideIndices_mem T N hT fuel b x (by omega)] at hxb
    obtain ⟨_, k, hk⟩ := hxa
    obtain ⟨_, k2, hk2⟩ := hxb
    have h1 : x % T = a := by
      rw [hk, Nat.add_mul_mod_self_right, Nat.mod_eq_of_lt (List.mem_range.1 ha)]
    have h2 : x % T = b := by
      rw [hk2, Nat.add_mul_mod_self_right, Nat.mod_eq_of_lt (List.mem_range.1 hb)]
    exact hab (h1.symm.trans h2)

end beam

/-! ## The worker loop and the merge (lines 235-266) -/

namespace beam

open wallet.lelantus (Amount Height)

section
variable {S : Type} [AddCommGroup S]

theorem ProceedBody_eq (coins : List Coin) (keys : List (Height × S)) (i : Nat)
    (loc : SubBlock S) (hi : i < coins.length) (hk : keys.length = coins.length) :
    ProceedBody coins keys i loc =
      ⟨loc.offset + keyAt keys i, (loc.m_Subsidy + amountAt coins i) % subsidyModulus,
        loc.m_vOutputs ++ [outputAt coins keys i]⟩ := by
  have hi2 : i < keys.length := hk ▸ hi
  have h1 : coins[i]? = some coins[i] := List.getElem?_eq_getElem hi
  have h2 : keys[i]? = some keys[i] := List.getElem?_eq_getElem hi2
  rcases hkv : keys[i] with ⟨inc, k⟩
  rw [hkv] at h2
  simp [ProceedBody, outputAt, keyAt, amountAt, incubationAt, h1, h2]

theorem foldl_ProceedBody (coins : List Coin) (keys : List (Height × S))
    (hk : keys.length = coins.length) :
    ∀ (idx : List Nat) (loc : SubBlock S), (∀ i ∈ idx, i < coins.length) →
      loc.m_Subsidy < subsidyModulus →
      idx.foldl (fun l i => ProceedBody coins keys i l) loc =
        ⟨loc.offset + (idx.map (keyAt keys)).sum,
          (loc.m_Subsidy + (idx.map (amountAt coins)).sum) % subsidyModulus,
          loc.m_vOutputs ++ idx.map (outputAt coins keys)⟩ := by
  intro idx
  induction idx with
  | nil =>
    intro loc _ hs
    simp [Nat.mod_eq_of_lt hs]
  | cons i rest ih =>
    intro loc hidx hs
    rw [List.foldl_cons, ProceedBody_eq coins keys i loc (hidx i (List.mem_cons_self _ _)) hk,
      ih _ (fun j hj => hidx j (List.mem_cons_of_mem _ hj))
        (Nat.mod_lt _ (by unfold subsidyModulus; positivity))]
    simp only [List.map_cons, List.sum_cons, List.append_assoc, List.singleton_append,
      SubBlock.mk.injEq, and_true]
    refine ⟨by rw [add_assoc], ?_⟩
    rw [Nat.mod_add_mod, Nat.add_assoc]

theorem ProceedLoop_eq (coins : List Coin) (keys : List (Height × S)) (T : Nat)
    (hT : 0 < T) (hw : coins.length + T ≤ uint32Modulus) :
    ∀ (fuel i : Nat) (loc : SubBlock S), coins.length ≤ i + fuel →
      ProceedLoop coins keys T (fuel + 1) i loc =
        some ((strideIndices T coins.length fuel i).foldl
          (fun l j => ProceedBody coins keys j l) loc) := by
  intro fuel
  induction fuel with
  | zero =>
    intro i loc h
    have : ¬ i < coins.length := by omega
    simp [ProceedLoop, strideIndices, this]
  | succ fuel ih =>
    intro i loc h
    rw [ProceedLoop]
    unfold strideIndices
    split_ifs with hi
    · have hmod : (i + T) % uint32Modulus = i + T := Nat.mod_eq_of_lt (by omega)
      rw [hmod, ih (i + T) _ (by omega), List.foldl_cons]
    · rfl

theorem runWorkers_eq (coins : List Coin) (keys : List (Height × S)) (T fuel : Nat)
    (hT : 0 < T) (hw : coins.length + T ≤ uint32Modulus) (hk : keys.length = coins.length)
    (hf : coins.length ≤ fuel) :
    ∀ (order : List Nat) (self : TreasuryBlockGenerator S),
      self.m_Coins = coins → self.m_vIncubationAndKeys = keys → self.m_vThreads = T →
      self.m_Block.m_Subsidy < subsidyModulus →
      runWorkers (fuel + 1) order self =
        some (mergedInto self (order.flatMap (strideIndices T coins.length fuel))) := by
  intro order
  induction order with
  | nil =>
    intro self _ _ _ hs
    simp [runWorkers, mergedInto, Nat.mod_eq_of_lt hs]
  | cons j rest ih =>
    intro self hc hkeys hthr hs
    have hloop := ProceedLoop_eq coins keys T hT hw fuel j ⟨0, 0, []⟩ (by omega)
    rw [foldl_ProceedBody coins keys hk _ _
      (fun i hi => (strideIndices_lt T coins.length fuel j i hi).1)
      (by unfold subsidyModulus; positivity)] at hloop
    simp only [runWorkers, Proceed, hc, hkeys, hthr, hloop, Option.map]
    rw [ih _ (by simp [ProceedMerge, hc]) (by simp [ProceedMerge, hkeys])
      (by simp [ProceedMerge, hthr])
      (by simp only [ProceedMerge]; exact Nat.mod_lt _ (by unfold subsidyModulus; positivity))]
    simp only [mergedInto, ProceedMerge, hc, hkeys, List.flatMap_cons, List.map_append,
      List.sum_append, zero_add, List.nil_append, List.append_assoc, Nat.add_mod_mod,
      Nat.mod_add_mod, Nat.add_assoc, add_assoc]

end

end beam

/-! ## `Generate` where the loop counter does not wrap (lines 139-233) -/

namespace beam

open wallet.lelantus (Amount Height)

theorem generateCoins_length {S : Type} (env : TreasuryEnv S) (dh : Height) :
    ∀ (cs : List Coin) (h : Height), (generateCoins env dh cs h).length = cs.length := by
  intro cs
  induction cs with
  | nil => intro h; rfl
  | cons c cs ih => intro h; simp [generateCoins, ih]

theorem generateCoins_amount {S : Type} (env : TreasuryEnv S) (dh : Height) :
    ∀ (cs : List Coin) (h : Height), ∀ g ∈ generateCoins env dh cs h,
      g.1.m_amount = (env.RulesCoin * 10) % uint64Modulus := by
  intro cs
  induction cs with
  | nil => intro h g hg; simp [generateCoins] at hg
  | cons c cs ih =>
    intro h g hg
    simp only [generateCoins, List.mem_cons] at hg
    rcases hg with rfl | hg
    · rfl
    · exact ih _ g hg

section
variable {S : Type} [AddCommGroup S]

theorem resize_length {α : Type} (l : List α) (n : Nat) (d : α) :
    (resize l n d).length = n := by
  simp [resize]

theorem workerState_coins_length (env : TreasuryEnv S) (self : TreasuryBlockGenerator S)
    (nCount : Nat) (dh : Height) :
    (workerState env self nCount dh).m_Coins.length = nCount := by
  simp [workerState, GenerateCoinsPhase, generateCoins_length, resize_length]

theorem workerState_keys_length (env : TreasuryEnv S) (self : TreasuryBlockGenerator S)
    (nCount : Nat) (dh : Height) :
    (workerState env self nCount dh).m_vIncubationAndKeys.length =
      (workerState env self nCount dh).m_Coins.length := by
  simp [workerState, GenerateCoinsPhase]

theorem workerState_coin_amount (env : TreasuryEnv S) (self : TreasuryBlockGenerator S)
    (nCount : Nat) (dh : Height) :
    ∀ c ∈ (workerState env self nCount dh).m_Coins,
      c.m_amount = (env.RulesCoin * 10) % uint64Modulus := by
  intro c hc
  simp only [workerState, GenerateCoinsPhase, List.mem_map] at hc
  obtain ⟨g, hg, rfl⟩ := hc
  exact generateCoins_amount env dh _ _ g hg

theorem workerState_amountAt (env : TreasuryEnv S) (self : TreasuryBlockGenerator S)
    (nCount : Nat) (dh : Height) (i : Nat) (hi : i < nCount) :
    amountAt (workerState env self nCount dh).m_Coins i =
      (env.RulesCoin * 10) % uint64Modulus := by
  have hi2 : i < (workerState env self nCount dh).m_Coins.length := by
    rw [workerState_coins_length]; exact hi
  have h1 : (workerState env self nCount dh).m_Coins[i]? =
      some (workerState env self nCount dh).m_Coins[i] := List.getElem?_eq_getElem hi2
  simp only [amountAt, h1]
  exact workerState_coin_amount env self nCount dh _ (List.getElem_mem _)

/-- Where the loop counter does not wrap and the fuel covers the coins, the part of
`Generate` before `Sort` ends with every worker merged and the kernel appended. -/
theorem GenerateUnsorted_eq (env : TreasuryEnv S) (self : TreasuryBlockGenerator S)
    (nCount : Nat) (dh : Height) (fuel : Nat) (hw : NoWrap env nCount) (hf : nCount ≤ fuel)
    (hs : (workerState env self nCount dh).m_Block.m_Subsidy < subsidyModulus) :
    GenerateUnsorted env self nCount dh (fuel + 1) =
      some (GenerateKernelPhase env
        (mergedInto (workerState env self nCount dh) (visitOrder env nCount fuel))) := by
  have hl := workerState_coins_length env self nCount dh
  have h := runWorkers_eq (workerState env self nCount dh).m_Coins
    (workerState env self nCount dh).m_vIncubationAndKeys env.hardware_concurrency fuel
    hw.1 (by rw [hl]; exact hw.2) (workerState_keys_length env self nCount dh)
    (by rw [hl]; exact hf) env.mergeOrder (workerState env self nCount dh) rfl rfl rfl hs
  rw [hl] at h
  show Option.map _ (runWorkers (fuel + 1) env.mergeOrder (workerState env self nCount dh)) = _
  rw [h]
  rfl

/-- Where the loop counter does not wrap, `Generate` on an object with a path
returns 0 whatever the validation says, having written the sorted block. -/
theorem Generate_eq (env : TreasuryEnv S) (self : TreasuryBlockGenerator S)
    (nCount : Nat) (dh : Height) (fuel : Nat) (hp : self.m_sPath.isEmpty = false)
    (hw : NoWrap env nCount) (hf : nCount ≤ fuel)
    (hs : (workerState env self nCount dh).m_Block.m_Subsidy < subsidyModulus) :
    Generate env self nCount dh (fuel + 1) =
      GenerateOutcome.done
        ⟨0,
          { GenerateKernelPhase env
              (mergedInto (workerState env self nCount dh) (visitOrder env nCount fuel)) with
            m_Block := env.DeleteIntermediateOutputs (env.SortBody
              (GenerateKernelPhase env (mergedInto (workerState env self nCount dh)
                (visitOrder env nCount fuel))).m_Block) },
          some (env.DeleteIntermediateOutputs (env.SortBody
            (GenerateKernelPhase env (mergedInto (workerState env self nCount dh)
              (visitOrder env nCount fuel))).m_Block)),
          some (env.IsValid (env.DeleteIntermediateOutputs (env.SortBody
            (GenerateKernelPhase env (mergedInto (workerState env self nCount dh)
              (visitOrder env nCount fuel))).m_Block)))⟩ := by
  have hT : env.hardware_concurrency ≠ 0 := Nat.pos_iff_ne_zero.1 hw.1
  simp only [Generate, hp, hT, if_false, Bool.false_eq_true,
    GenerateUnsorted_eq env self nCount dh fuel hw hf hs]

end

end beam

/-! ## The block generated from a missing or empty treasury file -/

namespace beam

open wallet.lelantus (Amount Height)

theorem visitOrder_perm {S : Type} (env : TreasuryEnv S) (nCount fuel : Nat) (hw : NoWrap env nCount)
    (hf : nCount ≤ fuel) (hv : ValidSchedule env) :
    (visitOrder env nCount fuel).Perm (List.range nCount) :=
  strideIndices_perm env.hardware_concurrency nCount fuel hw.1 hf env.mergeOrder hv

theorem visitOrder_lt {S : Type} (env : TreasuryEnv S) (nCount fuel : Nat) :
    ∀ i ∈ visitOrder env nCount fuel, i < nCount := by
  intro i hi
  simp only [visitOrder, List.mem_flatMap] at hi
  obtain ⟨j, _, hj⟩ := hi
  exact (strideIndices_lt _ _ _ _ _ hj).1

section
variable {S : Type} [AddCommGroup S]

theorem unsortedBlock_fresh (env : TreasuryEnv S) (path : String) (nCount : Nat)
    (dh : Height) (fuel : Nat) (hfile : env.fileBlock = none) :
    (unsortedBlock env (TreasuryBlockGenerator.fresh path) nCount dh fuel).m_vInputs = [] ∧
    (unsortedBlock env (TreasuryBlockGenerator.fresh path) nCount dh fuel).m_vOutputs =
      (visitOrder env nCount fuel).map
        (outputAt (workerState env (TreasuryBlockGenerator.fresh path) nCount dh).m_Coins
          (workerState env (TreasuryBlockGenerator.fresh path) nCount dh).m_vIncubationAndKeys) ∧
    (unsortedBlock env (TreasuryBlockGenerator.fresh path) nCount dh fuel).m_vKernelsOutput =
      [⟨dummyKernelKey env⟩] ∧
    (unsortedBlock env (TreasuryBlockGenerator.fresh path) nCount dh fuel).m_Subsidy =
      ((visitOrder env nCount fuel).map
        (amountAt (workerState env (TreasuryBlockGenerator.fresh path) nCount dh).m_Coins)).sum %
        subsidyModulus ∧
    (unsortedBlock env (TreasuryBlockGenerator.fresh path) nCount dh fuel).m_Offset =
      -(((visitOrder env nCount fuel).map
          (keyAt (workerState env
            (TreasuryBlockGenerator.fresh path) nCount dh).m_vIncubationAndKeys)).sum +
        dummyKernelKey env) := by
  simp [unsortedBlock, GenerateKernelPhase, mergedInto, workerState, GenerateCoinsPhase,
    TreasuryBlockGenerator.fresh, hfile, dummyKernelKey]

theorem workerState_fresh_subsidy (env : TreasuryEnv S) (path : String) (nCount : Nat)
    (dh : Height) (hfile : env.fileBlock = none) :
    (workerState env (TreasuryBlockGenerator.fresh path) nCount dh).m_Block.m_Subsidy <
      subsidyModulus := by
  simp [workerState, GenerateCoinsPhase, TreasuryBlockGenerator.fresh, hfile, subsidyModulus]

/-- From a missing or empty file, where the loop counter does not wrap: `Generate`
returns 0, and the block it wrote is the sorted block of line 218. -/
theorem Generate_fresh (env : TreasuryEnv S) (path : String) (nCount : Nat) (dh : Height)
    (fuel : Nat) (hp : path.isEmpty = false) (hfile : env.fileBlock = none)
    (hw : NoWrap env nCount) (hf : nCount ≤ fuel) (hsort : SortPermutes env)
    (hdel : DeleteNeedsInputs env) :
    ∃ r, Generate env (TreasuryBlockGenerator.fresh path) nCount dh (fuel + 1) =
        GenerateOutcome.done r ∧
      r.ret = 0 ∧ r.written = some r.self.m_Block ∧
      r.bbb = some (env.IsValid r.self.m_Block) ∧
      r.self.m_Block =
        env.SortBody (unsortedBlock env (TreasuryBlockGenerator.fresh path) nCount dh fuel) := by
  have hs := workerState_fresh_subsidy env path nCount dh hfile
  have hin : (env.SortBody
      (unsortedBlock env (TreasuryBlockGenerator.fresh path) nCount dh fuel)).m_vInputs = [] := by
    have := (hsort (unsortedBlock env (TreasuryBlockGenerator.fresh path) nCount dh fuel)).2.2.1
    rw [(unsortedBlock_fresh env path nCount dh fuel hfile).1] at this
    exact List.perm_nil.1 this
  refine ⟨_, Generate_eq env (TreasuryBlockGenerator.fresh path) nCount dh fuel hp hw hf hs,
    rfl, rfl, rfl, ?_⟩
  exact hdel _ hin

/-- Where the loop counter does not wrap and every worker merges once, the block
generated from a missing or empty file has exactly `nCount` outputs, a permutation
of the outputs of the indices 0..nCount-1, and exactly one kernel. -/
theorem Generate_fresh_counts (env : TreasuryEnv S) (path : String) (nCount : Nat)
    (dh : Height) (fuel : Nat) (hp : path.isEmpty = false) (hfile : env.fileBlock = none)
    (hw : NoWrap env nCount) (hf : nCount ≤ fuel) (hv : ValidSchedule env)
    (hsort : SortPermutes env) (hdel : DeleteNeedsInputs env) :
    ∃ r, Generate env (TreasuryBlockGenerator.fresh path) nCount dh (fuel + 1) =
        GenerateOutcome.done r ∧
      r.self.m_Block.m_vOutputs.Perm
        ((List.range nCount).map
          (outputAt (workerState env (TreasuryBlockGenerator.fresh path) nCount dh).m_Coins
            (workerState env
              (TreasuryBlockGenerator.fresh path) nCount dh).m_vIncubationAndKeys)) ∧
      r.self.m_Block.m_vOutputs.length = nCount ∧
      r.self.m_Block.m_vKernelsOutput.length = 1 := by
  obtain ⟨r, hr, _, _, _, hb⟩ :=
    Generate_fresh env path nCount dh fuel hp hfile hw hf hsort hdel
  obtain ⟨_, hout, hker, _, _⟩ := unsortedBlock_fresh env path nCount dh fuel hfile
  have hso := hsort (unsortedBlock env (TreasuryBlockGenerator.fresh path) nCount dh fuel)
  have hperm : r.self.m_Block.m_vOutputs.Perm
      ((List.range nCount).map
        (outputAt (workerState env (TreasuryBlockGenerator.fresh path) nCount dh).m_Coins
          (workerState env
            (TreasuryBlockGenerator.fresh path) nCount dh).m_vIncubationAndKeys)) := by
    rw [hb]
    refine hso.2.2.2.1.trans ?_
    rw [hout]
    exact (visitOrder_perm env nCount fuel hw hf hv).map _
  refine ⟨r, hr, hperm, ?_, ?_⟩
  · rw [hperm.length_eq]; simp
  · rw [hb, hso.2.2.2.2.length_eq, hker]; rfl

/-- Where the loop counter does not wrap and every worker merges once, the subsidy
of the block generated from a missing or empty file is `nCount` times the coin
amount, which is the sum of the values of its outputs. -/
theorem Generate_fresh_subsidy (env : TreasuryEnv S) (path : String) (nCount : Nat)
    (dh : Height) (fuel : Nat) (hp : path.isEmpty = false) (hfile : env.fileBlock = none)
    (hw : NoWrap env nCount) (hf : nCount ≤ fuel) (hv : ValidSchedule env)
    (hsort : SortPermutes env) (hdel : DeleteNeedsInputs env) :
    ∃ r, Generate env (TreasuryBlockGenerator.fresh path) nCount dh (fuel + 1) =
        GenerateOutcome.done r ∧
      r.self.m_Block.m_Subsidy = nCount * ((env.RulesCoin * 10) % uint64Modulus) ∧
      r.self.m_Block.m_Subsidy = (r.self.m_Block.m_vOutputs.map fun o => o.v).sum := by
  obtain ⟨r, hr, _, _, _, hb⟩ :=
    Generate_fresh env path nCount dh fuel hp hfile hw hf hsort hdel
  obtain ⟨_, hout, _, hsub, _⟩ := unsortedBlock_fresh env path nCount dh fuel hfile
  have hso := hsort (unsortedBlock env (TreasuryBlockGenerator.fresh path) nCount dh fuel)
  have hamt : (visitOrder env nCount fuel).map
      (amountAt (workerState env (TreasuryBlockGenerator.fresh path) nCount dh).m_Coins) =
      List.replicate nCount ((env.RulesCoin * 10) % uint64Modulus) := by
    rw [List.eq_replicate_iff]
    refine ⟨by rw [List.length_map, (visitOrder_perm env nCount fuel hw hf hv).length_eq,
      List.length_range], ?_⟩
    intro a ha
    obtain ⟨i, hi, rfl⟩ := List.mem_map.1 ha
    exact workerState_amountAt env _ nCount dh i (visitOrder_lt env nCount fuel i hi)
  have hsum : ((visitOrder env nCount fuel).map
      (amountAt (workerState env (TreasuryBlockGenerator.fresh path) nCount dh).m_Coins)).sum =
      nCount * ((env.RulesCoin * 10) % uint64Modulus) := by
    rw [hamt, List.sum_replicate, smul_eq_mul]
  have hlt : nCount * ((env.RulesCoin * 10) % uint64Modulus) < subsidyModulus := by
    have h1 : nCount < uint32Modulus := by
      have := hw.1; have := hw.2; omega
    have h2 : (env.RulesCoin * 10) % uint64Modulus < uint64Modulus :=
      Nat.mod_lt _ (by unfold uint64Modulus; positivity)
    calc nCount * ((env.RulesCoin * 10) % uint64Modulus)
        ≤ uint32Modulus * uint64Modulus :=
          Nat.mul_le_mul (Nat.le_of_lt h1) (Nat.le_of_lt h2)
      _ < subsidyModulus := by unfold uint32Modulus uint64Modulus subsidyModulus; norm_num
  have h1 : r.self.m_Block.m_Subsidy = nCount * ((env.RulesCoin * 10) % uint64Modulus) := by
    rw [hb, hso.2.1, hsub, hsum, Nat.mod_eq_of_lt hlt]
  refine ⟨r, hr, h1, ?_⟩
  rw [h1, hb, (hso.2.2.2.1.map _).sum_eq, hout, List.map_map, ← hsum]
  rfl

/-- From a missing or empty file, where the loop counter does not wrap, in any merge
order: output blinding factors plus kernel excess scalar plus offset of the block
written add up to zero. -/
theorem Generate_fresh_balance (env : TreasuryEnv S) (path : String) (nCount : Nat)
    (dh : Height) (fuel : Nat) (hp : path.isEmpty = false) (hfile : env.fileBlock = none)
    (hw : NoWrap env nCount) (hf : nCount ≤ fuel) (hsort : SortPermutes env)
    (hdel : DeleteNeedsInputs env) :
    ∃ r, Generate env (TreasuryBlockGenerator.fresh path) nCount dh (fuel + 1) =
        GenerateOutcome.done r ∧
      r.ret = 0 ∧ r.written = some r.self.m_Block ∧ r.self.m_Block.m_vInputs = [] ∧
      generatorBalance r.self.m_Block = 0 ∧
      specBalance r.self.m_Block =
        (r.self.m_Block.m_vOutputs.map fun o => o.k).sum +
          (r.self.m_Block.m_vOutputs.map fun o => o.k).sum := by
  obtain ⟨r, hr, hret, hwr, _, hb⟩ :=
    Generate_fresh env path nCount dh fuel hp hfile hw hf hsort hdel
  obtain ⟨hin, hout, hker, _, hoff⟩ := unsortedBlock_fresh env path nCount dh fuel hfile
  have hso := hsort (unsortedBlock env (TreasuryBlockGenerator.fresh path) nCount dh fuel)
  have hin2 : r.self.m_Block.m_vInputs = [] := by
    rw [hb]
    have := hso.2.2.1
    rw [hin] at this
    exact List.perm_nil.1 this
  have hk : (r.self.m_Block.m_vOutputs.map fun o => o.k).sum =
      ((visitOrder env nCount fuel).map
        (keyAt (workerState env
          (TreasuryBlockGenerator.fresh path) nCount dh).m_vIncubationAndKeys)).sum := by
    rw [hb, (hso.2.2.2.1.map _).sum_eq, hout, List.map_map]
    rfl
  have hkr : (r.self.m_Block.m_vKernelsOutput.map fun kr => kr.k).sum = dummyKernelKey env := by
    rw [hb, (hso.2.2.2.2.map _).sum_eq, hker]
    simp
  have ho : r.self.m_Block.m_Offset =
      -(((visitOrder env nCount fuel).map
          (keyAt (workerState env
            (TreasuryBlockGenerator.fresh path) nCount dh).m_vIncubationAndKeys)).sum +
        dummyKernelKey env) := by
    rw [hb, hso.1, hoff]
  refine ⟨r, hr, hret, hwr, hin2, ?_, ?_⟩
  · simp only [generatorBalance, hin2, hkr, ho, hk, List.map_nil, List.sum_nil]
    abel
  · simp only [specBalance, hin2, hkr, ho, hk, List.map_nil, List.sum_nil]
    abel

end

end beam

/-! ## The treasury claims -/

namespace beam

open wallet.lelantus (Amount Height)

theorem GenerateUnsorted_def {S : Type} [AddCommGroup S] (env : TreasuryEnv S)
    (self : TreasuryBlockGenerator S) (nCount : Nat) (dh : Height) (fuel : Nat) :
    GenerateUnsorted env self nCount dh fuel =
      (runWorkers fuel env.mergeOrder (workerState env self nCount dh)).map
        (GenerateKernelPhase env) := rfl

/-- With 4294967295 coins and stride 2 the counter of a loop on even indices wraps
from 4294967294 to 0, which is again below the coin count: the loop never ends. -/
theorem ProceedLoop_wrap {S : Type} [AddCommGroup S] (coins : List Coin)
    (keys : List (Height × S)) (hlen : coins.length = maxCoinCount) :
    ∀ (fuel i : Nat) (loc : SubBlock S), i % 2 = 0 → i < uint32Modulus →
      ProceedLoop coins keys 2 fuel i loc = none := by
  intro fuel
  induction fuel with
  | zero => intro i loc _ _; rfl
  | succ fuel ih =>
    intro i loc hev hlt
    unfold uint32Modulus at hlt
    have hi : i < coins.length := by rw [hlen]; unfold maxCoinCount; omega
    rw [ProceedLoop, if_pos hi]
    exact ih _ _ (by unfold uint32Modulus; omega)
      (Nat.mod_lt _ (by unfold uint32Modulus; norm_num))

theorem Proceed_wrap {S : Type} [AddCommGroup S] (self : TreasuryBlockGenerator S)
    (hlen : self.m_Coins.length = maxCoinCount) (hT : self.m_vThreads = 2) (fuel : Nat) :
    Proceed self 0 fuel = none := by
  unfold Proceed
  rw [hT, ProceedLoop_wrap self.m_Coins self.m_vIncubationAndKeys hlen fuel 0 _ rfl
    (by unfold uint32Modulus; norm_num)]
  rfl

theorem Proceed_keeps {S : Type} [AddCommGroup S] (self self1 : TreasuryBlockGenerator S)
    (i fuel : Nat) (h : Proceed self i fuel = some self1) :
    self1.m_Coins = self.m_Coins ∧ self1.m_vThreads = self.m_vThreads := by
  unfold Proceed at h
  cases hl : ProceedLoop self.m_Coins self.m_vIncubationAndKeys self.m_vThreads fuel i ⟨0, 0, []⟩ with
  | none => rw [hl] at h; simp at h
  | some loc =>
    rw [hl] at h
    simp only [Option.map, Option.some.injEq] at h
    rw [← h]
    exact ⟨rfl, rfl⟩

/-- C17 (failing input): with `nCount = 4294967295`, two worker threads and no
treasury file, `Generate` does not return, whatever the fuel: worker 0 never leaves
its loop, so no block with `nCount` outputs is produced. -/
theorem C17_worker_never_ends (fuel : Nat) :
    Generate (treasuryEnv 2 [0, 1] true) tbgMain maxCoinCount 120 fuel =
      GenerateOutcome.outOfFuel := by
  have hlen := workerState_coins_length (treasuryEnv 2 [0, 1] true) tbgMain maxCoinCount 120
  have h0 := Proceed_wrap (workerState (treasuryEnv 2 [0, 1] true) tbgMain maxCoinCount 120)
    hlen rfl fuel
  have hu : GenerateUnsorted (treasuryEnv 2 [0, 1] true) tbgMain maxCoinCount 120 fuel = none := by
    rw [GenerateUnsorted_def]
    show Option.map _ (runWorkers fuel [0, 1] _) = none
    rw [runWorkers, h0]
    rfl
  have hp : tbgMain.m_sPath.isEmpty = false := by decide
  have hT : (treasuryEnv 2 [0, 1] true).hardware_concurrency ≠ 0 := by decide
  simp only [Generate, hp, hT, hu, if_false, Bool.false_eq_true]

/-- C18 (failing input): with `nCount = 4294967295`, two worker threads merging in
the order 1, 0 and no treasury file, `Generate` does not return, whatever the fuel,
so no subsidy is produced. -/
theorem C18_no_subsidy_produced (fuel : Nat) :
    Generate (treasuryEnv 2 [1, 0] true) tbgMain maxCoinCount 120 fuel =
      GenerateOutcome.outOfFuel := by
  have hlen := workerState_coins_length (treasuryEnv 2 [1, 0] true) tbgMain maxCoinCount 120
  have hu : GenerateUnsorted (treasuryEnv 2 [1, 0] true) tbgMain maxCoinCount 120 fuel = none := by
    rw [GenerateUnsorted_def]
    show Option.map _ (runWorkers fuel [1, 0] _) = none
    rw [runWorkers]
    cases h1 : Proceed (workerState (treasuryEnv 2 [1, 0] true) tbgMain maxCoinCount 120) 1 fuel with
    | none => rfl
    | some self1 =>
      obtain ⟨hc, ht⟩ := Proceed_keeps _ _ _ _ h1
      have h0 := Proceed_wrap self1 (by rw [hc]; exact hlen) (by rw [ht]; rfl) fuel
      simp only [runWorkers, h0]
      rfl
  have hp : tbgMain.m_sPath.isEmpty = false := by decide
  have hT : (treasuryEnv 2 [1, 0] true).hardware_concurrency ≠ 0 := by decide
  simp only [Generate, hp, hT, hu, if_false, Bool.false_eq_true]

theorem treasuryEnv_contracts (T : Nat) (order : List Nat) (valid : Bool) :
    SortPermutes (treasuryEnv T order valid) ∧ DeleteNeedsInputs (treasuryEnv T order valid) :=
  ⟨fun _ => ⟨rfl, rfl, List.Perm.refl _, List.Perm.refl _, List.Perm.refl _⟩, fun _ _ => rfl⟩

theorem scalar_two_ne_zero : (1 : Scalar) + 1 ≠ 0 := by
  intro h
  have h2 : ((2 : Nat) : Scalar) = 0 := by
    rw [← h]; norm_num
  have hd := (ZMod.natCast_zmod_eq_zero_iff_dvd 2 scalarOrder).1 h2
  have hle := Nat.le_of_dvd (by norm_num) hd
  unfold scalarOrder at hle
  omega

/-- C19 (counterexample): one coin with key 1, dummy kernel key 1, one worker, no
treasury file.  `Generate` returns, and for the block it wrote the sum of output
blinding factors minus the kernel excess scalar minus the offset is 1 + 1, not 0. -/
theorem C19_counterexample :
    ∃ r, Generate (treasuryEnv 1 [0] true) tbgMain 1 120 2 = GenerateOutcome.done r ∧
      r.written = some r.self.m_Block ∧ r.self.m_Block.m_vInputs = [] ∧
      specBalance r.self.m_Block = 1 + 1 ∧ specBalance r.self.m_Block ≠ 0 := by
  have hc := treasuryEnv_contracts 1 [0] true
  have hw : NoWrap (treasuryEnv 1 [0] true) 1 := by
    unfold NoWrap uint32Modulus; decide
  obtain ⟨r, hr, _, hwr, hin, _, hspec⟩ := Generate_fresh_balance (treasuryEnv 1 [0] true)
    "treasury.bin" 1 120 1 (by decide) rfl hw (le_refl _) hc.1 hc.2
  obtain ⟨r2, hr2, hperm, _, _⟩ := Generate_fresh_counts (treasuryEnv 1 [0] true)
    "treasury.bin" 1 120 1 (by decide) rfl hw (le_refl _) (List.Perm.refl _) hc.1 hc.2
  have hrr : r2 = r := GenerateOutcome.done.inj (hr2.symm.trans hr)
  subst hrr
  have hsum : (r2.self.m_Block.m_vOutputs.map fun o => o.k).sum = 1 := by
    rw [(hperm.map _).sum_eq]
    simp [outputAt, keyAt, workerState, GenerateCoinsPhase, generateCoins, resize,
      treasuryEnv, TreasuryBlockGenerator.fresh, List.range_succ]
  have hval : specBalance r2.self.m_Block = 1 + 1 := by rw [hspec, hsum]
  exact ⟨r2, hr, hwr, hin, hval, hval ▸ scalar_two_ne_zero⟩

/-- C19 (amended): the treasury block that `Generate` produces from a missing or
empty treasury file, where the 32-bit loop counter does not wrap, has no inputs and
satisfies: sum of output blinding factors plus kernel excess scalar plus block
offset is zero, in any merge order of the workers. -/
theorem C19_generator_balance {S : Type} [AddCommGroup S] (env : TreasuryEnv S)
    (path : String) (nCount : Nat) (dh : Height) (fuel : Nat)
    (hp : path.isEmpty = false) (hfile : env.fileBlock = none)
    (hw : NoWrap env nCount) (hf : nCount ≤ fuel) (hsort : SortPermutes env)
    (hdel : DeleteNeedsInputs env) :
    ∃ r, Generate env (TreasuryBlockGenerator.fresh path) nCount dh (fuel + 1) =
        GenerateOutcome.done r ∧
      r.ret = 0 ∧ r.written = some r.self.m_Block ∧ r.self.m_Block.m_vInputs = [] ∧
      (r.self.m_Block.m_vOutputs.map fun o => o.k).sum +
        (r.self.m_Block.m_vKernelsOutput.map fun kr => kr.k).sum +
        r.self.m_Block.m_Offset = 0 := by
  obtain ⟨r, hr, hret, hwr, hin, hbal, _⟩ :=
    Generate_fresh_balance env path nCount dh fuel hp hfile hw hf hsort hdel
  refine ⟨r, hr, hret, hwr, hin, ?_⟩
  simpa [generatorBalance, hin] using hbal

/-- Witness of C19: 360 coins, 8 worker threads, no treasury file. -/
theorem C19_generator_balance_witness :
    ∃ r, Generate (treasuryEnv 8 [3, 0, 7, 1, 2, 6, 5, 4] true) tbgMain 360 120 361 =
        GenerateOutcome.done r ∧
      r.ret = 0 ∧ r.written = some r.self.m_Block ∧ r.self.m_Block.m_vInputs = [] ∧
      (r.self.m_Block.m_vOutputs.map fun o => o.k).sum +
        (r.self.m_Block.m_vKernelsOutput.map fun kr => kr.k).sum +
        r.self.m_Block.m_Offset = 0 :=
  C19_generator_balance (treasuryEnv 8 [3, 0, 7, 1, 2, 6, 5, 4] true) "treasury.bin" 360 120
    360 (by decide) rfl (by unfold NoWrap uint32Modulus; decide) (le_refl _)
    (treasuryEnv_contracts 8 [3, 0, 7, 1, 2, 6, 5, 4] true).1
    (treasuryEnv_contracts 8 [3, 0, 7, 1, 2, 6, 5, 4] true).2

/-- The return value of `Generate` depends on the path alone: -1 without a path, 0
otherwise, whatever `IsValid` answers. -/
theorem Generate_ret {S : Type} [AddCommGroup S] (env : TreasuryEnv S)
    (self : TreasuryBlockGenerator S) (nCount : Nat) (dh : Height) (fuel : Nat)
    (r : GenerateResult S) (h : Generate env self nCount dh fuel = GenerateOutcome.done r) :
    r.ret = if self.m_sPath.isEmpty then -1 else 0 := by
  unfold Generate at h
  by_cases h1 : self.m_sPath.isEmpty = true
  · rw [if_pos h1] at h
    rw [← GenerateOutcome.done.inj h, if_pos h1]
  · rw [if_neg h1] at h
    by_cases h2 : env.hardware_concurrency = 0
    · rw [if_pos h2] at h
      cases h
    · rw [if_neg h2] at h
      rw [if_neg h1]
      cases hu : GenerateUnsorted env self nCount dh fuel with
      | none => rw [hu] at h; cases h
      | some self3 =>
        rw [hu] at h
        rw [← GenerateOutcome.done.inj h]

/-- C20 (failing input): the treasury file holds a block with offset 5 and nothing
else, validation rejects the generated block, and `Generate` still writes the block
and returns 0. -/
theorem C20_returns_zero_when_invalid :
    ∃ r, Generate treasuryEnvBadFile tbgMain 1 120 2 = GenerateOutcome.done r ∧
      r.written = some r.self.m_Block ∧ r.bbb = some false ∧ r.ret = 0 := by
  have hw : NoWrap treasuryEnvBadFile 1 := by
    unfold NoWrap uint32Modulus; decide
  have hs : (workerState treasuryEnvBadFile tbgMain 1 120).m_Block.m_Subsidy <
      subsidyModulus := by
    simp [workerState, GenerateCoinsPhase, treasuryEnvBadFile, subsidyModulus]
  exact ⟨_, Generate_eq treasuryEnvBadFile tbgMain 1 120 1 (by decide) hw (le_refl _) hs,
    rfl, rfl, rfl⟩

end beam

/-! ## A rollback on a concrete database -/

namespace beam.wallet.lelantus

/-- Rolling back transaction 42 on `dbExample` deletes its unconfirmed coin 1 and
frees its shielded entry 7; the coins and entries of transaction 43 stay. -/
theorem RollbackTx_dbExample :
    RollbackTx 42 dbExample =
      ⟨[⟨2, 6, CoinStatus.Unconfirmed, some 43⟩, ⟨3, 7, CoinStatus.Unspent, some 42⟩,
          ⟨4, 8, CoinStatus.Unspent, none⟩],
        [⟨7, 0, 20, true, 1000, none⟩, ⟨8, 0, 30, false, 1000, some 43⟩,
          ⟨9, 0, 40, true, 1000, none⟩]⟩ := by
  decide

end beam.wallet.lelantus

/-! ## The missing coin, resumed selection, `InvalidContext` without a height -/

namespace beam.wallet.lelantus

theorem UpdateImpl_missing_coin (env : Env) (self : PullTransaction)
    (hi : env.GetInitialTxParams = false)
    (hc : env.getShieldedCoin env.ShieldedOutputId = none) :
    (UpdateImpl env self).outcome = Outcome.emptyOptionalDeref := by
  rw [UpdateImpl_split]
  have h : initialParamsBlock env self.m_withAssets (ensureBuilder env self).1 =
      ((ensureBuilder env self).1,
        [Event.GetInitialTxParams false, Event.UpdateTxDescription_InProgress],
        some Outcome.emptyOptionalDeref) := by
    simp [initialParamsBlock, hi, hc]
  rw [h]

/-- C22 (failing input): on a first run with no shielded coin stored for the
`ShieldedOutputId`, with asset support disabled or enabled, `UpdateImpl` does not
throw `NoInputs`: line 85 reads `shieldedCoin->m_CoinID` through the empty optional
before the presence check of line 91 is reached. -/
theorem C22_missing_coin_dereferenced :
    envMissingCoin.getShieldedCoin envMissingCoin.ShieldedOutputId = none ∧
    (UpdateImpl envMissingCoin (freshTx false)).outcome = Outcome.emptyOptionalDeref ∧
    (UpdateImpl envMissingCoin (freshTx true)).outcome = Outcome.emptyOptionalDeref ∧
    (UpdateImpl envMissingCoin (freshTx false)).outcome ≠
      Outcome.thrown false TxFailureReason.NoInputs := by
  decide

theorem initialParamsBlock_emplaced (env : Env) (w : Bool) (b : BaseTxBuilder) :
    (initialParamsBlock env w b).1.m_InputCoinsShielded =
      b.m_InputCoinsShielded ++ emplacedInputs (initialParamsBlock env w b).2.1 ∧
    (b.m_InputCoinsShielded ≠ [] → emplacedInputs (initialParamsBlock env w b).2.1 = []) ∧
    (emplacedInputs (initialParamsBlock env w b).2.1).length ≤ 1 ∧
    (∀ inp ∈ emplacedInputs (initialParamsBlock env w b).2.1,
      ∃ coin, env.getShieldedCoin env.ShieldedOutputId = some coin ∧
        inp = ⟨coin.m_CoinID, feeShielded env.fs⟩) := by
  unfold initialParamsBlock
  by_cases hi : env.GetInitialTxParams = true
  · simp [hi, emplacedInputs]
  · simp only [hi, if_false, Bool.false_eq_true]
    cases hc : env.getShieldedCoin env.ShieldedOutputId with
    | none => simp [emplacedInputs]
    | some coin =>
      simp only
      split_ifs with h1 h2 h3
      · simp [emplacedInputs]
      · simp [emplacedInputs]
      · have hb : b.m_InputCoinsShielded = [] := by simpa [List.isEmpty_iff] using h2
        simp [emplacedInputs, hb]
      · simp [emplacedInputs]

theorem emplacedInputs_append (l1 l2 : List Event) :
    emplacedInputs (l1 ++ l2) = emplacedInputs l1 ++ emplacedInputs l2 := by
  simp [emplacedInputs, List.filterMap_append]

theorem emplacedInputs_not_setup (l : List Event) (h : ∀ e ∈ l, e.isSetup = false) :
    emplacedInputs l = [] := by
  unfold emplacedInputs
  rw [List.filterMap_eq_nil_iff]
  intro e he
  have := h e he
  cases e <;> simp_all [Event.isSetup]

/-- What one invocation does to the shielded input list: it appends what its
`emplace_back` calls put there, at most one entry, none if the list was not empty. -/
theorem UpdateImpl_emplaced (env : Env) (self : PullTransaction) :
    shieldedInputs (UpdateImpl env self).tx =
      shieldedInputs self ++ emplacedInputs (UpdateImpl env self).events ∧
    (shieldedInputs self ≠ [] → emplacedInputs (UpdateImpl env self).events = []) ∧
    (emplacedInputs (UpdateImpl env self).events).length ≤ 1 ∧
    (∀ inp ∈ emplacedInputs (UpdateImpl env self).events,
      ∃ coin, env.getShieldedCoin env.ShieldedOutputId = some coin ∧
        inp = ⟨coin.m_CoinID, feeShielded env.fs⟩) := by
  obtain ⟨h1, h2, h3, h4⟩ :=
    initialParamsBlock_emplaced env self.m_withAssets (ensureBuilder env self).1
  rw [ensureBuilder_inputs] at h1 h2
  have h0 : emplacedInputs (ensureBuilder env self).2 = [] := by
    unfold ensureBuilder
    cases self.m_TxBuilder <;> simp [emplacedInputs]
  have hs : emplacedInputs (builderSteps env) = [] :=
    emplacedInputs_not_setup _ (builderSteps_not_setup env)
  have hev : emplacedInputs (UpdateImpl env self).events =
      emplacedInputs (initialParamsBlock env self.m_withAssets (ensureBuilder env self).1).2.1 := by
    rw [UpdateImpl_split]
    split <;> simp [emplacedInputs_append, h0, hs]
  have htx : shieldedInputs (UpdateImpl env self).tx =
      (initialParamsBlock env self.m_withAssets (ensureBuilder env self).1).1.m_InputCoinsShielded := by
    rw [UpdateImpl_split]
    split <;> rfl
  rw [hev, htx]
  exact ⟨h1, h2, h3, h4⟩

theorem UpdateImplSeq_emplaced :
    ∀ (envs : List Env) (self : PullTransaction),
      shieldedInputs (UpdateImplSeq envs self).1 =
        shieldedInputs self ++ emplacedInputs (UpdateImplSeq envs self).2 ∧
      (shieldedInputs self ≠ [] → emplacedInputs (UpdateImplSeq envs self).2 = []) ∧
      (emplacedInputs (UpdateImplSeq envs self).2).length ≤ 1 ∧
      (∀ inp ∈ emplacedInputs (UpdateImplSeq envs self).2,
        ∃ env ∈ envs, ∃ coin, env.getShieldedCoin env.ShieldedOutputId = some coin ∧
          inp = ⟨coin.m_CoinID, feeShielded env.fs⟩) := by
  intro envs
  induction envs with
  | nil => intro self; simp [UpdateImplSeq, emplacedInputs]
  | cons env envs ih =>
    intro self
    obtain ⟨a1, a2, a3, a4⟩ := UpdateImpl_emplaced env self
    obtain ⟨b1, b2, b3, b4⟩ := ih (UpdateImpl env self).tx
    simp only [UpdateImplSeq, emplacedInputs_append]
    by_cases hne : shieldedInputs (UpdateImpl env self).tx = []
    · have hfirst : emplacedInputs (UpdateImpl env self).events = [] := by
        rw [a1] at hne
        exact (List.append_eq_nil.1 hne).2
      refine ⟨?_, ?_, ?_, ?_⟩
      · rw [b1, a1, List.append_assoc]
      · intro h
        rw [a1] at hne
        exact absurd (List.append_eq_nil.1 hne).1 h
      · rw [hfirst]; simpa using b3
      · intro inp hinp
        rw [hfirst, List.nil_append] at hinp
        obtain ⟨e, he, hc⟩ := b4 inp hinp
        exact ⟨e, List.mem_cons_of_mem _ he, hc⟩
    · have hrest := b2 hne
      refine ⟨?_, ?_, ?_, ?_⟩
      · rw [b1, a1, List.append_assoc]
      · intro h
        rw [a2 h, hrest]
        rfl
      · rw [hrest]; simpa using a3
      · intro inp hinp
        rw [hrest, List.append_nil] at hinp
        obtain ⟨coin, hc⟩ := a4 inp hinp
        exact ⟨env, List.mem_cons_self _ _, coin, hc⟩

/-- C23: when the builder's shielded input list is not empty, `UpdateImpl` appends
nothing to it and calls neither `SelectInputs` nor `AddChange`; across any sequence
of invocations the list grows by at most one entry, by none if it was not empty at
the start, and an entry added carries the id of the coin stored for the
`ShieldedOutputId` and the fee `m_ShieldedInput + m_Kernel` (64-bit sum). -/
theorem C23_selection_not_redone (envs : List Env) (env : Env) (self : PullTransaction) :
    (shieldedInputs self ≠ [] →
      shieldedInputs (UpdateImpl env self).tx = shieldedInputs self ∧
      ∀ e ∈ (UpdateImpl env self).events, e.isSelection = false) ∧
    shieldedInputs (UpdateImplSeq envs self).1 =
      shieldedInputs self ++ emplacedInputs (UpdateImplSeq envs self).2 ∧
    (shieldedInputs self ≠ [] → emplacedInputs (UpdateImplSeq envs self).2 = []) ∧
    (emplacedInputs (UpdateImplSeq envs self).2).length ≤ 1 ∧
    (∀ inp ∈ emplacedInputs (UpdateImplSeq envs self).2,
      ∃ e ∈ envs, ∃ coin, e.getShieldedCoin e.ShieldedOutputId = some coin ∧
        inp.toShieldedTxoID = coin.m_CoinID ∧
        inp.m_Fee = (e.fs.m_ShieldedInput + e.fs.m_Kernel) % amountModulus) := by
  obtain ⟨b1, b2, b3, b4⟩ := UpdateImplSeq_emplaced envs self
  refine ⟨fun h => ⟨?_, UpdateImpl_selected env self (Or.inr h)⟩, b1, b2, b3, ?_⟩
  · obtain ⟨a1, a2, _, _⟩ := UpdateImpl_emplaced env self
    rw [a1, a2 h, List.append_nil]
  · intro inp hinp
    obtain ⟨e, he, coin, hc, rfl⟩ := b4 inp hinp
    exact ⟨e, he, coin, hc, rfl, rfl⟩

/-- Witness of C23: three invocations in scenario A on a fresh object leave exactly
one shielded input, the coin of value 20 with fee 12. -/
theorem C23_selection_not_redone_witness :
    shieldedInputs (UpdateImplSeq [envScenarioA, envScenarioA, envRegisteredOk]
      (freshTx false)).1 = [⟨⟨20, 0, 0⟩, 12⟩] ∧
    (emplacedInputs (UpdateImplSeq [envScenarioA, envScenarioA, envRegisteredOk]
      (freshTx false)).2).length ≤ 1 :=
  ⟨by decide,
    (C23_selection_not_redone [envScenarioA, envScenarioA, envRegisteredOk] envScenarioA
      (freshTx false)).2.2.2.1⟩

theorem registerAndConfirm_invalidContext (env : Env)
    (hr : env.TransactionRegistered = some env.TxStatus_InvalidContext)
    (hk : env.KernelUnconfirmedHeight = none ∨ env.KernelUnconfirmedHeight = some 0) :
    registerAndConfirm env = confirmAndComplete env := by
  rcases hk with hk | hk <;> simp [registerAndConfirm, hr, hk]

/-- C25: when the persisted `TransactionRegistered` value is `InvalidContext` and
`KernelUnconfirmedHeight` is absent or zero, `UpdateImpl` does exactly what it does
for `Ok`: same object, same calls, same outcome.  Once the builder steps are done it
reports no failure, ends with `ConfirmKernel` when no proof height is persisted, and
ends with `SetCompletedTxCoinStatuses` and `CompleteTx` when a non-zero proof height
is persisted. -/
theorem C25_invalid_context_proceeds (env : Env) (self : PullTransaction)
    (hr : env.TransactionRegistered = some env.TxStatus_InvalidContext)
    (hk : env.KernelUnconfirmedHeight = none ∨ env.KernelUnconfirmedHeight = some 0) :
    UpdateImpl env self = UpdateImpl (registeredOk env) self ∧
    (stepsDone (UpdateImpl env self) →
      (∀ e ∈ (UpdateImpl env self).events, e.isOnFailed = false) ∧
      ((env.KernelProofHeight = none ∨ env.KernelProofHeight = some 0) →
        confirmsOnly env (UpdateImpl env self)) ∧
      (∀ h, env.KernelProofHeight = some h → h ≠ 0 →
        (UpdateImpl env self).events.getLast? = some Event.CompleteTx ∧
        Event.SetCompletedTxCoinStatuses h ∈ (UpdateImpl env self).events)) := by
  have hrc := registerAndConfirm_invalidContext env hr hk
  constructor
  · have hok : registerAndConfirm (registeredOk env) = registerAndConfirm env := by
      rw [hrc]
      by_cases hne : env.TxStatus_Ok = env.TxStatus_InvalidContext
      · have : registerAndConfirm (registeredOk env) = confirmAndComplete (registeredOk env) :=
          registerAndConfirm_invalidContext (registeredOk env)
            (by simp [registeredOk, hne]) hk
        rw [this]; rfl
      · have : registerAndConfirm (registeredOk env) = confirmAndComplete (registeredOk env) :=
          registerAndConfirm_ok (registeredOk env) rfl hne
        rw [this]; rfl
    have hb : builderSteps (registeredOk env) = builderSteps env := by
      unfold builderSteps
      rw [hok]
      rfl
    unfold UpdateImpl
    rw [hb]
    rfl
  · intro hd
    obtain ⟨pre, hpre, hev, hout⟩ := UpdateImpl_steps_done env self hd
    rw [hrc] at hev
    refine ⟨(proceeds_of_trace env _ pre hpre hev).1, ?_, ?_⟩
    · intro hp
      rw [confirmAndComplete_pending env hp] at hev
      exact confirmsOnly_of_trace env _ pre hpre hev hout
    · intro h hkp hh
      rw [confirmAndComplete_proven env h hkp hh] at hev
      rw [hev]
      constructor
      · cases env.getShieldedCoinByTx env.GetTxID <;> simp
      · cases env.getShieldedCoinByTx env.GetTxID <;> simp

/-- Witness of C25: `InvalidContext` with no unconfirmed height and proof height 700
gives the trace of `Ok` with proof height 700. -/
theorem C25_invalid_context_proceeds_witness :
    UpdateImpl envInvalidContextProven (freshTx false) =
      UpdateImpl (registeredOk envInvalidContextProven) (freshTx false) ∧
    (UpdateImpl envInvalidContextProven (freshTx false)).events.getLast? =
      some Event.CompleteTx :=
  have h := C25_invalid_context_proceeds envInvalidContextProven (freshTx false) rfl
    (Or.inl rfl)
  ⟨h.1, ((h.2 (by decide)).2.2 700 rfl (by decide)).1⟩

end beam.wallet.lelantus

/-! ## The reduction over the workers, and appending to a stored block -/

namespace beam

open wallet.lelantus (Amount Height)

theorem foldl_keyAt {S : Type} [AddCommGroup S] (keys : List (Height × S)) :
    ∀ (idx : List Nat) (a : S),
      idx.foldl (fun acc i => acc + keyAt keys i) a = a + (idx.map (keyAt keys)).sum := by
  intro idx
  induction idx with
  | nil => intro a; simp
  | cons i rest ih =>
    intro a
    rw [List.foldl_cons, ih, List.map_cons, List.sum_cons, add_assoc]

/-- Where the loop counter does not wrap and every worker merges once: the part of
`Generate` before `Sort` ends, the offset stored in the block is the initial block
offset minus the keys of the outputs 0..nCount-1 minus the key of the dummy kernel,
which is what a single-threaded pass leaves, and it is the member `m_Offset`, the
negation of the accumulated sum. -/
theorem GenerateUnsorted_offset {S : Type} [AddCommGroup S] (env : TreasuryEnv S)
    (self : TreasuryBlockGenerator S) (nCount : Nat) (dh : Height) (fuel : Nat)
    (hw : NoWrap env nCount) (hf : nCount ≤ fuel) (hv : ValidSchedule env)
    (hs : (workerState env self nCount dh).m_Block.m_Subsidy < subsidyModulus) :
    ∃ self3, GenerateUnsorted env self nCount dh (fuel + 1) = some self3 ∧
      self3.m_Block.m_Offset =
        (workerState env self nCount dh).m_Block.m_Offset -
          ((List.range nCount).map
            (keyAt (workerState env self nCount dh).m_vIncubationAndKeys)).sum -
          dummyKernelKey env ∧
      self3.m_Block.m_Offset =
        sequentialOffset (workerState env self nCount dh).m_Block.m_Offset
          (workerState env self nCount dh).m_vIncubationAndKeys nCount (dummyKernelKey env) ∧
      self3.m_Block.m_Offset = self3.m_Offset ∧
      self3.m_Offset =
        -((mergedInto (workerState env self nCount dh) (visitOrder env nCount fuel)).m_Offset +
          dummyKernelKey env) := by
  have hperm := visitOrder_perm env nCount fuel hw hf hv
  have hsum := (hperm.map (keyAt (workerState env self nCount dh).m_vIncubationAndKeys)).sum_eq
  have hneg : (workerState env self nCount dh).m_Offset =
      -(workerState env self nCount dh).m_Block.m_Offset := rfl
  refine ⟨_, GenerateUnsorted_eq env self nCount dh fuel hw hf hs, ?_, ?_, rfl, rfl⟩
  · show -((workerState env self nCount dh).m_Offset +
        ((visitOrder env nCount fuel).map
          (keyAt (workerState env self nCount dh).m_vIncubationAndKeys)).sum +
        dummyKernelKey env) = _
    rw [hsum, hneg]
    abel
  · show -((workerState env self nCount dh).m_Offset +
        ((visitOrder env nCount fuel).map
          (keyAt (workerState env self nCount dh).m_vIncubationAndKeys)).sum +
        dummyKernelKey env) = _
    rw [hsum, hneg, sequentialOffset, foldl_keyAt]

/-- Where the loop counter does not wrap and every worker merges once, `Generate`
appends to the block read from the treasury file: before `Sort` the block has the
stored outputs and `nCount` more, the stored kernels and one more, and the stored
subsidy plus `nCount` times the coin amount, in 128-bit arithmetic. -/
theorem GenerateUnsorted_appends {S : Type} [AddCommGroup S] (env : TreasuryEnv S)
    (self : TreasuryBlockGenerator S) (nCount : Nat) (dh : Height) (fuel : Nat) (b : Body S)
    (hfile : env.fileBlock = some b) (hb : b.m_Subsidy < subsidyModulus)
    (hw : NoWrap env nCount) (hf : nCount ≤ fuel) (hv : ValidSchedule env) :
    ∃ self3, GenerateUnsorted env self nCount dh (fuel + 1) = some self3 ∧
      self3.m_Block.m_vOutputs.length = b.m_vOutputs.length + nCount ∧
      self3.m_Block.m_vKernelsOutput.length = b.m_vKernelsOutput.length + 1 ∧
      self3.m_Block.m_Subsidy =
        (b.m_Subsidy + nCount * ((env.RulesCoin * 10) % uint64Modulus)) % subsidyModulus := by
  have hblk : (workerState env self nCount dh).m_Block = b := by
    simp [workerState, GenerateCoinsPhase, hfile]
  have hs : (workerState env self nCount dh).m_Block.m_Subsidy < subsidyModulus := by
    rw [hblk]; exact hb
  have hperm := visitOrder_perm env nCount fuel hw hf hv
  have hamt : (visitOrder env nCount fuel).map
      (amountAt (workerState env self nCount dh).m_Coins) =
      List.replicate nCount ((env.RulesCoin * 10) % uint64Modulus) := by
    rw [List.eq_replicate_iff]
    refine ⟨by rw [List.length_map, hperm.length_eq, List.length_range], ?_⟩
    intro a ha
    obtain ⟨i, hi, rfl⟩ := List.mem_map.1 ha
    exact workerState_amountAt env _ nCount dh i (visitOrder_lt env nCount fuel i hi)
  refine ⟨_, GenerateUnsorted_eq env self nCount dh fuel hw hf hs, ?_, ?_, ?_⟩
  · show ((workerState env self nCount dh).m_Block.m_vOutputs ++
        (visitOrder env nCount fuel).map _).length = _
    rw [List.length_append, List.length_map, hperm.length_eq, List.length_range, hblk]
  · show ((workerState env self nCount dh).m_Block.m_vKernelsOutput ++ [_]).length = _
    rw [List.length_append, hblk]
    rfl
  · show ((workerState env self nCount dh).m_Block.m_Subsidy +
        ((visitOrder env nCount fuel).map
          (amountAt (workerState env self nCount dh).m_Coins)).sum) % subsidyModulus = _
    rw [hamt, List.sum_replicate, smul_eq_mul, hblk]

/-- With 4294967295 coins and stride 8 the counter of the loop of worker 0 wraps from
4294967288 to 0, which is again below the coin count: the loop never ends. -/
theorem ProceedLoop_wrap_eight {S : Type} [AddCommGroup S] (coins : List Coin)
    (keys : List (Height × S)) (hlen : coins.length = maxCoinCount) :
    ∀ (fuel i : Nat) (loc : SubBlock S), i % 8 = 0 → i < uint32Modulus →
      ProceedLoop coins keys 8 fuel i loc = none := by
  intro fuel
  induction fuel with
  | zero => intro i loc _ _; rfl
  | succ fuel ih =>
    intro i loc hev hlt
    unfold uint32Modulus at hlt
    have hi : i < coins.length := by rw [hlen]; unfold maxCoinCount; omega
    rw [ProceedLoop, if_pos hi]
    exact ih _ _ (by unfold uint32Modulus; omega)
      (Nat.mod_lt _ (by unfold uint32Modulus; norm_num))

/-- C24 (failing input): with `nCount = 4294967295`, eight worker threads entering
the critical section in the order 0..7 and no treasury file, `Generate` does not
return, whatever the fuel: worker 0 never reaches the merge, so no block offset is
written. -/
theorem C24_no_offset_written (fuel : Nat) :
    ValidSchedule (treasuryEnv 8 [0, 1, 2, 3, 4, 5, 6, 7] true) ∧
    GenerateUnsorted (treasuryEnv 8 [0, 1, 2, 3, 4, 5, 6, 7] true) tbgMain maxCoinCount 120
      fuel = none ∧
    Generate (treasuryEnv 8 [0, 1, 2, 3, 4, 5, 6, 7] true) tbgMain maxCoinCount 120 fuel =
      GenerateOutcome.outOfFuel := by
  have hlen := workerState_coins_length (treasuryEnv 8 [0, 1, 2, 3, 4, 5, 6, 7] true) tbgMain
    maxCoinCount 120
  have hl : ProceedLoop
      (workerState (treasuryEnv 8 [0, 1, 2, 3, 4, 5, 6, 7] true) tbgMain maxCoinCount 120).m_Coins
      (workerState (treasuryEnv 8 [0, 1, 2, 3, 4, 5, 6, 7] true) tbgMain
        maxCoinCount 120).m_vIncubationAndKeys 8 fuel 0 ⟨0, 0, []⟩ = none :=
    ProceedLoop_wrap_eight _ _ hlen fuel 0 _ rfl (by unfold uint32Modulus; norm_num)
  have h0 : Proceed (workerState (treasuryEnv 8 [0, 1, 2, 3, 4, 5, 6, 7] true) tbgMain
      maxCoinCount 120) 0 fuel = none := by
    unfold Proceed
    show Option.map _ (ProceedLoop _ _ 8 fuel 0 ⟨0, 0, []⟩) = none
    rw [hl]
    rfl
  have hu : GenerateUnsorted (treasuryEnv 8 [0, 1, 2, 3, 4, 5, 6, 7] true) tbgMain
      maxCoinCount 120 fuel = none := by
    rw [GenerateUnsorted_def]
    show Option.map _ (runWorkers fuel [0, 1, 2, 3, 4, 5, 6, 7] _) = none
    rw [runWorkers, h0]
    rfl
  have hp : tbgMain.m_sPath.isEmpty = false := by decide
  have hT : (treasuryEnv 8 [0, 1, 2, 3, 4, 5, 6, 7] true).hardware_concurrency ≠ 0 := by decide
  refine ⟨List.Perm.refl _, hu, ?_⟩
  simp only [Generate, hp, hT, hu, if_false, Bool.false_eq_true]

/-- C26 (failing input): the treasury file holds a block with one output, one kernel
and subsidy 7, there are two worker threads, and `nCount = 4294967295`.  `Generate`
does not reach the point before `Sort`, whatever the fuel: worker 0 never leaves its
loop, so no block with `1 + nCount` outputs is produced. -/
theorem C26_no_block_appended (fuel : Nat) :
    treasuryEnvAppend.fileBlock = some ⟨5, 7, [], [⟨0, 3, 7⟩], [⟨4⟩]⟩ ∧
    ValidSchedule treasuryEnvAppend ∧
    GenerateUnsorted treasuryEnvAppend tbgMain maxCoinCount 120 fuel = none ∧
    Generate treasuryEnvAppend tbgMain maxCoinCount 120 fuel = GenerateOutcome.outOfFuel := by
  have hlen := workerState_coins_length treasuryEnvAppend tbgMain maxCoinCount 120
  have h0 := Proceed_wrap (workerState treasuryEnvAppend tbgMain maxCoinCount 120) hlen rfl fuel
  have hu : GenerateUnsorted treasuryEnvAppend tbgMain maxCoinCount 120 fuel = none := by
    rw [GenerateUnsorted_def]
    show Option.map _ (runWorkers fuel [0, 1] _) = none
    rw [runWorkers, h0]
    rfl
  have hp : tbgMain.m_sPath.isEmpty = false := by decide
  have hT : treasuryEnvAppend.hardware_concurrency ≠ 0 := by decide
  refine ⟨rfl, List.Perm.refl _, hu, ?_⟩
  simp only [Generate, hp, hT, hu, if_false, Bool.false_eq_true]

/-- The same stored block with three coins to add: before `Sort` the block has
1 + 3 outputs, 1 + 1 kernels and subsidy 7 + 3 * 10000000. -/
theorem GenerateUnsorted_appends_three :
    ∃ self3, GenerateUnsorted treasuryEnvAppend tbgMain 3 120 4 = some self3 ∧
      self3.m_Block.m_vOutputs.length = 1 + 3 ∧
      self3.m_Block.m_vKernelsOutput.length = 1 + 1 ∧
      self3.m_Block.m_Subsidy = 7 + 3 * 10000000 := by
  obtain ⟨self3, h, h1, h2, h3⟩ := GenerateUnsorted_appends treasuryEnvAppend tbgMain 3 120 3
    ⟨5, 7, [], [⟨0, 3, 7⟩], [⟨4⟩]⟩ rfl (by unfold subsidyModulus; norm_num)
    (by unfold NoWrap uint32Modulus; decide) (le_refl _) (List.Perm.refl _)
  refine ⟨self3, h, h1, h2, ?_⟩
  rw [h3]
  decide

end beam

/-! ## Inbound messages of a session (`process_data`, lines 927-951) -/

namespace beam.service

/-- A well-formed message with a `result` member goes to the front callback, which is
then popped; a well-formed message without one goes to the API. -/
theorem process_data_example :
    process_data sessionEnvExample sessionExample "1" =
      (⟨[11], ["pending", "ack"]⟩, [SessionEvent.callbackInvoked 10 1],
        SessionOutcome.returned) ∧
    process_data sessionEnvExample sessionExample "2" =
      (⟨[10, 11], ["pending", "reply"]⟩, [SessionEvent.apiDispatched "2"],
        SessionOutcome.returned) := by
  decide

/-- C21: for a message that is not well-formed JSON, `process_data` logs the parse
error and nothing else: the queue of pending key-keeper callbacks and the write queue
are unchanged, no callback is invoked, no API method is dispatched, and the call
returns without an exception. -/
theorem C21_malformed_discarded {J F : Type} (env : SessionEnv J F) (self : session F)
    (data : String) (h : env.parse data = none) :
    (process_data env self data).1 = self ∧
    (process_data env self data).1._keeperCallbacks = self._keeperCallbacks ∧
    (process_data env self data).1._writeQueue = self._writeQueue ∧
    (process_data env self data).2.1 = [SessionEvent.logError] ∧
    (∀ e ∈ (process_data env self data).2.1, e.isCallback = false ∧ e.isDispatch = false) ∧
    (process_data env self data).2.2 = SessionOutcome.returned := by
  have hp : process_data env self data =
      (self, [SessionEvent.logError], SessionOutcome.returned) := by
    simp [process_data, h]
  rw [hp]
  refine ⟨rfl, rfl, rfl, rfl, ?_, rfl⟩
  intro e he
  simp only [List.mem_singleton] at he
  subst he
  exact ⟨rfl, rfl⟩

/-- Witness of C21: the text `not json` leaves the two pending callbacks and the
queued write where they are. -/
theorem C21_malformed_discarded_witness :
    sessionEnvExample.parse "not json" = none ∧
    (process_data sessionEnvExample sessionExample "not json").1 = sessionExample ∧
    (process_data sessionEnvExample sessionExample "not json").2.2 =
      SessionOutcome.returned :=
  have h := C21_malformed_discarded sessionEnvExample sessionExample "not json" (by decide)
  ⟨by decide, h.1, h.2.2.2.2.2⟩

end beam.service

/-! ## Asset metadata (`WalletAssetMeta::Parse`, lines 65-125) -/

namespace beam.wallet

theorem mapFind_mapAssign (m : List (List Char × List Char)) (k v key : List Char) :
    mapFind (mapAssign m k v) key = if k = key then some v else mapFind m key := by
  induction m with
  | nil => simp [mapAssign, mapFind]
  | cons e rest ih =>
    obtain ⟨k1, v1⟩ := e
    unfold mapAssign
    by_cases h1 : k1 = k
    · subst h1
      by_cases h2 : k1 = key <;> simp [mapFind, h2]
    · rw [if_neg h1]
      by_cases h3 : k < k1
      · rw [if_pos h3]
        by_cases h2 : k = key
        · simp [mapFind, h2]
        · simp [mapFind, h2]
      · rw [if_neg h3]
        by_cases h2 : k = key
        · subst h2
          simp [mapFind, ih, h1]
        · simp [mapFind, ih, h2]

theorem parseToken_find (m : List (List Char × List Char)) (t key : List Char) :
    mapFind (parseToken m t) key =
      if hasKey key t = true then some (tokenVal t) else mapFind m key := by
  unfold parseToken hasKey
  by_cases h : '=' ∈ t
  · simp [h, mapFind_mapAssign]
  · simp [h]

theorem greatest_cons (t : List Char) (ts : List (List Char)) :
    greatest (t :: ts) =
      match greatest ts with
      | none => some t
      | some g => some (if g ≤ t then t else g) := rfl

theorem greatest_mem : ∀ (l : List (List Char)) (g : List Char), greatest l = some g → g ∈ l := by
  intro l
  induction l with
  | nil => intro g h; simp [greatest] at h
  | cons t ts ih =>
    intro g h
    unfold greatest at h
    cases hg : greatest ts with
    | none =>
      rw [hg] at h
      simp only [Option.some.injEq] at h
      subst h
      exact List.mem_cons_self _ _
    | some g1 =>
      rw [hg] at h
      simp only [Option.some.injEq] at h
      by_cases hle : g1 ≤ t
      · rw [if_pos hle] at h
        subst h
        exact List.mem_cons_self _ _
      · rw [if_neg hle] at h
        subst h
        exact List.mem_cons_of_mem _ (ih _ hg)

theorem greatest_ge : ∀ (l : List (List Char)) (g : List Char), greatest l = some g →
    ∀ x ∈ l, x ≤ g := by
  intro l
  induction l with
  | nil => intro g h; simp [greatest] at h
  | cons t ts ih =>
    intro g h x hx
    unfold greatest at h
    cases hg : greatest ts with
    | none =>
      rw [hg] at h
      simp only [Option.some.injEq] at h
      subst h
      have hts : ts = [] := by
        cases ts with
        | nil => rfl
        | cons a as =>
          unfold greatest at hg
          cases h2 : greatest as <;> rw [h2] at hg <;> simp at hg
      subst hts
      simp only [List.mem_singleton] at hx
      rw [hx]
    | some g1 =>
      rw [hg] at h
      simp only [Option.some.injEq] at h
      rcases List.mem_cons.1 hx with rfl | hx
      · by_cases hle : g1 ≤ x
        · rw [if_pos hle] at h
          rw [← h]
        · rw [if_neg hle] at h
          rw [← h]
          exact le_of_lt (lt_of_not_le hle)
      · have h1 := ih g1 hg x hx
        by_cases hle : g1 ≤ t
        · rw [if_pos hle] at h
          rw [← h]
          exact le_trans h1 hle
        · rw [if_neg hle] at h
          rw [← h]
          exact h1

theorem greatest_eq_none (l : List (List Char)) (h : greatest l = none) : l = [] := by
  cases l with
  | nil => rfl
  | cons a as =>
    unfold greatest at h
    cases h2 : greatest as <;> rw [h2] at h <;> simp at h

theorem greatest_of (l : List (List Char)) (g : List Char) (hg : g ∈ l)
    (hle : ∀ x ∈ l, x ≤ g) : greatest l = some g := by
  cases h : greatest l with
  | none =>
    rw [greatest_eq_none l h] at hg
    simp at hg
  | some g1 =>
    have h1 := greatest_mem l g1 h
    have h2 := greatest_ge l g1 h
    rw [le_antisymm (hle g1 h1) (h2 g hg)]

theorem greatest_congr (l1 l2 : List (List Char)) (h : ∀ x, x ∈ l1 ↔ x ∈ l2) :
    greatest l1 = greatest l2 := by
  cases h1 : greatest l1 with
  | none =>
    have : l2 = [] := by
      rw [greatest_eq_none l1 h1] at h
      exact List.eq_nil_iff_forall_not_mem.2 fun x hx => by simpa using (h x).2 hx
    rw [this]
    rfl
  | some g =>
    symm
    exact greatest_of l2 g ((h g).1 (greatest_mem l1 g h1))
      (fun x hx => greatest_ge l1 g h1 x ((h x).2 hx))

theorem mem_tokenSet (l : List (List Char)) (x : List Char) : x ∈ tokenSet l ↔ x ∈ l := by
  unfold tokenSet
  rw [(List.perm_insertionSort _ _).mem_iff, List.mem_dedup]

theorem tokenSet_sorted (l : List (List Char)) : (tokenSet l).Sorted (· ≤ ·) :=
  List.sorted_insertionSort _ _

theorem tokenSet_nodup (l : List (List Char)) : (tokenSet l).Nodup :=
  (List.perm_insertionSort _ _).nodup_iff.2 (List.nodup_dedup l)

theorem sorted_nodup_ext (l1 l2 : List (List Char)) (s1 : l1.Sorted (· ≤ ·))
    (s2 : l2.Sorted (· ≤ ·)) (n1 : l1.Nodup) (n2 : l2.Nodup) (h : ∀ x, x ∈ l1 ↔ x ∈ l2) :
    l1 = l2 :=
  List.eq_of_perm_of_sorted ((List.perm_ext_iff_of_nodup n1 n2).2 h) s1 s2

theorem tokenSet_congr (l1 l2 : List (List Char)) (h : ∀ x, x ∈ l1 ↔ x ∈ l2) :
    tokenSet l1 = tokenSet l2 :=
  sorted_nodup_ext _ _ (tokenSet_sorted l1) (tokenSet_sorted l2) (tokenSet_nodup l1)
    (tokenSet_nodup l2) (fun x => by rw [mem_tokenSet, mem_tokenSet, h])

theorem tokenSet_filter (l : List (List Char)) (p : List Char → Bool) :
    (tokenSet l).filter p = tokenSet (l.filter p) :=
  sorted_nodup_ext _ _ ((tokenSet_sorted l).filter p) (tokenSet_sorted _)
    ((tokenSet_nodup l).filter p) (tokenSet_nodup _)
    (fun x => by simp only [List.mem_filter, mem_tokenSet])

/-- The loop over an ascending sequence of tokens leaves, for every key, the value of
the greatest token with that key. -/
theorem foldl_parseToken_find (key : List Char) :
    ∀ (l : List (List Char)) (m : List (List Char × List Char)), l.Sorted (· ≤ ·) →
      mapFind (l.foldl parseToken m) key =
        match greatest (l.filter (hasKey key)) with
        | some t => some (tokenVal t)
        | none => mapFind m key := by
  intro l
  induction l with
  | nil => intro m _; rfl
  | cons t ts ih =>
    intro m hs
    have hts : ts.Sorted (· ≤ ·) := hs.of_cons
    have hle : ∀ x ∈ ts, t ≤ x := List.rel_of_sorted_cons hs
    rw [List.foldl_cons, ih _ hts, parseToken_find]
    by_cases hk : hasKey key t = true
    · rw [List.filter_cons_of_pos hk, greatest_cons]
      cases hg : greatest (ts.filter (hasKey key)) with
      | none => simp [hk]
      | some g =>
        have hmem : g ∈ ts := (List.mem_filter.1 (greatest_mem _ g hg)).1
        by_cases hgt : g ≤ t
        · have : g = t := le_antisymm hgt (hle g hmem)
          simp [this]
        · simp [hgt]
    · rw [List.filter_cons_of_neg hk]
      cases hg : greatest (ts.filter (hasKey key)) with
      | none => simp [hk]
      | some g => rfl

theorem foldl_parseToken_filter :
    ∀ (l : List (List Char)) (m : List (List Char × List Char)),
      l.foldl parseToken m = (l.filter fun f => decide ('=' ∈ f)).foldl parseToken m := by
  intro l
  induction l with
  | nil => intro m; rfl
  | cons t ts ih =>
    intro m
    by_cases h : '=' ∈ t
    · rw [List.filter_cons_of_pos (by simpa using h), List.foldl_cons, List.foldl_cons, ih]
    · rw [List.filter_cons_of_neg (by simpa using h), List.foldl_cons, ih]
      simp [parseToken, h]

end beam.wallet

namespace beam.wallet

theorem Parse_of_marker (env : MetaEnv) (metadata : List Char)
    (h : metadata.take 4 = "STD:".toList) :
    WalletAssetMeta.ofString env metadata =
      ⟨fieldValid ((tokenSet (metaFields metadata)).foldl parseToken []) NAME_KEY &&
          fieldValid ((tokenSet (metaFields metadata)).foldl parseToken []) SHORT_NAME_KEY &&
          fieldValid ((tokenSet (metaFields metadata)).foldl parseToken []) UNIT_NAME_KEY &&
          fieldValid ((tokenSet (metaFields metadata)).foldl parseToken []) NTH_UNIT_NAME_KEY &&
          versionValid env ((tokenSet (metaFields metadata)).foldl parseToken []) &&
          optSDescValid ((tokenSet (metaFields metadata)).foldl parseToken []) &&
          optLDescValid ((tokenSet (metaFields metadata)).foldl parseToken []),
        fieldValid ((tokenSet (metaFields metadata)).foldl parseToken []) NAME_KEY &&
          fieldValid ((tokenSet (metaFields metadata)).foldl parseToken []) SHORT_NAME_KEY &&
          fieldValid ((tokenSet (metaFields metadata)).foldl parseToken []) UNIT_NAME_KEY &&
          fieldValid ((tokenSet (metaFields metadata)).foldl parseToken []) NTH_UNIT_NAME_KEY,
        true, metadata, (tokenSet (metaFields metadata)).foldl parseToken []⟩ := by
  have hl : STD_META_MARK.length = 4 := rfl
  have hm : metadata.take 4 = STD_META_MARK := h
  unfold WalletAssetMeta.ofString WalletAssetMeta.Parse
  simp only [hl, hm, ne_eq, not_true_eq_false, if_false]
  rfl

/-- The value that `Parse` stores for a key is the value of the greatest field with
that key. -/
theorem ofString_find (env : MetaEnv) (metadata : List Char)
    (h : metadata.take 4 = "STD:".toList) (key : List Char) :
    mapFind (WalletAssetMeta.ofString env metadata)._values key =
      fieldValue (metaFields metadata) key := by
  rw [Parse_of_marker env metadata h]
  show mapFind ((tokenSet (metaFields metadata)).foldl parseToken []) key = _
  rw [foldl_parseToken_find key _ _ (tokenSet_sorted _), tokenSet_filter, fieldValue,
    greatest_congr (tokenSet ((metaFields metadata).filter (hasKey key)))
      ((metaFields metadata).filter (hasKey key)) (mem_tokenSet _)]
  cases greatest ((metaFields metadata).filter (hasKey key)) <;> rfl

theorem isAlphanum_iff (ch : Char) : ch.isAlphanum = true ↔ isAsciiAlnum ch := by
  simp only [Char.isAlphanum, Char.isAlpha, Char.isUpper, Char.isLower, Char.isDigit,
    isAsciiAlnum, Bool.or_eq_true, Bool.and_eq_true, decide_eq_true_eq, Char.toNat,
    ge_iff_le, UInt32.le_def, Fin.le_def]
  constructor
  · rintro ((h | h) | h)
    · exact Or.inr (Or.inl h)
    · exact Or.inr (Or.inr h)
    · exact Or.inl h
  · rintro (h | h | h)
    · exact Or.inr h
    · exact Or.inl (Or.inl h)
    · exact Or.inl (Or.inr h)

theorem allowedChar_iff (ch : Char) :
    allowedChar ch = true ↔
      (isAsciiAlnum ch ∨ ch = ' ' ∨ ch = '.' ∨ ch = ',' ∨ ch = '-' ∨ ch = '_') := by
  have hs : ALLOWED_SYMBOLS = [' ', '.', ',', '-', '_'] := rfl
  simp only [allowedChar, Bool.or_eq_true, isAlphanum_iff, hs, List.contains_eq_any_beq,
    List.any_cons, List.any_nil, Bool.or_false, beq_iff_eq]

theorem fieldValid_iff (values : List (List Char × List Char)) (fields : List (List Char))
    (key : List Char) (h : mapFind values key = fieldValue fields key) :
    fieldValid values key = true ↔ fieldWellFormed fields key := by
  unfold fieldValid fieldWellFormed
  rw [h]
  cases fieldValue fields key with
  | none => simp
  | some v =>
    simp only [List.all_eq_true, Option.some.injEq, exists_eq_left', allowedChar_iff]

theorem versionValid_iff (env : MetaEnv) (values : List (List Char × List Char))
    (fields : List (List Char))
    (h : mapFind values VERSION_KEY = fieldValue fields "SCH_VER".toList) :
    versionValid env values = true ↔
      ∃ v, fieldValue fields "SCH_VER".toList = some v ∧ env.to_unsigned v = 1 := by
  unfold versionValid
  rw [h]
  cases fieldValue fields "SCH_VER".toList with
  | none => simp
  | some v => simp [CURRENT_META_VERSION]

theorem optSDescValid_iff (values : List (List Char × List Char)) (fields : List (List Char))
    (h : mapFind values OPT_SDESC_KEY = fieldValue fields "OPT_SHORT_DESC".toList) :
    optSDescValid values = true ↔
      ∀ v, fieldValue fields "OPT_SHORT_DESC".toList = some v → v.length ≤ 128 := by
  unfold optSDescValid
  rw [h]
  cases fieldValue fields "OPT_SHORT_DESC".toList with
  | none => simp
  | some v => simp

theorem optLDescValid_iff (values : List (List Char × List Char)) (fields : List (List Char))
    (h : mapFind values OPT_LDESC_KEY = fieldValue fields "OPT_LONG_DESC".toList) :
    optLDescValid values = true ↔
      ∀ v, fieldValue fields "OPT_LONG_DESC".toList = some v → v.length ≤ 1024 := by
  unfold optLDescValid
  rw [h]
  cases fieldValue fields "OPT_LONG_DESC".toList with
  | none => simp
  | some v => simp

/-- C27: for metadata that starts with `STD:`, the object is parsed, and `isStd()` is
true exactly when the fields N, SN, UN and NTHUN are present with values made of
ASCII letters, digits, spaces and `.`, `,`, `-`, `_`, the field SCH_VER is present
and reads as 1, OPT_SHORT_DESC is absent or at most 128 characters long, and
OPT_LONG_DESC is absent or at most 1024 characters long; `isStd()` implies
`isStd_v5_0()`. -/
theorem C27_standard_metadata (env : MetaEnv) (metadata : List Char)
    (h : metadata.take 4 = "STD:".toList) :
    (WalletAssetMeta.ofString env metadata)._parsed = true ∧
    ((WalletAssetMeta.ofString env metadata).isStd = some true ↔
      standardFields env.to_unsigned (metaFields metadata)) ∧
    ((WalletAssetMeta.ofString env metadata).isStd = some true →
      (WalletAssetMeta.ofString env metadata).isStd_v5_0 = some true) := by
  have hf := ofString_find env metadata h
  have h1 := fieldValid_iff _ _ _ (hf NAME_KEY)
  have h2 := fieldValid_iff _ _ _ (hf SHORT_NAME_KEY)
  have h3 := fieldValid_iff _ _ _ (hf UNIT_NAME_KEY)
  have h4 := fieldValid_iff _ _ _ (hf NTH_UNIT_NAME_KEY)
  have h5 := versionValid_iff env _ _ (hf VERSION_KEY)
  have h6 := optSDescValid_iff _ _ (hf OPT_SDESC_KEY)
  have h7 := optLDescValid_iff _ _ (hf OPT_LDESC_KEY)
  rw [Parse_of_marker env metadata h] at h1 h2 h3 h4 h5 h6 h7 ⊢
  simp only at h1 h2 h3 h4 h5 h6 h7
  refine ⟨rfl, ?_, ?_⟩
  · simp only [WalletAssetMeta.isStd, if_true, Option.some.injEq, Bool.and_eq_true,
      standardFields, h1, h2, h3, h4, h5, h6, h7]
    constructor
    · rintro ⟨⟨⟨⟨⟨⟨a1, a2⟩, a3⟩, a4⟩, a5⟩, a6⟩, a7⟩
      exact ⟨a1, a2, a3, a4, a5, a6, a7⟩
    · rintro ⟨a1, a2, a3, a4, a5, a6, a7⟩
      exact ⟨⟨⟨⟨⟨⟨a1, a2⟩, a3⟩, a4⟩, a5⟩, a6⟩, a7⟩
  · simp only [WalletAssetMeta.isStd, WalletAssetMeta.isStd_v5_0, if_true, Option.some.injEq,
      Bool.and_eq_true]
    rintro ⟨⟨⟨a, _⟩, _⟩, _⟩
    exact a

/-- Witness of C27: the metadata `STD:SCH_VER=1;N=a;SN=2;UN=c;NTHUN=d` is standard. -/
theorem C27_standard_metadata_witness :
    "STD:SCH_VER=1;N=a;SN=2;UN=c;NTHUN=d".toList.take 4 = "STD:".toList ∧
    standardFields decimalValue (metaFields "STD:SCH_VER=1;N=a;SN=2;UN=c;NTHUN=d".toList) :=
  ⟨by decide,
    (C27_standard_metadata metaEnvExample "STD:SCH_VER=1;N=a;SN=2;UN=c;NTHUN=d".toList
      (by decide)).2.1.1 (by decide)⟩

end beam.wallet

namespace beam.wallet

/-- Whatever reads the numbers, `GetSchemaVersion` answers from the field SN and
never looks at SCH_VER. -/
theorem GetSchemaVersion_reads_short_name (env : MetaEnv) (metadata : List Char)
    (h : metadata.take 4 = "STD:".toList) :
    (WalletAssetMeta.ofString env metadata).GetSchemaVersion env =
      match fieldValue (metaFields metadata) "SN".toList with
      | some v => some (env.to_unsigned v)
      | none => some 0 := by
  have hf := ofString_find env metadata h SHORT_NAME_KEY
  have hp : (WalletAssetMeta.ofString env metadata)._parsed = true := by
    rw [Parse_of_marker env metadata h]
  unfold WalletAssetMeta.GetSchemaVersion
  rw [hp, hf]
  rfl

/-- C28 (failing input): for `STD:SCH_VER=1;N=a`, whose field SCH_VER is present with
value 1, `GetSchemaVersion` returns 0 whatever reads the numbers; for the standard
metadata `STD:SCH_VER=1;N=Beam;SN=BEAM;UN=Beam;NTHUN=Groth` it returns the reading of
`BEAM`, 0, and for `STD:SCH_VER=1;N=a;SN=2;UN=c;NTHUN=d` it returns 2, while
`isStd()` is true for both: the method looks up SN where SCH_VER is meant. -/
theorem C28_schema_version_reads_short_name :
    (∀ env : MetaEnv,
      mapFind (WalletAssetMeta.ofString env "STD:SCH_VER=1;N=a".toList)._values VERSION_KEY =
        some "1".toList ∧
      (WalletAssetMeta.ofString env "STD:SCH_VER=1;N=a".toList).GetSchemaVersion env =
        some 0) ∧
    (WalletAssetMeta.ofString metaEnvExample
      "STD:SCH_VER=1;N=Beam;SN=BEAM;UN=Beam;NTHUN=Groth".toList).isStd = some true ∧
    (WalletAssetMeta.ofString metaEnvExample
      "STD:SCH_VER=1;N=Beam;SN=BEAM;UN=Beam;NTHUN=Groth".toList).GetSchemaVersion
        metaEnvExample = some 0 ∧
    (WalletAssetMeta.ofString metaEnvExample
      "STD:SCH_VER=1;N=a;SN=2;UN=c;NTHUN=d".toList).isStd = some true ∧
    (WalletAssetMeta.ofString metaEnvExample
      "STD:SCH_VER=1;N=a;SN=2;UN=c;NTHUN=d".toList).GetSchemaVersion metaEnvExample =
        some 2 := by
  refine ⟨fun env => ⟨?_, ?_⟩, by decide, by decide, by decide, by decide⟩
  · rw [ofString_find env _ (by decide)]
    decide
  · rw [GetSchemaVersion_reads_short_name env _ (by decide)]
    have : fieldValue (metaFields "STD:SCH_VER=1;N=a".toList) "SN".toList = none := by decide
    rw [this]

/-- The constructor from an asset leaves `_parsed` false when the metadata is empty,
fails to deserialize, or does not start with the marker. -/
theorem ofAsset_unparsed (env : MetaEnv) (mval : List Nat)
    (h : mval = [] ∨ env.fromByteBuffer mval = none ∨
      ∃ metadata, env.fromByteBuffer mval = some metadata ∧
        metadata.take 4 ≠ "STD:".toList) :
    (WalletAssetMeta.ofAsset env mval)._parsed = false := by
  unfold WalletAssetMeta.ofAsset
  by_cases he : mval.isEmpty = true
  · rw [if_pos he]
  · rw [if_neg he]
    rcases h with h | h | ⟨metadata, h, hm⟩
    · subst h; simp at he
    · rw [h]
    · rw [h]
      have hl : STD_META_MARK.length = 4 := rfl
      have hm2 : metadata.take 4 ≠ STD_META_MARK := hm
      simp only [WalletAssetMeta.Parse, hl, ne_eq, hm2, not_false_eq_true, if_true]

/-- C29 (failing input): for an asset with empty metadata, in every environment, the
object that `WalletAsset::LogInfo` constructs has `_parsed` false when its `LogInfo`
is called, so `assert(_parsed)` fails after the asset lines are logged; the same
happens for metadata that fails to deserialize and for metadata `hello`, which does
not start with `STD:`. -/
theorem C29_unparsed_metadata_logged :
    (∀ (env : MetaEnv) (owned : Bool) (pref : List Char),
      (WalletAssetMeta.ofAsset env [])._parsed = false ∧
      WalletAsset.LogInfo env ⟨[], owned⟩ pref =
        ([AssetLog.assetLines], LogOutcome.assertFailed)) ∧
    metaEnvExample.fromByteBuffer [255, 1] = none ∧
    WalletAsset.LogInfo metaEnvExample ⟨[255, 1], false⟩ [] =
      ([AssetLog.assetLines], LogOutcome.assertFailed) ∧
    metaEnvExample.fromByteBuffer [104, 101, 108, 108, 111] = some "hello".toList ∧
    WalletAsset.LogInfo metaEnvExample ⟨[104, 101, 108, 108, 111], false⟩ [] =
      ([AssetLog.assetLines], LogOutcome.assertFailed) := by
  refine ⟨fun env owned pref => ⟨rfl, rfl⟩, by decide, by decide, by decide, by decide⟩

/-- Where the metadata is parsed, `WalletAsset::LogInfo` returns after logging one
line per key. -/
theorem LogInfo_example :
    WalletAsset.LogInfo metaEnvExample ⟨[83, 84, 68, 58, 78, 61, 97], true⟩ [] =
      ([AssetLog.assetLines, AssetLog.metaLine (Char.ofNat 9 :: " N=a".toList), AssetLog.ownedLine],
        LogOutcome.returned) := by
  decide

theorem tokenKey_append (k v : List Char) (h : '=' ∉ k) : tokenKey (k ++ '=' :: v) = k := by
  induction k with
  | nil => simp [tokenKey]
  | cons c cs ih =>
    have hc : c ≠ '=' := fun e => h (e ▸ List.mem_cons_self _ _)
    have hcs : '=' ∉ cs := fun e => h (List.mem_cons_of_mem _ e)
    have := ih hcs
    unfold tokenKey at this ⊢
    simp [List.takeWhile_cons, hc, this]

theorem tokenVal_append (k v : List Char) (h : '=' ∉ k) : tokenVal (k ++ '=' :: v) = v := by
  induction k with
  | nil => simp [tokenVal]
  | cons c cs ih =>
    have hc : c ≠ '=' := fun e => h (e ▸ List.mem_cons_self _ _)
    have hcs : '=' ∉ cs := fun e => h (List.mem_cons_of_mem _ e)
    have := ih hcs
    unfold tokenVal at this ⊢
    simp [List.dropWhile_cons, hc, this]

theorem token_split (t : List Char) (h : '=' ∈ t) : t = tokenKey t ++ '=' :: tokenVal t := by
  induction t with
  | nil => simp at h
  | cons c cs ih =>
    by_cases hc : c = '='
    · subst hc
      simp [tokenKey, tokenVal]
    · have hcs : '=' ∈ cs := by
        rcases List.mem_cons.1 h with e | e
        · exact absurd e.symm hc
        · exact e
      have := ih hcs
      unfold tokenKey tokenVal at this ⊢
      simp only [List.takeWhile_cons, List.dropWhile_cons, bne_iff_ne, ne_eq, hc,
        not_false_eq_true, if_true, List.cons_append, List.cons.injEq, true_and]
      exact this

theorem regexTokens_intercalate (fields : List (List Char)) (hsep : ∀ f ∈ fields, ';' ∉ f) :
    regexTokens (List.intercalate [';'] fields) = fields.filter fun t => !t.isEmpty := by
  unfold regexTokens
  by_cases hf : fields = []
  · subst hf
    simp [List.intercalate, List.splitOn_nil]
  · rw [List.splitOn_intercalate fields ';' hsep hf]

theorem metaOf_marker (fields : List (List Char)) :
    (metaOf fields).take 4 = "STD:".toList := by
  have hs : STD_META_MARK = ['S', 'T', 'D', ':'] := rfl
  simp [metaOf, hs]

theorem metaFields_metaOf (fields : List (List Char)) (hsep : ∀ f ∈ fields, ';' ∉ f) :
    metaFields (metaOf fields) = fields.filter fun t => !t.isEmpty := by
  have hs : STD_META_MARK = ['S', 'T', 'D', ':'] := rfl
  have hd : (metaOf fields).drop 4 = List.intercalate [';'] fields := by
    simp [metaOf, hs]
  rw [metaFields, hd, regexTokens_intercalate fields hsep]

/-- Two metadata strings with the marker whose fields are the same up to order and
repetition parse to the same map and the same flags. -/
theorem ofString_congr (env : MetaEnv) (m1 m2 : List Char)
    (h1 : m1.take 4 = "STD:".toList) (h2 : m2.take 4 = "STD:".toList)
    (h : ∀ x, x ∈ metaFields m1 ↔ x ∈ metaFields m2) :
    (WalletAssetMeta.ofString env m1)._values = (WalletAssetMeta.ofString env m2)._values ∧
    (WalletAssetMeta.ofString env m1).isStd = (WalletAssetMeta.ofString env m2).isStd ∧
    (WalletAssetMeta.ofString env m1).isStd_v5_0 =
      (WalletAssetMeta.ofString env m2).isStd_v5_0 := by
  rw [Parse_of_marker env m1 h1, Parse_of_marker env m2 h2,
    tokenSet_congr (metaFields m1) (metaFields m2) h]
  exact ⟨rfl, rfl, rfl⟩

/-- C30: for two metadata strings made of `STD:` and `;`-separated fields that are
permutations of each other, `Parse` gives the same key/value map and the same flags
`isStd` and `isStd_v5_0`; the map is the one of the fields that contain `=`; and when
a field `k=v`, with no `=` in `k`, is lexicographically the greatest of the fields
`k=...`, the map holds `v` for the key `k`. -/
theorem C30_field_order_irrelevant (env : MetaEnv) (fields1 fields2 : List (List Char))
    (hperm : fields1.Perm fields2) (hsep : ∀ f ∈ fields1, ';' ∉ f) :
    (WalletAssetMeta.ofString env (metaOf fields1))._values =
      (WalletAssetMeta.ofString env (metaOf fields2))._values ∧
    (WalletAssetMeta.ofString env (metaOf fields1)).isStd =
      (WalletAssetMeta.ofString env (metaOf fields2)).isStd ∧
    (WalletAssetMeta.ofString env (metaOf fields1)).isStd_v5_0 =
      (WalletAssetMeta.ofString env (metaOf fields2)).isStd_v5_0 ∧
    (WalletAssetMeta.ofString env (metaOf fields1))._values =
      (WalletAssetMeta.ofString env
        (metaOf (fields1.filter fun f => decide ('=' ∈ f))))._values ∧
    (∀ k v : List Char, '=' ∉ k → (k ++ '=' :: v) ∈ fields1 →
      (∀ v1, (k ++ '=' :: v1) ∈ fields1 → k ++ '=' :: v1 ≤ k ++ '=' :: v) →
      mapFind (WalletAssetMeta.ofString env (metaOf fields1))._values k = some v) := by
  have hsep2 : ∀ f ∈ fields2, ';' ∉ f := fun f hf => hsep f (hperm.mem_iff.2 hf)
  have hmf1 := metaFields_metaOf fields1 hsep
  have hmf2 := metaFields_metaOf fields2 hsep2
  obtain ⟨a1, a2, a3⟩ := ofString_congr env (metaOf fields1) (metaOf fields2)
    (metaOf_marker _) (metaOf_marker _)
    (fun x => by rw [hmf1, hmf2]; simp only [List.mem_filter, hperm.mem_iff])
  refine ⟨a1, a2, a3, ?_, ?_⟩
  · have hsep3 : ∀ f ∈ fields1.filter (fun f => decide ('=' ∈ f)), ';' ∉ f :=
      fun f hf => hsep f (List.mem_filter.1 hf).1
    rw [Parse_of_marker env _ (metaOf_marker _), Parse_of_marker env _ (metaOf_marker _),
      hmf1, metaFields_metaOf _ hsep3]
    show (tokenSet _).foldl parseToken [] = (tokenSet _).foldl parseToken []
    rw [foldl_parseToken_filter (tokenSet (fields1.filter fun t => !t.isEmpty)),
      tokenSet_filter, List.filter_filter, List.filter_filter]
    congr 2
    apply List.filter_congr
    intro x _
    exact Bool.and_comm _ _
  · intro k v hk hmem hmax
    rw [ofString_find env _ (metaOf_marker _), hmf1, fieldValue]
    have hkey : hasKey k (k ++ '=' :: v) = true := by
      simp [hasKey, tokenKey_append k v hk]
    have hg : greatest ((fields1.filter fun t => !t.isEmpty).filter (hasKey k)) =
        some (k ++ '=' :: v) := by
      apply greatest_of
      · rw [List.mem_filter, List.mem_filter]
        exact ⟨⟨hmem, by simp⟩, hkey⟩
      · intro x hx
        rw [List.mem_filter, List.mem_filter] at hx
        obtain ⟨⟨hx1, _⟩, hx2⟩ := hx
        simp only [hasKey, Bool.and_eq_true, decide_eq_true_eq] at hx2
        have hsplit := token_split x hx2.1
        rw [hx2.2] at hsplit
        rw [hsplit]
        exact hmax _ (hsplit ▸ hx1)
    rw [hg]
    simp [tokenVal_append k v hk]

/-- Witness of C30: the fields `N=a`, `junk`, `N=b` in two orders; the value kept for
`N` is `b`. -/
theorem C30_field_order_irrelevant_witness :
    (WalletAssetMeta.ofString metaEnvExample
      (metaOf ["N=a".toList, "junk".toList, "N=b".toList]))._values =
      (WalletAssetMeta.ofString metaEnvExample
        (metaOf ["N=b".toList, "N=a".toList, "junk".toList]))._values ∧
    (WalletAssetMeta.ofString metaEnvExample
      (metaOf ["N=a".toList, "junk".toList, "N=b".toList]))._values =
      [("N".toList, "b".toList)] :=
  ⟨(C30_field_order_irrelevant metaEnvExample ["N=a".toList, "junk".toList, "N=b".toList]
      ["N=b".toList, "N=a".toList, "junk".toList] (by decide) (by decide)).1,
    by decide⟩

end beam.wallet
